import Mathlib

/-!
# Attribute views: a shallow embedding of `kernel/model/attribute_view.go`

The Go functions load an attribute view from storage, change it in memory and
save it back; some of them also write attributes of a document block through
the running transaction.  Here every function takes the state of the outside
world (`World`: the persisted attribute views, the trees of the transaction,
the supply of node IDs) and returns a `Res ε World`:

* `Res.ok w`    : the function returned a nil error, the world is now `w`;
* `Res.err e w` : the function returned the error `e`, the world is now `w`;
* `Res.panic`   : the Go runtime panicked (nil dereference, index out of range).

Slices of pointers are lists of values; the objects come fresh from JSON
decoding, so no two list positions alias.  The one place where the source tests
slice elements for nil (`Value.MSelect`) keeps nil elements (`Option`).
-/

namespace AttrView

/-! ## Data model (package `av`, used by the source file) -/

/-- Modelled from the spec: `av.ColumnType` is a string tag (the source converts
`operation.Typ` with `av.ColumnType(operation.Typ)`). -/
abbrev ColumnType := String

/-- Modelled from the spec: the tag of the anchor column type, `Block`. -/
def ColumnTypeBlock : ColumnType := "block"
/-- Modelled from the spec: supported kind `text`. -/
def ColumnTypeText : ColumnType := "text"
/-- Modelled from the spec: supported kind `number`. -/
def ColumnTypeNumber : ColumnType := "number"
/-- Modelled from the spec: supported kind `date`. -/
def ColumnTypeDate : ColumnType := "date"
/-- Modelled from the spec: supported kind `select`. -/
def ColumnTypeSelect : ColumnType := "select"
/-- Modelled from the spec: supported kind `mSelect`. -/
def ColumnTypeMSelect : ColumnType := "mSelect"

/-- Modelled from the spec: `SelectOption: {Name, Color}` (`av.ColumnSelectOption`). -/
structure ColumnSelectOption where
  Name : String
  Color : String
deriving DecidableEq, Repr

/-- Modelled from the spec: `Column: {ID, Name, Type, Options}`. -/
structure Column where
  ID : String
  Name : String
  Typ : ColumnType
  Options : List ColumnSelectOption
deriving DecidableEq, Repr

/-- Modelled from the spec: the `BlockRef` variant of a cell value
(`cell.Value.Block.ID` in the source), with the anchor display text. -/
structure ValueBlock where
  ID : String
  Content : String
deriving DecidableEq, Repr

/-- Modelled from the spec: one select reference of a cell
(`cell.Value.MSelect[j].Content`, `.Color` in the source). -/
structure ValueSelect where
  Content : String
  Color : String
deriving DecidableEq, Repr

/-- Modelled from the spec: `Value: tagged variant over {BlockRef, Text, Number,
Date, SelectRefs}`.  `Block` is a pointer and `MSelect` a nil-able slice of
pointers in the source (`nil != cell.Value.MSelect`,
`nil != cell.Value.MSelect[0]`). -/
structure Value where
  Block : Option ValueBlock
  Text : Option String
  Number : Option Int
  Date : Option Int
  MSelect : Option (List (Option ValueSelect))
deriving DecidableEq, Repr

/-- Modelled from the spec: `Cell: {ID, Type, Value}`; `Value` may be unset
(`nil == cell.Value` in the source). -/
structure Cell where
  ID : String
  Value : Option Value
  ValueType : ColumnType
deriving DecidableEq, Repr

/-- Modelled from the spec: `Row: {ID, Cells}`. -/
structure Row where
  ID : String
  Cells : List Cell
deriving DecidableEq, Repr

/-- Modelled from the spec: the display copy of a column in a view
(`ID, Name, Type, Width, Wrap, Hidden`). -/
structure TableColumn where
  ID : String
  Name : String
  Typ : ColumnType
  Width : String
  Wrap : Bool
  Hidden : Bool
deriving DecidableEq, Repr

/-- Modelled from the spec: a materialized display row `{ID, Cells}`. -/
structure TableRow where
  ID : String
  Cells : List Cell
deriving DecidableEq, Repr

/-- Modelled from the spec: `Table: {Columns, Filters, Sorts, Rows}`; filter and
sort rules are kept as uninterpreted payloads. -/
structure Table where
  Columns : List TableColumn
  Filters : List String
  Sorts : List String
  Rows : List TableRow
deriving DecidableEq, Repr

/-- Modelled from the spec: `View.Type` is a tag, `Table` among others. -/
abbrev ViewType := String

/-- Modelled from the spec: the tag of table views (`av.ViewTypeTable`). -/
def ViewTypeTable : ViewType := "table"

/-- Modelled from the spec: `View: {ID, Type, Table}`. -/
structure View where
  ID : String
  Name : String
  Typ : ViewType
  Table : Table
deriving DecidableEq, Repr

/-- Modelled from the spec: `AttributeView: {ID, Name, Columns, Rows, Views,
CurrentViewID}`. -/
structure AttributeView where
  ID : String
  Name : String
  Columns : List Column
  Rows : List Row
  Views : List View
  CurrentViewID : String
deriving DecidableEq, Repr

/-- Modelled from the spec: `av.NewCell(valueType)`, an empty cell of the given
type; `id` is the fresh node ID it draws. -/
def NewCell (id : String) (valueType : ColumnType) : Cell :=
  { ID := id, Value := none, ValueType := valueType }

/-- Modelled from the spec: `av.NewCellBlock(blockID, blockContent)`, a Block
cell referencing the source block and its display text. -/
def NewCellBlock (id : String) (blockID blockContent : String) : Cell :=
  { ID := id,
    Value := some { Block := some { ID := blockID, Content := blockContent },
                    Text := none, Number := none, Date := none, MSelect := none },
    ValueType := ColumnTypeBlock }

/-- Modelled from the spec: `row.GetBlockCell()`, the row anchor, i.e. the
Block-typed cell of the row (the first one), or nil. -/
def Row.GetBlockCell (row : Row) : Option Cell :=
  row.Cells.find? (fun cell => cell.ValueType == ColumnTypeBlock)

/-! ## Operation requests and outcomes -/

/-- Payload of an operation (`operation.Data`, an `interface{}` in the source):
a string, a boolean, a string-keyed record of strings, or any other JSON. -/
inductive OperationData where
  | str (s : String)
  | bool (b : Bool)
  | record (fields : List (String × String))
  | json (raw : String)
deriving DecidableEq, Repr

/-- Modelled from the spec: the `Operation` request (the fields the source
file reads). -/
structure Operation where
  ID : String
  AvID : String
  ParentID : String
  ViewID : String
  RowID : String
  SrcIDs : List String
  PreviousID : String
  Typ : String
  Name : String
  Data : OperationData
deriving DecidableEq, Repr

/-- Outcome of a Go function run against a state of type `σ`, with errors of
type `ε`. -/
inductive Res (ε σ : Type) where
  | ok (s : σ)
  | err (e : ε) (s : σ)
  | panic
deriving Repr

/-- State reached by an outcome, when the function returned at all. -/
def Res.state? {ε σ : Type} : Res ε σ → Option σ
  | .ok s => some s
  | .err _ s => some s
  | .panic => none

/-- Error returned by an outcome, when the function returned one. -/
def Res.error? {ε σ : Type} : Res ε σ → Option ε
  | .ok _ => none
  | .err e _ => some e
  | .panic => none

/-! ## Document trees and the transaction -/

/-- Node type tag of the document tree (`ast.NodeType`). -/
abbrev NodeType := String

/-- Tag of attribute view nodes (`ast.NodeAttributeView`). -/
def NodeAttributeView : NodeType := "NodeAttributeView"

/-- A block of a document tree, with its attributes (`node.KramdownIAL` read
through `parse.IAL2Map`) as a name/value list.  `RefText` is what
`getNodeRefText(node)` returns and `Buildable` tells whether
`sql.BuildBlockFromNode(node, tree)` returns a non-nil block. -/
structure Node where
  ID : String
  Typ : NodeType
  KramdownIAL : List (String × String)
  RefText : String
  Buildable : Bool
deriving DecidableEq, Repr

/-- A document tree (`parse.Tree`): its blocks. -/
structure Tree where
  ID : String
  Nodes : List Node
deriving DecidableEq, Repr

/-- The world the functions run against. -/
structure World where
  /-- The persisted attribute views. -/
  avs : List AttributeView
  /-- Whether `av.SaveAttributeView` succeeds. -/
  avWritable : Bool
  /-- The trees the transaction can load. -/
  trees : List Tree
  /-- Whether `setNodeAttrsWithTx` succeeds. -/
  txWritable : Bool
  /-- The values `ast.NewNodeID()` returns, in order. -/
  ids : Nat → String
  /-- How many node IDs have been drawn. -/
  nextID : Nat

/-! ## Collaborators -/

/-- Modelled from the spec: `Load(avID) -> AttributeView | NotFoundError`
(`av.ParseAttributeView`). -/
def ParseAttributeView (w : World) (avID : String) : Except String AttributeView :=
  match w.avs.find? (fun a => a.ID == avID) with
  | some a => .ok a
  | none => .error "attribute view not found"

/-- Replace the stored object of the same ID, or add it. -/
def putAttributeView : List AttributeView → AttributeView → List AttributeView
  | [], a => [a]
  | x :: xs, a => if x.ID == a.ID then a :: xs else x :: putAttributeView xs a

/-- Modelled from the spec: the `WriteError` of a store save. -/
def ErrWriteFailed : String := "write attribute view failed"

/-- Modelled from the spec: `Save(AttributeView) -> ok | WriteError`, always
writing the complete object (`av.SaveAttributeView`). -/
def SaveAttributeView (w : World) (attrView : AttributeView) : Except String World :=
  if w.avWritable then .ok { w with avs := putAttributeView w.avs attrView }
  else .error ErrWriteFailed

/-- Save and return: the tail `err = av.SaveAttributeView(attrView); return`
shared by the mutation functions. -/
def saveAndReturn (w : World) (attrView : AttributeView) : Res String World :=
  match SaveAttributeView w attrView with
  | .ok w1 => .ok w1
  | .error e => .err e w

/-- Modelled from the spec: `av.ErrViewNotFound`. -/
def ErrViewNotFound : String := "view not found"

/-- First position of a list whose element satisfies `p`, with the element:
the Go idiom `for i, x := range xs { if p(x) { ...; break } }`. -/
def findWithIndex {α : Type} (p : α → Bool) : List α → Option (Nat × α)
  | [] => none
  | x :: xs =>
    if p x then some (0, x)
    else match findWithIndex p xs with
      | some (i, y) => some (i + 1, y)
      | none => none

/-- Modelled from the spec: `attrView.GetView(viewID)`, the view of that ID
(with its position in `Views`, standing for the pointer), or `ErrViewNotFound`. -/
def AttributeView.GetView (attrView : AttributeView) (viewID : String) :
    Except String (Nat × View) :=
  match findWithIndex (fun v => v.ID == viewID) attrView.Views with
  | some r => .ok r
  | none => .error ErrViewNotFound

/-- Modelled from the spec: `util.InsertElem(s, index, value)`, reinsertion at a
position: `value` ends at position `index`, or at the end when the slice is
shorter. -/
def InsertElem {α : Type} (s : List α) (index : Nat) (value : α) : List α :=
  s.take index ++ value :: s.drop index

/-- Run `f` over every element in order; `none` as soon as one run panics. -/
def forEach {α : Type} (f : α → Option α) : List α → Option (List α)
  | [] => some []
  | x :: xs =>
    match f x with
    | none => none
    | some y =>
      match forEach f xs with
      | none => none
      | some ys => some (y :: ys)

/-! ## Column operations -/

/-- The index after the element whose ID is `previousID`, 0 when there is none:
`for i, x := range xs { if x.ID == previousID { previousIndex = i + 1; break } }`. -/
def previousIndexOf {α : Type} (getID : α → String) (xs : List α) (previousID : String) : Nat :=
  match findWithIndex (fun x => getID x == previousID) xs with
  | some (i, _) => i + 1
  | none => 0

/-- Body of the row loop of `sortAttributeViewColumn` (lines 470-472):
`cel := row.Cells[index]` panics when the row is too short. -/
def sortRowCells (index previousIndex : Nat) (row : Row) : Option Row :=
  match row.Cells[index]? with
  | none => none
  | some cel => some { row with Cells := InsertElem (row.Cells.eraseIdx index) previousIndex cel }

/-- The function `sortAttributeViewColumn` (lines 441-477). -/
def sortAttributeViewColumn (w : World) (operation : Operation) : Res String World :=
  match ParseAttributeView w operation.AvID with
  | .error e => .err e w
  | .ok attrView =>
    match findWithIndex (fun column => column.ID == operation.ID) attrView.Columns with
    | none => .ok w
    | some (index, col) =>
      let columns := attrView.Columns.eraseIdx index
      let previousIndex := previousIndexOf Column.ID columns operation.PreviousID
      let columns := InsertElem columns previousIndex col
      match forEach (sortRowCells index previousIndex) attrView.Rows with
      | none => .panic
      | some rows => saveAndReturn w { attrView with Columns := columns, Rows := rows }

/-- The supported column kinds of the `switch colType` of lines 499-500 and
534-535. -/
def supportedColumnType (colType : ColumnType) : Bool :=
  colType == ColumnTypeText || colType == ColumnTypeNumber || colType == ColumnTypeDate ||
    colType == ColumnTypeSelect || colType == ColumnTypeMSelect

/-- Row loop of `addAttributeViewColumn` (lines 505-507): every row gets one new
empty cell; the `k`-th row draws the node ID number `n + k`. -/
def appendNewCells (ids : Nat → String) (colType : ColumnType) : Nat → List Row → List Row
  | _, [] => []
  | n, row :: rows =>
    { row with Cells := row.Cells ++ [NewCell (ids n) colType] } ::
      appendNewCells ids colType (n + 1) rows

/-- The function `addAttributeViewColumn` (lines 487-517). -/
def addAttributeViewColumn (w : World) (operation : Operation) : Res String World :=
  match ParseAttributeView w operation.AvID with
  | .error e => .err e w
  | .ok attrView =>
    match attrView.GetView operation.ViewID with
    | .error e => .err e w
    | .ok (vi, view) =>
      let colType : ColumnType := operation.Typ
      if supportedColumnType colType then
        let col : Column :=
          { ID := w.ids w.nextID, Name := operation.Name, Typ := colType, Options := [] }
        let view1 : View :=
          { view with Table := { view.Table with
              Columns := view.Table.Columns ++
                [{ ID := col.ID, Name := col.Name, Typ := col.Typ,
                   Width := "", Wrap := false, Hidden := false }] } }
        let rows := appendNewCells w.ids colType (w.nextID + 1) attrView.Rows
        let w1 := { w with nextID := w.nextID + 1 + attrView.Rows.length }
        saveAndReturn w1
          { attrView with
            Columns := attrView.Columns ++ [col],
            Views := attrView.Views.set vi view1,
            Rows := rows }
      else
        .err ("invalid column type [" ++ operation.Typ ++ "]") w

/-- Body of the row loop of `removeAttributeViewColumn` (lines 847-851). -/
def removeRowCell (i : Nat) (row : Row) : Row :=
  if row.Cells.length ≤ i then row else { row with Cells := row.Cells.eraseIdx i }

/-- The function `removeAttributeViewColumn` (lines 837-859). -/
def removeAttributeViewColumn (w : World) (columnID avID : String) : Res String World :=
  match ParseAttributeView w avID with
  | .error e => .err e w
  | .ok attrView =>
    match findWithIndex (fun column => column.ID == columnID) attrView.Columns with
    | some (i, _) =>
      saveAndReturn w
        { attrView with
          Columns := attrView.Columns.eraseIdx i,
          Rows := attrView.Rows.map (removeRowCell i) }
    | none => saveAndReturn w attrView

/-! ## Select options -/

/-- Field of a record payload: `data[key].(string)`; `none` is the panic of the
type assertion on a missing field. -/
def recordField (fields : List (String × String)) (key : String) : Option String :=
  match fields.find? (fun kv => kv.1 == key) with
  | some kv => some kv.2
  | none => none

/-- Second option loop of `updateAttributeViewColumnOption` (lines 701-709): the
first option named `oldName` gets the new name and color. -/
def renameOption (oldName newName newColor : String) :
    List ColumnSelectOption → List ColumnSelectOption
  | [] => []
  | opt :: opts =>
    if opt.Name != oldName then opt :: renameOption oldName newName newColor opts
    else { Name := newName, Color := newColor } :: opts

/-- Option part of `updateAttributeViewColumnOption` for the column found
(lines 692-710). -/
def updateOptions (oldName newName newColor : String)
    (options : List ColumnSelectOption) : List ColumnSelectOption :=
  match findWithIndex (fun opt => opt.Name == newName) options with
  | some (j, _) => options.eraseIdx j
  | none => renameOption oldName newName newColor options

/-- Position of the first reference whose content is `name`
(`for j, opt := range cell.Value.MSelect { if opt.Content == name ...`);
the outer `none` is the nil dereference on a nil element met before. -/
def findContent (name : String) : List (Option ValueSelect) → Option (Option Nat)
  | [] => some none
  | none :: _ => none
  | some opt :: rest =>
    if opt.Content == name then some (some 0)
    else match findContent name rest with
      | none => none
      | some r => some (r.map (· + 1))

/-- Relabel the first reference whose content is `oldName` (lines 736-741);
`none` is the nil dereference on a nil element met before. -/
def relabelContent (oldName newName newColor : String) :
    List (Option ValueSelect) → Option (List (Option ValueSelect))
  | [] => some []
  | none :: _ => none
  | some opt :: rest =>
    if oldName == opt.Content then some (some { Content := newName, Color := newColor } :: rest)
    else match relabelContent oldName newName newColor rest with
      | none => none
      | some rest1 => some (some opt :: rest1)

/-- What `updateAttributeViewColumnOption` does to the cell at the column index
when its value is set (lines 720-744); `none` is a panic. -/
def updateCellOption (oldName newName newColor : String) (cell : Cell) : Option Cell :=
  match cell.Value with
  | none => some cell
  | some value =>
    match value.MSelect with
    | none => some cell
    | some (some first :: rest) =>
      if oldName == first.Content then
        some { cell with Value := some { value with
          MSelect := some (some { Content := newName, Color := newColor } :: rest) } }
      else some cell
    | some mSelect =>
      match findContent newName mSelect with
      | none => none
      | some (some j) =>
        some { cell with Value := some { value with MSelect := some (mSelect.eraseIdx j) } }
      | some none =>
        match relabelContent oldName newName newColor mSelect with
        | none => none
        | some mSelect1 => some { cell with Value := some { value with MSelect := some mSelect1 } }

/-- The cell loop of the option functions
(`for i, cell := range row.Cells { if colIndex != i { continue } ...; break }`):
only the cell at `colIndex`, when the row has one, is touched. -/
def onCellAt (f : Cell → Option Cell) (colIndex : Nat) (row : Row) : Option Row :=
  match row.Cells[colIndex]? with
  | none => some row
  | some cell =>
    match f cell with
    | none => none
    | some cell1 => some { row with Cells := row.Cells.set colIndex cell1 }

/-- The function `updateAttributeViewColumnOption` (lines 671-751). -/
def updateAttributeViewColumnOption (w : World) (operation : Operation) : Res String World :=
  let avID := operation.ParentID
  match ParseAttributeView w avID with
  | .error e => .err e w
  | .ok attrView =>
    let colID := operation.ID
    match operation.Data with
    | .record data =>
      match recordField data "oldName", recordField data "newName",
          recordField data "newColor" with
      | some oldName, some newName, some newColor =>
        let (colIndex, columns) :=
          match findWithIndex (fun col => col.ID == colID) attrView.Columns with
          | some (i, col) =>
            (i, attrView.Columns.set i
              { col with Options := updateOptions oldName newName newColor col.Options })
          | none => (0, attrView.Columns)
        match forEach (onCellAt (updateCellOption oldName newName newColor) colIndex)
            attrView.Rows with
        | none => .panic
        | some rows => saveAndReturn w { attrView with Columns := columns, Rows := rows }
      | _, _, _ => .panic
    | _ => .panic

/-- Option loop of `removeAttributeViewColumnOption` (lines 771-778): the first
option named `optName` is deleted. -/
def removeOption (optName : String) : List ColumnSelectOption → List ColumnSelectOption
  | [] => []
  | opt :: opts =>
    if opt.Name != optName then opt :: removeOption optName opts else opts

/-- Delete the first reference whose content is `optName` (lines 795-800);
`none` is the nil dereference on a nil element met before. -/
def removeContent (optName : String) :
    List (Option ValueSelect) → Option (List (Option ValueSelect))
  | [] => some []
  | none :: _ => none
  | some opt :: rest =>
    if optName == opt.Content then some rest
    else match removeContent optName rest with
      | none => none
      | some rest1 => some (some opt :: rest1)

/-- What `removeAttributeViewColumnOption` does to the cell at the column index
(lines 788-802); `none` is a panic. -/
def removeCellOption (optName : String) (cell : Cell) : Option Cell :=
  match cell.Value with
  | none => some cell
  | some value =>
    match value.MSelect with
    | none => some cell
    | some (some first :: _) =>
      if optName == first.Content then some { cell with Value := none } else some cell
    | some mSelect =>
      match removeContent optName mSelect with
      | none => none
      | some mSelect1 => some { cell with Value := some { value with MSelect := some mSelect1 } }

/-- The function `removeAttributeViewColumnOption` (lines 753-809). -/
def removeAttributeViewColumnOption (w : World) (operation : Operation) : Res String World :=
  let avID := operation.ParentID
  match ParseAttributeView w avID with
  | .error e => .err e w
  | .ok attrView =>
    let colID := operation.ID
    match operation.Data with
    | .str optName =>
      let (colIndex, columns) :=
        match findWithIndex (fun col => col.ID == colID) attrView.Columns with
        | some (i, col) =>
          (i, attrView.Columns.set i { col with Options := removeOption optName col.Options })
        | none => (0, attrView.Columns)
      match forEach (onCellAt (removeCellOption optName) colIndex) attrView.Rows with
      | none => .panic
      | some rows => saveAndReturn w { attrView with Columns := columns, Rows := rows }
    | _ => .panic

/-- The select references of a cell, by name: the contents of the non-nil
elements of `cell.Value.MSelect`. -/
def Cell.selectRefs (cell : Cell) : List String :=
  match cell.Value with
  | none => []
  | some value =>
    match value.MSelect with
    | none => []
    | some mSelect => mSelect.filterMap (fun o => o.map ValueSelect.Content)

/-! ## Blocks: the attribute mirror -/

/-- The attribute name `custom-avs` (line 888). -/
def NodeAttrNameAVs : String := "custom-avs"

/-- The attribute name prefix `custom-av-col-` (line 889). -/
def NodeAttrNamePrefixAvCol : String := "custom-av-col-"

/-- Read of a Go `map[string]string`: the value, or the empty string. -/
def getAttr (attrs : List (String × String)) (name : String) : String :=
  match attrs.find? (fun kv => kv.1 == name) with
  | some kv => kv.2
  | none => ""

/-- Write of a Go `map[string]string`. -/
def setAttr : List (String × String) → String → String → List (String × String)
  | [], name, value => [(name, value)]
  | kv :: attrs, name, value =>
    if kv.1 == name then (name, value) :: attrs else kv :: setAttr attrs name value

/-- The library function `gulu.Str.RemoveDuplicatedElem`: every element once, at
its first position. -/
def RemoveDuplicatedElem : List String → List String
  | [] => []
  | x :: xs => x :: (RemoveDuplicatedElem xs).filter (fun y => y != x)

/-- Modelled from the spec: `ErrBlockNotFound`, the `NotFound` error of a block. -/
def ErrBlockNotFound : String := "block not found"

/-- The lookup `treenode.GetNodeInTree(tree, id)`: the block of that ID, or nil. -/
def GetNodeInTree (tree : Tree) (id : String) : Option Node :=
  tree.Nodes.find? (fun n => n.ID == id)

/-- Modelled from the spec: `ResolveBlock(blockID) -> BlockHandle | NotFound`
(`tx.loadTree(id)`): the tree that holds the block. -/
def loadTree (w : World) (id : String) : Except String Tree :=
  match w.trees.find? (fun t => t.Nodes.any (fun n => n.ID == id)) with
  | some t => .ok t
  | none => .error ErrBlockNotFound

/-- Replace the first element satisfying `p`. -/
def replaceFirst {α : Type} (p : α → Bool) (y : α) : List α → List α
  | [] => []
  | x :: xs => if p x then y :: xs else x :: replaceFirst p y xs

/-- The call `tx.writeTree(tree)`: the transaction holds the tree under its ID. -/
def writeTree : List Tree → Tree → List Tree
  | [], tree => [tree]
  | t :: trees, tree => if t.ID == tree.ID then tree :: trees else t :: writeTree trees tree

/-- Modelled from the spec: `SetBlockAttributes(blockID, map) -> ok | error`
(`setNodeAttrsWithTx(tx, node, tree, attrs)`): the node of the tree gets the
attributes and the tree is written to the transaction.  Returns the world and
the tree as they are afterwards. -/
def setNodeAttrsWithTx (w : World) (node : Node) (tree : Tree)
    (attrs : List (String × String)) : Except String (World × Tree) :=
  if w.txWritable then
    let tree1 : Tree :=
      { tree with Nodes :=
          replaceFirst (fun n => n.ID == node.ID) { node with KramdownIAL := attrs } tree.Nodes }
    .ok ({ w with trees := writeTree w.trees tree1 }, tree1)
  else .error "write block attributes failed"

/-- The duplicate check of `addAttributeViewBlock` (lines 220-229): whether some
row is anchored to the block; `none` is the nil dereference of
`blockCell.Value.Block.ID` on an anchor cell without a block value. -/
def anchoredTo (blockID : String) : List Row → Option Bool
  | [] => some false
  | row :: rows =>
    match row.GetBlockCell with
    | none => anchoredTo blockID rows
    | some blockCell =>
      match blockCell.Value with
      | none => none
      | some value =>
        match value.Block with
        | none => none
        | some block => if block.ID == blockID then some true else anchoredTo blockID rows

/-- The cells of the new row (lines 233-240): the `k`-th column draws the node
ID number `n + k`. -/
def newRowCells (ids : Nat → String) (blockID refText : String) : Nat → List Column → List Cell
  | _, [] => []
  | n, col :: cols =>
    (if ColumnTypeBlock != col.Typ then NewCell (ids n) col.Typ
     else NewCellBlock (ids n) blockID refText) :: newRowCells ids blockID refText (n + 1) cols

/-- The column placeholders written to the block attributes (line 235). -/
def placeholderAttrs (avID : String) :
    List (String × String) → List Column → List (String × String)
  | attrs, [] => attrs
  | attrs, col :: cols =>
    if ColumnTypeBlock != col.Typ then
      placeholderAttrs avID (setAttr attrs (NodeAttrNamePrefixAvCol ++ avID ++ "-" ++ col.ID) "") cols
    else placeholderAttrs avID attrs cols

/-- The library call `strings.Split(s, ",")`: the pieces of `s` between its
commas (a string without comma is its own single piece). -/
def splitIDs (s : String) : List String :=
  s.split (fun c => c == ',')

/-- The merge of the attribute view ID into `custom-avs` (lines 242-249). -/
def mergeAvID (attrs : List (String × String)) (avID : String) : List (String × String) :=
  if "" == getAttr attrs NodeAttrNameAVs then setAttr attrs NodeAttrNameAVs avID
  else
    let avIDs := splitIDs (getAttr attrs NodeAttrNameAVs)
    let avIDs := avIDs ++ [avID]
    let avIDs := RemoveDuplicatedElem avIDs
    setAttr attrs NodeAttrNameAVs (",".intercalate avIDs)

/-- The insertion of the new row (lines 255-264). -/
def insertRow (rows : List Row) (row : Row) (previousID : String) : List Row :=
  if "" == previousID then row :: rows
  else
    match findWithIndex (fun r => r.ID == previousID) rows with
    | some (i, _) => rows.take (i + 1) ++ (row :: rows.drop (i + 1))
    | none => rows

/-- The function `addAttributeViewBlock` (lines 196-268); it returns the world
and the tree (which the source mutates through its pointer). -/
def addAttributeViewBlock (w : World) (blockID : String) (operation : Operation)
    (tree : Tree) : Res String (World × Tree) :=
  match GetNodeInTree tree blockID with
  | none => .err ErrBlockNotFound (w, tree)
  | some node =>
    if NodeAttributeView == node.Typ then .ok (w, tree)
    else if !node.Buildable then .err ErrBlockNotFound (w, tree)
    else
      match ParseAttributeView w operation.AvID with
      | .error e => .err e (w, tree)
      | .ok attrView =>
        match anchoredTo blockID attrView.Rows with
        | none => .panic
        | some true => .ok (w, tree)
        | some false =>
          let row : Row :=
            { ID := w.ids w.nextID,
              Cells := newRowCells w.ids blockID node.RefText (w.nextID + 1) attrView.Columns }
          let attrs := placeholderAttrs operation.AvID node.KramdownIAL attrView.Columns
          let attrs := mergeAvID attrs operation.AvID
          let w1 := { w with nextID := w.nextID + 1 + attrView.Columns.length }
          match setNodeAttrsWithTx w1 node tree attrs with
          | .error e => .err e (w1, tree)
          | .ok (w2, tree2) =>
            let rows := insertRow attrView.Rows row operation.PreviousID
            match SaveAttributeView w2 { attrView with Rows := rows } with
            | .error e => .err e (w2, tree2)
            | .ok w3 => .ok (w3, tree2)

/-- Codes of transaction failures (`TxErrCodeBlockNotFound`,
`TxErrWriteAttributeView`). -/
inductive TxErrCode where
  | TxErrCodeBlockNotFound
  | TxErrWriteAttributeView
deriving DecidableEq, Repr

/-- The coded failure `TxErr{code, id, msg}` of a transaction step. -/
structure TxErr where
  code : TxErrCode
  id : String
  msg : String
deriving DecidableEq, Repr

/-- The loop of `doInsertAttrViewBlock` (lines 187-192). -/
def insertBlocks (operation : Operation) : World → Tree → List String → Res TxErr World
  | w, _, [] => .ok w
  | w, tree, id :: srcIDs =>
    match addAttributeViewBlock w id operation tree with
    | .ok (w1, tree1) => insertBlocks operation w1 tree1 srcIDs
    | .err avErr (w1, _) =>
      .err { code := .TxErrWriteAttributeView, id := operation.AvID, msg := avErr } w1
    | .panic => .panic

/-- The function `doInsertAttrViewBlock` (lines 179-194). -/
def doInsertAttrViewBlock (w : World) (operation : Operation) : Res TxErr World :=
  match operation.SrcIDs with
  | [] => .panic
  | firstSrcID :: _ =>
    match loadTree w firstSrcID with
    | .error e => .err { code := .TxErrCodeBlockNotFound, id := firstSrcID, msg := e } w
    | .ok tree => insertBlocks operation w tree operation.SrcIDs

/-- The JSON library calls of `doUpdateAttrViewCell`: `gulu.JSON.MarshalJSON` of
the payload, `gulu.JSON.UnmarshalJSON` of that text into the value of the cell,
and `Value.ToJSONString`. -/
structure Codec where
  MarshalJSON : OperationData → Except String String
  UnmarshalJSON : String → Option Value → Except String (Option Value)
  ToJSONString : Option Value → String

/-- The function `doUpdateAttrViewCell` (lines 566-629). -/
def doUpdateAttrViewCell (codec : Codec) (w : World) (operation : Operation) :
    Res TxErr World :=
  let avID := operation.ParentID
  match ParseAttributeView w avID with
  | .error e => .err { code := .TxErrCodeBlockNotFound, id := avID, msg := e } w
  | .ok view =>
    match findWithIndex (fun row => row.ID == operation.RowID && row.GetBlockCell.isSome)
        view.Rows with
    | none => .ok w
    | some (ri, row) =>
      match row.GetBlockCell with
      | none => .ok w
      | some blockCell =>
        match blockCell.Value with
        | none => .panic
        | some blockValue =>
          match blockValue.Block with
          | none => .panic
          | some block =>
            let blockID := block.ID
            match findWithIndex (fun cell => cell.ID == operation.ID) row.Cells with
            | none => .ok w
            | some (ci, c) =>
              match loadTree w blockID with
              | .error _ => .ok w
              | .ok tree =>
                match GetNodeInTree tree blockID with
                | none => .ok w
                | some node =>
                  match codec.MarshalJSON operation.Data with
                  | .error _ => .ok w
                  | .ok data =>
                    match codec.UnmarshalJSON data c.Value with
                    | .error _ => .ok w
                    | .ok value =>
                      let c1 : Cell := { c with Value := value }
                      let attrs := setAttr node.KramdownIAL
                        (NodeAttrNamePrefixAvCol ++ avID ++ "-" ++ c1.ID)
                        (codec.ToJSONString c1.Value)
                      match setNodeAttrsWithTx w node tree attrs with
                      | .error _ => .ok w
                      | .ok (w1, _) =>
                        let view1 : AttributeView :=
                          { view with
                            Rows := view.Rows.set ri { row with Cells := row.Cells.set ci c1 } }
                        match SaveAttributeView w1 view1 with
                        | .error _ => .ok w1
                        | .ok w2 => .ok w2

/-! ## Rendering -/

/-- The view selection of `RenderAttributeView` (lines 49-59); `none` is the nil
`view` pointer.  The caller has checked that `Views` is not empty. -/
def selectView (attrView : AttributeView) : Option (Nat × View) :=
  if "" != attrView.CurrentViewID then
    findWithIndex (fun v => v.ID == attrView.CurrentViewID) attrView.Views
  else
    match attrView.Views with
    | [] => none
    | v :: _ => some (0, v)

/-- The function `renderAttributeViewTable` (lines 72-79). -/
def renderAttributeViewTable (attrView : AttributeView) (view : View) : Table :=
  { view.Table with
    Rows := view.Table.Rows ++
      attrView.Rows.map (fun avRow => ({ ID := avRow.ID, Cells := avRow.Cells } : TableRow)) }

/-- The methods `FilterRows`, `SortRows`, `CalcCols` of a viewable (package
`av`), which the source calls in this order. -/
structure Viewable where
  FilterRows : Table → Table
  SortRows : Table → Table
  CalcCols : Table → Table

/-- The function `RenderAttributeView` (lines 35-70): the viewable and the
attribute view it returns, or the error. -/
def RenderAttributeView (m : Viewable) (w : World) (avID : String) :
    Res String (Option Table × Option AttributeView) :=
  match ParseAttributeView w avID with
  | .error e => .err e (none, none)
  | .ok attrView =>
    if 1 > attrView.Views.length then .err ErrViewNotFound (none, some attrView)
    else
      match selectView attrView with
      | none => .panic
      | some (vi, view) =>
        if view.Typ == ViewTypeTable then
          let viewable := renderAttributeViewTable attrView view
          let viewable := m.CalcCols (m.SortRows (m.FilterRows viewable))
          .ok (some viewable,
               some { attrView with Views := attrView.Views.set vi { view with Table := viewable } })
        else .panic

/-! ## The mutation sequences of the positional invariant -/

/-- Invariant 1 of the data model for one attribute view: every row has exactly
as many cells as there are columns. -/
def Aligned (attrView : AttributeView) : Prop :=
  ∀ row ∈ attrView.Rows, row.Cells.length = attrView.Columns.length

/-- Invariant 1 for every persisted attribute view. -/
def WorldAligned (w : World) : Prop :=
  ∀ attrView ∈ w.avs, Aligned attrView

/-- A Block-typed cell carries a block reference (what `NewCellBlock` builds), so
that `blockCell.Value.Block.ID` can be read. -/
def Cell.anchorOK (cell : Cell) : Bool :=
  cell.ValueType != ColumnTypeBlock ||
    (match cell.Value with
     | some value => value.Block.isSome
     | none => false)

/-- Every Block-typed cell of every persisted row carries a block reference. -/
def WorldAnchored (w : World) : Prop :=
  ∀ attrView ∈ w.avs, ∀ row ∈ attrView.Rows, ∀ cell ∈ row.Cells, cell.anchorOK = true

/-- Rows aligned with the columns, all cells satisfying `P`. -/
def RowsOK (P : Cell → Prop) (attrView : AttributeView) : Prop :=
  ∀ row ∈ attrView.Rows,
    row.Cells.length = attrView.Columns.length ∧ ∀ cell ∈ row.Cells, P cell

/-- The property `RowsOK` for every persisted attribute view. -/
def WorldOK (P : Cell → Prop) (w : World) : Prop :=
  ∀ attrView ∈ w.avs, RowsOK P attrView

/-- A property of cells that the cells built by `NewCell` (for a type other than
Block) and by `NewCellBlock` have. -/
structure CellClosed (P : Cell → Prop) : Prop where
  newCell : ∀ id t, (ColumnTypeBlock != t) = true → P (NewCell id t)
  newCellBlock : ∀ id b r, P (NewCellBlock id b r)

/-- One call of a mutation function that changes columns or adds a row. -/
inductive Mutation where
  | addColumn (operation : Operation)
  | removeColumn (columnID avID : String)
  | sortColumn (operation : Operation)
  | addBlock (blockID : String) (operation : Operation) (tree : Tree)

/-- Run one mutation; `none` when it panics, else the world it leaves (whether
it returned an error or not). -/
def Mutation.run (w : World) : Mutation → Option World
  | .addColumn operation => (addAttributeViewColumn w operation).state?
  | .removeColumn columnID avID => (removeAttributeViewColumn w columnID avID).state?
  | .sortColumn operation => (sortAttributeViewColumn w operation).state?
  | .addBlock blockID operation tree =>
    (addAttributeViewBlock w blockID operation tree).state?.map Prod.fst

/-- Whether the mutation is a call of `addAttributeViewBlock`. -/
def Mutation.isAddBlock : Mutation → Bool
  | .addBlock _ _ _ => true
  | _ => false

/-- Run a finite sequence of mutations, one after the other. -/
def runMutations : World → List Mutation → Option World
  | w, [] => some w
  | w, m :: ms =>
    match m.run w with
    | none => none
    | some w1 => runMutations w1 ms

/-! ## Sample data -/

/-- A sample attribute view: columns Block, Text, Select and one row anchored to
the block `B1`. -/
def sampleView : AttributeView :=
  { ID := "av1", Name := "sample",
    Columns :=
      [{ ID := "colB", Name := "Block", Typ := ColumnTypeBlock, Options := [] },
       { ID := "colT", Name := "Text", Typ := ColumnTypeText, Options := [] },
       { ID := "colS", Name := "Tags", Typ := ColumnTypeMSelect,
         Options := [{ Name := "Red", Color := "1" }, { Name := "Blue", Color := "2" }] }],
    Rows :=
      [{ ID := "r1",
         Cells :=
           [NewCellBlock "cellB" "B1" "first block",
            NewCell "cellT" ColumnTypeText,
            { ID := "cellS",
              Value := some { Block := none, Text := none, Number := none, Date := none,
                              MSelect := some [some { Content := "Green", Color := "3" },
                                               some { Content := "Red", Color := "1" }] },
              ValueType := ColumnTypeMSelect }] }],
    Views :=
      [{ ID := "v1", Name := "table", Typ := ViewTypeTable,
         Table := { Columns := [], Filters := [], Sorts := [], Rows := [] } }],
    CurrentViewID := "" }

/-- A sample document tree with the blocks `B1` and `B2`. -/
def sampleTree : Tree :=
  { ID := "doc1",
    Nodes :=
      [{ ID := "B1", Typ := "NodeParagraph", KramdownIAL := [("id", "B1")],
         RefText := "first block", Buildable := true },
       { ID := "B2", Typ := "NodeParagraph", KramdownIAL := [("id", "B2")],
         RefText := "second block", Buildable := true }] }

/-- A sample world: the sample view persisted, the sample tree loaded, every
write succeeding. -/
def sampleWorld : World :=
  { avs := [sampleView], avWritable := true, trees := [sampleTree], txWritable := true,
    ids := fun n => String.mk (List.replicate (n + 1) 'n'), nextID := 0 }

/-- A sample operation request on the sample view. -/
def sampleOperation : Operation :=
  { ID := "colS", AvID := "av1", ParentID := "av1", ViewID := "v1", RowID := "r1",
    SrcIDs := ["B2"], PreviousID := "", Typ := "number", Name := "Score",
    Data := .str "Red" }

/-- The option names of every column of a persisted attribute view. -/
def optionNamesOf (w : World) (avID : String) : Option (List (List String)) :=
  match ParseAttributeView w avID with
  | .ok attrView =>
    some (attrView.Columns.map (fun col => col.Options.map ColumnSelectOption.Name))
  | .error _ => none

/-- The select references of every cell of every row of a persisted attribute
view. -/
def selectRefsOf (w : World) (avID : String) : Option (List (List (List String))) :=
  match ParseAttributeView w avID with
  | .ok attrView => some (attrView.Rows.map (fun row => row.Cells.map Cell.selectRefs))
  | .error _ => none

/-- The request renaming the option `Red` of the column `colS` to `Blue`, a name
the column already has. -/
def renameRedToBlue : Operation :=
  { sampleOperation with
    Data := .record [("oldName", "Red"), ("newName", "Blue"), ("newColor", "2")] }

/-- The request renaming the option `Red` of the column `colS` to `Purple`, a
name the column does not have yet. -/
def renameRedToPurple : Operation :=
  { sampleOperation with
    Data := .record [("oldName", "Red"), ("newName", "Purple"), ("newColor", "5")] }

/-- The request removing the option `Red` of the column `colS`. -/
def removeRed : Operation :=
  { sampleOperation with Data := .str "Red" }

/-- The scenario of the spec: columns Block, Text, Number and one row anchored
to the block `B1`. -/
def scoreView : AttributeView :=
  { ID := "av2", Name := "scores",
    Columns :=
      [{ ID := "colB", Name := "Block", Typ := ColumnTypeBlock, Options := [] },
       { ID := "colT", Name := "Text", Typ := ColumnTypeText, Options := [] },
       { ID := "colN", Name := "Score", Typ := ColumnTypeNumber, Options := [] }],
    Rows :=
      [{ ID := "r1",
         Cells :=
           [NewCellBlock "cellB" "B1" "first block",
            NewCell "cellT" ColumnTypeText,
            NewCell "cellN" ColumnTypeNumber] }],
    Views :=
      [{ ID := "v1", Name := "table", Typ := ViewTypeTable,
         Table := { Columns := [], Filters := [], Sorts := [], Rows := [] } }],
    CurrentViewID := "v1" }

/-- The world of the scenario: the view `scoreView` persisted. -/
def scoreWorld : World :=
  { sampleWorld with avs := [scoreView] }

/-- A document tree that does not hold the block `B1`. -/
def otherTree : Tree :=
  { ID := "doc2",
    Nodes :=
      [{ ID := "B2", Typ := "NodeParagraph", KramdownIAL := [("id", "B2")],
         RefText := "second block", Buildable := true }] }

/-- The row is anchored to the block: its Block cell references `blockID`. -/
def Row.anchoredAt (row : Row) (blockID : String) : Prop :=
  ∃ cell value block, row.GetBlockCell = some cell ∧ cell.Value = some value ∧
    value.Block = some block ∧ block.ID = blockID

/-- The anchor of the row, when it has one, carries a block reference. -/
def Row.anchorSet (row : Row) : Prop :=
  ∀ cell, row.GetBlockCell = some cell →
    ∃ value block, cell.Value = some value ∧ value.Block = some block

/-- The sample view with a current view ID that matches none of its views. -/
def staleView : AttributeView :=
  { sampleView with CurrentViewID := "gone" }

/-- The world with `staleView` persisted. -/
def staleWorld : World :=
  { sampleWorld with avs := [staleView] }

/-- Viewable methods that leave the table as it is. -/
def plainViewable : Viewable :=
  { FilterRows := fun t => t, SortRows := fun t => t, CalcCols := fun t => t }

/-- A sample codec: the payload text becomes the Text content of the value, and
the serialized value is that text. -/
def sampleCodec : Codec :=
  { MarshalJSON := fun d =>
      match d with
      | .json raw => .ok raw
      | .str s => .ok s
      | _ => .error "unsupported payload",
    UnmarshalJSON := fun data _ =>
      .ok (some { Block := none, Text := some data, Number := none, Date := none,
                  MSelect := none }),
    ToJSONString := fun v =>
      match v with
      | some value => value.Text.getD ""
      | none => "null" }

/-- The request updating the cell `cellT` (under the column `colT`) of the row
`r1`. -/
def updateCellT : Operation :=
  { sampleOperation with ID := "cellT", RowID := "r1", Data := .json "hello" }

/-- The attributes of every block of every tree of the transaction. -/
def blockAttrs (w : World) : List (List (List (String × String))) :=
  w.trees.map (fun t => t.Nodes.map Node.KramdownIAL)

/-- The state after `addAttributeViewBlock` has returned without error for every
ID of the list, in order; `none` when one of the calls fails or panics. -/
def addedAll (operation : Operation) : World → Tree → List String → Option (World × Tree)
  | w, tree, [] => some (w, tree)
  | w, tree, id :: srcIDs =>
    match addAttributeViewBlock w id operation tree with
    | .ok (w1, tree1) => addedAll operation w1 tree1 srcIDs
    | _ => none

/-- The request adding the blocks `B2` and `missing` (which no tree holds) to
the sample view. -/
def batchOperation : Operation :=
  { sampleOperation with SrcIDs := ["B2", "missing"] }

/-! ## Update column and reorder row -/

/-- Column loop of `updateAttributeViewColumn` (lines 536-542): the first column
of that ID gets the name and the type. -/
def retypeColumn (id name : String) (colType : ColumnType) : List Column → List Column
  | [] => []
  | col :: cols =>
    if col.ID == id then { col with Name := name, Typ := colType } :: cols
    else col :: retypeColumn id name colType cols

/-- Display column loop of `updateAttributeViewColumn` (lines 545-551), for one
view. -/
def retypeTableColumn (id name : String) (colType : ColumnType) :
    List TableColumn → List TableColumn
  | [] => []
  | col :: cols =>
    if col.ID == id then { col with Name := name, Typ := colType } :: cols
    else col :: retypeTableColumn id name colType cols

/-- The function `updateAttributeViewColumn` (lines 527-562). -/
def updateAttributeViewColumn (w : World) (operation : Operation) : Res String World :=
  match ParseAttributeView w operation.AvID with
  | .error e => .err e w
  | .ok attrView =>
    let colType : ColumnType := operation.Typ
    if supportedColumnType colType then
      saveAndReturn w
        { attrView with
          Columns := retypeColumn operation.ID operation.Name colType attrView.Columns,
          Views := attrView.Views.map (fun view =>
            { view with Table := { view.Table with
                Columns :=
                  retypeTableColumn operation.ID operation.Name colType view.Table.Columns } }) }
    else
      .err ("invalid column type [" ++ operation.Typ ++ "]") w

/-- The function `sortAttributeViewRow` (lines 401-431). -/
def sortAttributeViewRow (w : World) (operation : Operation) : Res String World :=
  match ParseAttributeView w operation.AvID with
  | .error e => .err e w
  | .ok attrView =>
    match findWithIndex (fun r => r.ID == operation.ID) attrView.Rows with
    | none => .ok w
    | some (index, row) =>
      let rows := attrView.Rows.eraseIdx index
      let previousIndex := previousIndexOf Row.ID rows operation.PreviousID
      saveAndReturn w { attrView with Rows := InsertElem rows previousIndex row }

/-- Number of Block-typed columns of an attribute view. -/
def blockColumns (attrView : AttributeView) : Nat :=
  (attrView.Columns.filter (fun col => col.Typ == ColumnTypeBlock)).length

/-- Invariant 2 of the data model, for columns: every persisted attribute view
has exactly one Block-typed column. -/
def WorldSingleAnchor (w : World) : Prop :=
  ∀ attrView ∈ w.avs, blockColumns attrView = 1

/-- The column ID names no Block-typed column of the attribute view `avID`. -/
def NotAnchorColumn (w : World) (avID columnID : String) : Prop :=
  ∀ attrView, ParseAttributeView w avID = .ok attrView →
    ∀ col ∈ attrView.Columns, col.ID = columnID → col.Typ ≠ ColumnTypeBlock

/-- The request recoloring the option `Red` of the column `colS`: old and new
name are both `Red`. -/
def recolorRed : Operation :=
  { sampleOperation with
    Data := .record [("oldName", "Red"), ("newName", "Red"), ("newColor", "9")] }

/-- A view whose row references the options Red and Green, in this order, under
the multi-select column `colS`. -/
def tagsView : AttributeView :=
  { ID := "av3", Name := "tags",
    Columns :=
      [{ ID := "colB", Name := "Block", Typ := ColumnTypeBlock, Options := [] },
       { ID := "colS", Name := "Tags", Typ := ColumnTypeMSelect,
         Options := [{ Name := "Red", Color := "1" }, { Name := "Green", Color := "3" }] }],
    Rows :=
      [{ ID := "r1",
         Cells :=
           [NewCellBlock "cellB" "B1" "first block",
            { ID := "cellS",
              Value := some { Block := none, Text := none, Number := none, Date := none,
                              MSelect := some [some { Content := "Red", Color := "1" },
                                               some { Content := "Green", Color := "3" }] },
              ValueType := ColumnTypeMSelect }] }],
    Views :=
      [{ ID := "v1", Name := "table", Typ := ViewTypeTable,
         Table := { Columns := [], Filters := [], Sorts := [], Rows := [] } }],
    CurrentViewID := "v1" }

/-- The world with `tagsView` persisted. -/
def tagsWorld : World :=
  { sampleWorld with avs := [tagsView] }

/-- The request removing the option `Red` of the column `colS` of `tagsView`. -/
def removeRedTag : Operation :=
  { sampleOperation with AvID := "av3", ParentID := "av3", ID := "colS", Data := .str "Red" }

/-- The table view of the add column scenario, with the display columns of
Block and Text. -/
def pairTable : View :=
  { ID := "v1", Name := "table", Typ := ViewTypeTable,
    Table :=
      { Columns :=
          [{ ID := "colB", Name := "Block", Typ := ColumnTypeBlock,
             Width := "", Wrap := false, Hidden := false },
           { ID := "colT", Name := "Text", Typ := ColumnTypeText,
             Width := "", Wrap := false, Hidden := false }],
        Filters := [], Sorts := [], Rows := [] } }

/-- The scenario of the spec for add column: columns Block and Text, one row
anchored to the block `B1`, a table view with the two display columns. -/
def pairView : AttributeView :=
  { ID := "av4", Name := "pair",
    Columns :=
      [{ ID := "colB", Name := "Block", Typ := ColumnTypeBlock, Options := [] },
       { ID := "colT", Name := "Text", Typ := ColumnTypeText, Options := [] }],
    Rows :=
      [{ ID := "r1",
         Cells := [NewCellBlock "cellB" "B1" "first block", NewCell "cellT" ColumnTypeText] }],
    Views := [pairTable],
    CurrentViewID := "v1" }

/-- The world with `pairView` persisted. -/
def pairWorld : World :=
  { sampleWorld with avs := [pairView] }

/-- The request adding a Number column named Score to `pairView`. -/
def addScore : Operation :=
  { sampleOperation with AvID := "av4", ParentID := "av4", Typ := "number", Name := "Score" }

/-- The error message of the `default` branch of the type switch (lines 509 and
554): `fmt.Sprintf("invalid column type [%s]", operation.Typ)`. -/
def invalidColumnType (typ : String) : String :=
  "invalid column type [" ++ typ ++ "]"

/-- The request adding the block `B2` to the sample view after a row `nope`,
which the view does not have. -/
def addAfterMissing : Operation :=
  { sampleOperation with PreviousID := "nope" }

/-- The request of the unsupported column type `formula` on the sample view. -/
def formulaOperation : Operation :=
  { sampleOperation with Typ := "formula" }

/-- A view with the three rows `r1`, `r2`, `r3` and a Block column. -/
def threeRows : AttributeView :=
  { ID := "av5", Name := "rows",
    Columns := [{ ID := "colB", Name := "Block", Typ := ColumnTypeBlock, Options := [] }],
    Rows :=
      [{ ID := "r1", Cells := [NewCellBlock "c1" "B1" "first block"] },
       { ID := "r2", Cells := [NewCellBlock "c2" "B2" "second block"] },
       { ID := "r3", Cells := [NewCellBlock "c3" "B3" "third block"] }],
    Views := [pairTable],
    CurrentViewID := "v1" }

/-- The world with `threeRows` persisted. -/
def threeRowsWorld : World :=
  { sampleWorld with avs := [threeRows] }

/-- The request moving the row `r1` of `threeRows` after the row `r2`. -/
def moveFirstAfterSecond : Operation :=
  { sampleOperation with AvID := "av5", ParentID := "av5", ID := "r1", PreviousID := "r2" }

/-- A document tree whose block `B2` is already a row anchor of the attribute
views `av0` and `av9`. -/
def linkedTree : Tree :=
  { ID := "doc3",
    Nodes :=
      [{ ID := "B2", Typ := "NodeParagraph",
         KramdownIAL := [("id", "B2"), ("custom-avs", "av0,av9")],
         RefText := "second block", Buildable := true }] }

/-- The sample world with `linkedTree` loaded. -/
def linkedWorld : World :=
  { sampleWorld with trees := [linkedTree] }

/-- The block a row is anchored to: the ID in the Block value of its anchor
cell (`row.GetBlockCell().Value.Block.ID`), when the row has one. -/
def Row.blockRef (row : Row) : Option String :=
  match row.GetBlockCell with
  | none => none
  | some blockCell =>
    match blockCell.Value with
    | none => none
    | some value => value.Block.map ValueBlock.ID

/-- The blocks referenced by the rows of a persisted attribute view, row by
row. -/
def blockRefsOf (w : World) (avID : String) : Option (List (Option String)) :=
  match ParseAttributeView w avID with
  | .ok attrView => some (attrView.Rows.map Row.blockRef)
  | .error _ => none

/-- The `custom-avs` attribute of a block of a tree. -/
def customAvsOf (tree : Tree) (blockID : String) : Option String :=
  (GetNodeInTree tree blockID).map (fun node => getAttr node.KramdownIAL NodeAttrNameAVs)

/-- The request adding the block `B2` to `tagsView` after a row `r9`, which the
view does not have. -/
def addTagsAfterMissing : Operation :=
  { sampleOperation with AvID := "av3", ParentID := "av3", PreviousID := "r9" }

/-- The request adding the block `B2` to `tagsView` at the head. -/
def addTagsAtHead : Operation :=
  { sampleOperation with AvID := "av3", ParentID := "av3", PreviousID := "" }

/-- The request moving the column `colS` of `tagsView` to the front. -/
def moveTagsFirst : Operation :=
  { sampleOperation with AvID := "av3", ParentID := "av3", ID := "colS", PreviousID := "" }

/-- The view `tagsView` after its multi-select column `colS` has been moved to
the front: `colS` comes first and the Block column second; the row references
the options Red and Green under `colS`. -/
def tagsFirstView : AttributeView :=
  { ID := "av3", Name := "tags",
    Columns :=
      [{ ID := "colS", Name := "Tags", Typ := ColumnTypeMSelect,
         Options := [{ Name := "Red", Color := "1" }, { Name := "Green", Color := "3" }] },
       { ID := "colB", Name := "Block", Typ := ColumnTypeBlock, Options := [] }],
    Rows :=
      [{ ID := "r1",
         Cells :=
           [{ ID := "cellS",
              Value := some { Block := none, Text := none, Number := none, Date := none,
                              MSelect := some [some { Content := "Red", Color := "1" },
                                               some { Content := "Green", Color := "3" }] },
              ValueType := ColumnTypeMSelect },
            NewCellBlock "cellB" "B1" "first block"] }],
    Views :=
      [{ ID := "v1", Name := "table", Typ := ViewTypeTable,
         Table := { Columns := [], Filters := [], Sorts := [], Rows := [] } }],
    CurrentViewID := "v1" }

/-- The world with `tagsFirstView` persisted. -/
def tagsFirstWorld : World :=
  { sampleWorld with avs := [tagsFirstView] }

/-- The request renaming the option `Red` to `Crimson` in the column `colX`,
which `tagsFirstView` does not have. -/
def renameRedUnknownColumn : Operation :=
  { sampleOperation with
    AvID := "av3", ParentID := "av3", ID := "colX",
    Data := .record [("oldName", "Red"), ("newName", "Crimson"), ("newColor", "9")] }

/-- The request removing the option `Red` of the column `colX`, which
`tagsFirstView` does not have. -/
def removeRedUnknownColumn : Operation :=
  { sampleOperation with AvID := "av3", ParentID := "av3", ID := "colX", Data := .str "Red" }

/-- The cells of every row of a persisted attribute view. -/
def cellsOf (w : World) (avID : String) : Option (List (List Cell)) :=
  match ParseAttributeView w avID with
  | .ok attrView => some (attrView.Rows.map Row.Cells)
  | .error _ => none

/-! ## Basic facts -/

theorem findWithIndex_some {α : Type} {p : α → Bool} :
    ∀ {l : List α} {i : Nat} {x : α}, findWithIndex p l = some (i, x) →
      l[i]? = some x ∧ p x = true ∧ ∀ j y, j < i → l[j]? = some y → p y = false
  | [], _, _, h => by simp [findWithIndex] at h
  | a :: l, i, x, h => by
    unfold findWithIndex at h
    by_cases hp : p a = true
    · simp only [hp, if_true, Option.some.injEq, Prod.mk.injEq] at h
      obtain ⟨rfl, rfl⟩ := h
      refine ⟨by simp, hp, ?_⟩
      intro j y hj
      omega
    · simp only [hp] at h
      cases hrec : findWithIndex p l with
      | none => simp [hrec] at h
      | some r =>
        obtain ⟨k, y⟩ := r
        simp only [hrec, Option.some.injEq, Prod.mk.injEq] at h
        obtain ⟨rfl, rfl⟩ := h
        obtain ⟨h1, h2, h3⟩ := findWithIndex_some hrec
        refine ⟨by simpa using h1, h2, ?_⟩
        intro j z hj hz
        cases j with
        | zero =>
          simp only [List.getElem?_cons_zero, Option.some.injEq] at hz
          subst hz
          simpa using hp
        | succ j =>
          simp only [List.getElem?_cons_succ] at hz
          exact h3 j z (by omega) hz

theorem findWithIndex_none {α : Type} {p : α → Bool} :
    ∀ {l : List α}, findWithIndex p l = none → ∀ x ∈ l, p x = false
  | [], _ => by simp
  | a :: l, h => by
    unfold findWithIndex at h
    by_cases hp : p a = true
    · simp [hp] at h
    · simp only [hp] at h
      cases hrec : findWithIndex p l with
      | some r => obtain ⟨k, y⟩ := r; simp [hrec] at h
      | none =>
        intro x hx
        rcases List.mem_cons.1 hx with rfl | hx
        · simpa using hp
        · exact findWithIndex_none hrec x hx

theorem findWithIndex_lt {α : Type} {p : α → Bool} {l : List α} {i : Nat} {x : α}
    (h : findWithIndex p l = some (i, x)) : i < l.length := by
  have h1 := (findWithIndex_some h).1
  exact (List.getElem?_eq_some.1 h1).1

theorem parse_ok {w : World} {avID : String} {attrView : AttributeView}
    (h : ParseAttributeView w avID = .ok attrView) :
    attrView ∈ w.avs ∧ attrView.ID = avID := by
  unfold ParseAttributeView at h
  cases hf : w.avs.find? (fun a => a.ID == avID) with
  | none => simp [hf] at h
  | some a =>
    simp only [hf, Except.ok.injEq] at h
    subst h
    have := List.find?_some hf
    exact ⟨List.mem_of_find?_eq_some hf, by simpa using this⟩

theorem mem_putAttributeView {a x : AttributeView} :
    ∀ {avs : List AttributeView}, x ∈ putAttributeView avs a → x ∈ avs ∨ x = a
  | [], h => by simp [putAttributeView] at h; exact Or.inr h
  | y :: avs, h => by
    unfold putAttributeView at h
    split at h
    · rcases List.mem_cons.1 h with rfl | h
      · exact Or.inr rfl
      · exact Or.inl (List.mem_cons_of_mem _ h)
    · rcases List.mem_cons.1 h with rfl | h
      · exact Or.inl (List.mem_cons_self _ _)
      · rcases mem_putAttributeView h with h | h
        · exact Or.inl (List.mem_cons_of_mem _ h)
        · exact Or.inr h

theorem find_putAttributeView (a : AttributeView) :
    ∀ (avs : List AttributeView),
      (putAttributeView avs a).find? (fun x => x.ID == a.ID) = some a
  | [] => by simp [putAttributeView]
  | y :: avs => by
    unfold putAttributeView
    by_cases hy : (y.ID == a.ID) = true
    · simp [hy]
    · have ih := find_putAttributeView a avs
      simp only [hy, Bool.false_eq_true, if_false, List.find?_cons]
      simpa [hy] using ih

theorem parse_after_save (w : World) (attrView : AttributeView) (avID : String)
    (h : attrView.ID = avID) :
    ParseAttributeView { w with avs := putAttributeView w.avs attrView } avID =
      .ok attrView := by
  unfold ParseAttributeView
  dsimp only
  subst h
  rw [find_putAttributeView]

theorem saveAndReturn_state (w : World) (attrView : AttributeView) :
    (w.avWritable = true ∧
        saveAndReturn w attrView = .ok { w with avs := putAttributeView w.avs attrView }) ∨
      (w.avWritable = false ∧ ∃ e, saveAndReturn w attrView = .err e w) := by
  unfold saveAndReturn SaveAttributeView
  cases hw : w.avWritable
  · exact Or.inr ⟨rfl, ErrWriteFailed, by simp⟩
  · exact Or.inl ⟨rfl, by simp⟩

theorem length_InsertElem {α : Type} (s : List α) (index : Nat) (value : α) :
    (InsertElem s index value).length = s.length + 1 := by
  unfold InsertElem
  simp only [List.length_append, List.length_take, List.length_cons, List.length_drop]
  omega

theorem forEach_forall₂ {α : Type} {f : α → Option α} {Q : α → α → Prop} :
    ∀ {l : List α}, (∀ x ∈ l, ∃ y, f x = some y ∧ Q x y) →
      ∃ l1, forEach f l = some l1 ∧ List.Forall₂ Q l l1
  | [], _ => ⟨[], rfl, List.Forall₂.nil⟩
  | a :: l, h => by
    obtain ⟨y, hy, hq⟩ := h a (List.mem_cons_self _ _)
    obtain ⟨l1, hl1, hf⟩ := forEach_forall₂ (l := l) (fun x hx => h x (List.mem_cons_of_mem _ hx))
    exact ⟨y :: l1, by simp [forEach, hy, hl1], List.Forall₂.cons hq hf⟩

theorem forall₂_mem_right {α : Type} {Q : α → α → Prop} :
    ∀ {l l1 : List α}, List.Forall₂ Q l l1 → ∀ y ∈ l1, ∃ x ∈ l, Q x y
  | _, _, List.Forall₂.nil, y, hy => by simp at hy
  | _, _, List.Forall₂.cons hq hf, y, hy => by
    rcases List.mem_cons.1 hy with rfl | hy
    · exact ⟨_, List.mem_cons_self _ _, hq⟩
    · obtain ⟨x, hx, hxy⟩ := forall₂_mem_right hf y hy
      exact ⟨x, List.mem_cons_of_mem _ hx, hxy⟩

/-! ## Positional invariant -/

theorem saveAndReturn_ok {P : Cell → Prop} {w : World} {attrView : AttributeView}
    (hw : WorldOK P w) (ha : RowsOK P attrView) :
    ∃ w1, (saveAndReturn w attrView).state? = some w1 ∧ WorldOK P w1 := by
  rcases saveAndReturn_state w attrView with ⟨_, h⟩ | ⟨_, e, h⟩
  · refine ⟨_, by rw [h]; rfl, ?_⟩
    intro x hx
    rcases mem_putAttributeView hx with hx | rfl
    · exact hw x hx
    · exact ha
  · exact ⟨w, by rw [h]; rfl, hw⟩

theorem mem_InsertElem {α : Type} {s : List α} {index : Nat} {value x : α}
    (h : x ∈ InsertElem s index value) : x = value ∨ x ∈ s := by
  unfold InsertElem at h
  rcases List.mem_append.1 h with h | h
  · exact Or.inr (List.mem_of_mem_take h)
  · rcases List.mem_cons.1 h with rfl | h
    · exact Or.inl rfl
    · exact Or.inr (List.mem_of_mem_drop h)

theorem sortRowCells_ok {P : Cell → Prop} {index previousIndex n : Nat} {row : Row}
    (h : index < n) (hr : row.Cells.length = n ∧ ∀ cell ∈ row.Cells, P cell) :
    ∃ row1, sortRowCells index previousIndex row = some row1 ∧
      (row1.Cells.length = n ∧ ∀ cell ∈ row1.Cells, P cell) := by
  have hlt : index < row.Cells.length := by omega
  unfold sortRowCells
  rw [List.getElem?_eq_getElem hlt]
  refine ⟨_, rfl, ?_, ?_⟩
  · simp only [length_InsertElem, List.length_eraseIdx, hlt, if_true]
    omega
  · intro cell hcell
    rcases mem_InsertElem hcell with rfl | hcell
    · exact hr.2 _ (List.getElem_mem _)
    · exact hr.2 _ (List.mem_of_mem_eraseIdx hcell)

theorem sortAttributeViewColumn_ok {P : Cell → Prop} (w : World) (operation : Operation)
    (hw : WorldOK P w) :
    ∃ w1, (sortAttributeViewColumn w operation).state? = some w1 ∧ WorldOK P w1 := by
  unfold sortAttributeViewColumn
  cases hp : ParseAttributeView w operation.AvID with
  | error e => exact ⟨w, rfl, hw⟩
  | ok attrView =>
    dsimp only
    have hav : RowsOK P attrView := hw _ (parse_ok hp).1
    cases hf : findWithIndex (fun column => column.ID == operation.ID) attrView.Columns with
    | none => exact ⟨w, rfl, hw⟩
    | some r =>
      obtain ⟨index, col⟩ := r
      have hlt := findWithIndex_lt hf
      obtain ⟨rows, hrows, hall⟩ := forEach_forall₂
        (f := sortRowCells index
          (previousIndexOf Column.ID (attrView.Columns.eraseIdx index) operation.PreviousID))
        (Q := fun _ y => y.Cells.length = attrView.Columns.length ∧ ∀ cell ∈ y.Cells, P cell)
        (l := attrView.Rows)
        (fun row hrow => sortRowCells_ok hlt (hav row hrow))
      simp only [hrows]
      apply saveAndReturn_ok hw
      intro row1 hrow1
      obtain ⟨row, _, hq⟩ := forall₂_mem_right hall row1 hrow1
      refine ⟨?_, hq.2⟩
      simp only [length_InsertElem, List.length_eraseIdx, hlt, if_true]
      rw [hq.1]
      omega

theorem supported_ne_block {t : ColumnType} (h : supportedColumnType t = true) :
    (ColumnTypeBlock != t) = true := by
  unfold supportedColumnType at h
  simp only [Bool.or_eq_true, beq_iff_eq] at h
  rcases h with (((h | h) | h) | h) | h <;> subst h <;> decide

theorem appendNewCells_mem {ids : Nat → String} {colType : ColumnType} {row1 : Row} :
    ∀ {n : Nat} {rows : List Row}, row1 ∈ appendNewCells ids colType n rows →
      ∃ row ∈ rows, ∃ id, row1.Cells = row.Cells ++ [NewCell id colType]
  | _, [], h => by simp [appendNewCells] at h
  | n, row :: rows, h => by
    unfold appendNewCells at h
    rcases List.mem_cons.1 h with rfl | h
    · exact ⟨row, List.mem_cons_self _ _, _, rfl⟩
    · obtain ⟨r, hr, hl⟩ := appendNewCells_mem h
      exact ⟨r, List.mem_cons_of_mem _ hr, hl⟩

theorem addAttributeViewColumn_ok {P : Cell → Prop} (hP : CellClosed P) (w : World)
    (operation : Operation) (hw : WorldOK P w) :
    ∃ w1, (addAttributeViewColumn w operation).state? = some w1 ∧ WorldOK P w1 := by
  unfold addAttributeViewColumn
  cases hp : ParseAttributeView w operation.AvID with
  | error e => exact ⟨w, rfl, hw⟩
  | ok attrView =>
    dsimp only
    have hav : RowsOK P attrView := hw _ (parse_ok hp).1
    cases hv : attrView.GetView operation.ViewID with
    | error e => exact ⟨w, rfl, hw⟩
    | ok r =>
      obtain ⟨vi, view⟩ := r
      dsimp only
      by_cases hs : supportedColumnType operation.Typ = true
      · simp only [hs, if_true]
        apply saveAndReturn_ok
          (w := { w with nextID := w.nextID + 1 + attrView.Rows.length }) hw
        intro row1 hrow1
        obtain ⟨row, hrow, id, hl⟩ := appendNewCells_mem hrow1
        rw [hl]
        refine ⟨?_, ?_⟩
        · simp only [List.length_append, List.length_singleton]
          rw [(hav row hrow).1]
        · intro cell hcell
          rcases List.mem_append.1 hcell with hcell | hcell
          · exact (hav row hrow).2 cell hcell
          · rw [List.mem_singleton.1 hcell]
            exact hP.newCell _ _ (supported_ne_block hs)
      · simp only [hs]
        exact ⟨w, rfl, hw⟩

theorem removeAttributeViewColumn_ok {P : Cell → Prop} (w : World) (columnID avID : String)
    (hw : WorldOK P w) :
    ∃ w1, (removeAttributeViewColumn w columnID avID).state? = some w1 ∧ WorldOK P w1 := by
  unfold removeAttributeViewColumn
  cases hp : ParseAttributeView w avID with
  | error e => exact ⟨w, rfl, hw⟩
  | ok attrView =>
    dsimp only
    have hav : RowsOK P attrView := hw _ (parse_ok hp).1
    cases hf : findWithIndex (fun column => column.ID == columnID) attrView.Columns with
    | none => exact saveAndReturn_ok hw hav
    | some r =>
      obtain ⟨i, col⟩ := r
      have hlt := findWithIndex_lt hf
      apply saveAndReturn_ok hw
      intro row1 hrow1
      obtain ⟨row, hrow, rfl⟩ := List.mem_map.1 hrow1
      have hlen := (hav row hrow).1
      unfold removeRowCell
      have h1 : ¬ row.Cells.length ≤ i := by omega
      have h2 : i < row.Cells.length := by omega
      rw [if_neg h1]
      refine ⟨?_, fun cell hcell => (hav row hrow).2 cell (List.mem_of_mem_eraseIdx hcell)⟩
      simp only [List.length_eraseIdx, hlt, h2, if_true, hlen]

theorem newRowCells_ok {P : Cell → Prop} (hP : CellClosed P) (ids : Nat → String)
    (blockID refText : String) :
    ∀ (n : Nat) (cols : List Column),
      (newRowCells ids blockID refText n cols).length = cols.length ∧
        ∀ cell ∈ newRowCells ids blockID refText n cols, P cell
  | _, [] => ⟨rfl, by simp [newRowCells]⟩
  | n, col :: cols => by
    obtain ⟨h1, h2⟩ := newRowCells_ok hP ids blockID refText (n + 1) cols
    refine ⟨by simp [newRowCells, h1], ?_⟩
    intro cell hcell
    unfold newRowCells at hcell
    rcases List.mem_cons.1 hcell with rfl | hcell
    · by_cases hb : (ColumnTypeBlock != col.Typ) = true
      · simp only [hb, if_true]
        exact hP.newCell _ _ hb
      · simp only [hb]
        exact hP.newCellBlock _ _ _
    · exact h2 cell hcell

theorem mem_insertRow {rows : List Row} {row x : Row} {previousID : String}
    (h : x ∈ insertRow rows row previousID) : x ∈ rows ∨ x = row := by
  unfold insertRow at h
  split at h
  · rcases List.mem_cons.1 h with rfl | h
    · exact Or.inr rfl
    · exact Or.inl h
  · split at h
    · rcases List.mem_append.1 h with h | h
      · exact Or.inl (List.mem_of_mem_take h)
      · rcases List.mem_cons.1 h with rfl | h
        · exact Or.inr rfl
        · exact Or.inl (List.mem_of_mem_drop h)
    · exact Or.inl h

theorem anchoredTo_isSome (blockID : String) :
    ∀ (rows : List Row), (∀ row ∈ rows, ∀ cell ∈ row.Cells, cell.anchorOK = true) →
      ∃ b, anchoredTo blockID rows = some b
  | [], _ => ⟨false, rfl⟩
  | row :: rows, h => by
    have ih := anchoredTo_isSome blockID rows (fun r hr => h r (List.mem_cons_of_mem _ hr))
    unfold anchoredTo
    cases hg : row.GetBlockCell with
    | none => exact ih
    | some blockCell =>
      dsimp only
      have hmem : blockCell ∈ row.Cells := List.mem_of_find?_eq_some hg
      have hty : (blockCell.ValueType == ColumnTypeBlock) = true := by
        unfold Row.GetBlockCell at hg
        exact List.find?_some (p := fun cell : Cell => cell.ValueType == ColumnTypeBlock) hg
      have hok := h row (List.mem_cons_self _ _) blockCell hmem
      unfold Cell.anchorOK at hok
      cases hv : blockCell.Value with
      | none => simp [hv, bne, hty] at hok
      | some value =>
        dsimp only
        cases hb : value.Block with
        | none => simp [hv, hb, bne, hty] at hok
        | some block =>
          dsimp only
          split
          · exact ⟨true, rfl⟩
          · exact ih

theorem addAttributeViewBlock_ok {P : Cell → Prop} (hP : CellClosed P) (w : World)
    (blockID : String) (operation : Operation) (tree : Tree) (hw : WorldOK P w) :
    (∀ w1, (addAttributeViewBlock w blockID operation tree).state?.map Prod.fst = some w1 →
        WorldOK P w1) ∧
      ((∀ attrView, ParseAttributeView w operation.AvID = .ok attrView →
          ∃ b, anchoredTo blockID attrView.Rows = some b) →
        ∃ w1, (addAttributeViewBlock w blockID operation tree).state?.map Prod.fst = some w1) := by
  unfold addAttributeViewBlock
  cases hn : GetNodeInTree tree blockID with
  | none => exact ⟨fun w1 h => by cases h; exact hw, fun _ => ⟨w, rfl⟩⟩
  | some node =>
    dsimp only
    by_cases ht : (NodeAttributeView == node.Typ) = true
    · simp only [ht, if_true]
      exact ⟨fun w1 h => by cases h; exact hw, fun _ => ⟨w, rfl⟩⟩
    by_cases hb : node.Buildable = true
    swap
    · simp only [ht, hb]
      exact ⟨fun w1 h => by cases h; exact hw, fun _ => ⟨w, rfl⟩⟩
    simp only [ht, hb, Bool.not_true, Bool.false_eq_true, if_false]
    cases hp : ParseAttributeView w operation.AvID with
    | error e => exact ⟨fun w1 h => by cases h; exact hw, fun _ => ⟨w, rfl⟩⟩
    | ok attrView =>
      dsimp only
      have hav : RowsOK P attrView := hw _ (parse_ok hp).1
      cases ha : anchoredTo blockID attrView.Rows with
      | none =>
        refine ⟨fun w1 h => (by cases h), fun h => ?_⟩
        obtain ⟨b, hb⟩ := h attrView rfl
        rw [ha] at hb
        cases hb
      | some b =>
        cases b with
        | true => exact ⟨fun w1 h => by cases h; exact hw, fun _ => ⟨w, rfl⟩⟩
        | false =>
          dsimp only
          unfold setNodeAttrsWithTx
          cases htx : w.txWritable with
          | false =>
            simp only [htx, Bool.false_eq_true, if_false]
            exact ⟨fun w1 h => by cases h; exact hw, fun _ => ⟨_, rfl⟩⟩
          | true =>
            simp only [htx, if_true]
            unfold SaveAttributeView
            cases hsv : w.avWritable with
            | false =>
              simp only [hsv, Bool.false_eq_true, if_false]
              exact ⟨fun w1 h => by cases h; exact hw, fun _ => ⟨_, rfl⟩⟩
            | true =>
              simp only [hsv, if_true]
              refine ⟨fun w1 h => ?_, fun _ => ⟨_, rfl⟩⟩
              cases h
              intro x hx
              rcases mem_putAttributeView hx with hx | rfl
              · exact hw x hx
              · intro row1 hrow1
                rcases mem_insertRow hrow1 with h | rfl
                · exact hav row1 h
                · exact newRowCells_ok hP _ _ _ _ _

theorem worldAligned_iff (w : World) : WorldAligned w ↔ WorldOK (fun _ => True) w := by
  unfold WorldAligned WorldOK Aligned RowsOK
  constructor
  · intro h a ha row hrow
    exact ⟨h a ha row hrow, fun _ _ => trivial⟩
  · intro h a ha row hrow
    exact (h a ha row hrow).1

theorem worldAnchored_iff (w : World) :
    WorldAligned w ∧ WorldAnchored w ↔ WorldOK (fun cell => cell.anchorOK = true) w := by
  unfold WorldAligned WorldAnchored WorldOK Aligned RowsOK
  constructor
  · intro h a ha row hrow
    exact ⟨h.1 a ha row hrow, h.2 a ha row hrow⟩
  · intro h
    exact ⟨fun a ha row hrow => (h a ha row hrow).1, fun a ha row hrow => (h a ha row hrow).2⟩

theorem cellClosed_true : CellClosed (fun _ => True) :=
  ⟨fun _ _ _ => trivial, fun _ _ _ => trivial⟩

theorem cellClosed_anchorOK : CellClosed (fun cell => cell.anchorOK = true) := by
  refine ⟨fun id t h => ?_, fun id b r => ?_⟩
  · have h1 : (t != ColumnTypeBlock) = true := by
      simp only [bne_iff_ne, ne_eq] at h ⊢
      exact fun e => h e.symm
    simp [Cell.anchorOK, NewCell, h1]
  · simp [Cell.anchorOK, NewCellBlock]

theorem run_preserves {P : Cell → Prop} (hP : CellClosed P) (w : World) (m : Mutation)
    (hw : WorldOK P w) : ∀ w1, m.run w = some w1 → WorldOK P w1 := by
  intro w1 h
  cases m with
  | addColumn operation =>
    obtain ⟨w2, h2, hok⟩ := addAttributeViewColumn_ok hP w operation hw
    simp only [Mutation.run, h2, Option.some.injEq] at h
    exact h ▸ hok
  | removeColumn columnID avID =>
    obtain ⟨w2, h2, hok⟩ := removeAttributeViewColumn_ok w columnID avID hw
    simp only [Mutation.run, h2, Option.some.injEq] at h
    exact h ▸ hok
  | sortColumn operation =>
    obtain ⟨w2, h2, hok⟩ := sortAttributeViewColumn_ok w operation hw
    simp only [Mutation.run, h2, Option.some.injEq] at h
    exact h ▸ hok
  | addBlock blockID operation tree =>
    exact (addAttributeViewBlock_ok hP w blockID operation tree hw).1 w1 h

theorem run_total (w : World) (m : Mutation) (hw : WorldAligned w)
    (h : m.isAddBlock = false ∨ WorldAnchored w) : ∃ w1, m.run w = some w1 := by
  have hw1 := (worldAligned_iff w).1 hw
  cases m with
  | addColumn operation =>
    obtain ⟨w2, h2, _⟩ := addAttributeViewColumn_ok cellClosed_true w operation hw1
    exact ⟨w2, h2⟩
  | removeColumn columnID avID =>
    obtain ⟨w2, h2, _⟩ := removeAttributeViewColumn_ok w columnID avID hw1
    exact ⟨w2, h2⟩
  | sortColumn operation =>
    obtain ⟨w2, h2, _⟩ := sortAttributeViewColumn_ok w operation hw1
    exact ⟨w2, h2⟩
  | addBlock blockID operation tree =>
    rcases h with h | h
    · simp [Mutation.isAddBlock] at h
    · refine (addAttributeViewBlock_ok cellClosed_true w blockID operation tree hw1).2 ?_
      intro attrView hp
      exact anchoredTo_isSome blockID attrView.Rows (h attrView (parse_ok hp).1)

theorem runMutations_preserves {P : Cell → Prop} (hP : CellClosed P) :
    ∀ (ms : List Mutation) (w : World), WorldOK P w →
      ∀ w1, runMutations w ms = some w1 → WorldOK P w1
  | [], w, hw, w1, h => by
    simp only [runMutations, Option.some.injEq] at h
    exact h ▸ hw
  | m :: ms, w, hw, w1, h => by
    unfold runMutations at h
    cases hm : m.run w with
    | none => simp [hm] at h
    | some w2 =>
      simp only [hm] at h
      exact runMutations_preserves hP ms w2 (run_preserves hP w m hw w2 hm) w1 h

theorem runMutations_total :
    ∀ (ms : List Mutation) (w : World), WorldAligned w →
      ((∀ m ∈ ms, m.isAddBlock = false) ∨ WorldAnchored w) →
      ∃ w1, runMutations w ms = some w1
  | [], w, _, _ => ⟨w, rfl⟩
  | m :: ms, w, hw, h => by
    have hstep : m.isAddBlock = false ∨ WorldAnchored w := by
      rcases h with h | h
      · exact Or.inl (h m (List.mem_cons_self _ _))
      · exact Or.inr h
    obtain ⟨w2, h2⟩ := run_total w m hw hstep
    have hw2 : WorldAligned w2 :=
      (worldAligned_iff w2).2
        (run_preserves cellClosed_true w m ((worldAligned_iff w).1 hw) w2 h2)
    have hrest : (∀ m ∈ ms, m.isAddBlock = false) ∨ WorldAnchored w2 := by
      rcases h with h | h
      · exact Or.inl (fun x hx => h x (List.mem_cons_of_mem _ hx))
      · exact Or.inr
          ((worldAnchored_iff w2).2
            (run_preserves cellClosed_anchorOK w m ((worldAnchored_iff w).1 ⟨hw, h⟩) w2 h2)).2
    obtain ⟨w1, h1⟩ := runMutations_total ms w2 hw2 hrest
    exact ⟨w1, by simp [runMutations, h2, h1]⟩

/-! ## Claims -/

/-- C1. Positional invariant: when every row of every persisted attribute view
has exactly as many cells as there are columns, the same holds after any finite
sequence of calls of addAttributeViewColumn, removeAttributeViewColumn,
sortAttributeViewColumn and addAttributeViewBlock (a single call is the sequence
of length one).  The sequence runs to its end without a runtime panic when it
holds column operations only, or when every Block-typed cell carries a block
reference (the one thing addAttributeViewBlock dereferences unchecked). -/
theorem C1_positional_invariant (w : World) (ms : List Mutation) (hw : WorldAligned w) :
    (∀ w1, runMutations w ms = some w1 → WorldAligned w1) ∧
      (((∀ m ∈ ms, m.isAddBlock = false) ∨ WorldAnchored w) →
        ∃ w1, runMutations w ms = some w1 ∧ WorldAligned w1) := by
  have hinv : ∀ w1, runMutations w ms = some w1 → WorldAligned w1 := fun w1 h =>
    (worldAligned_iff w1).2
      (runMutations_preserves cellClosed_true ms w ((worldAligned_iff w).1 hw) w1 h)
  refine ⟨hinv, fun h => ?_⟩
  obtain ⟨w1, h1⟩ := runMutations_total ms w hw h
  exact ⟨w1, h1, hinv w1 h1⟩

/-- Witness of C1 on the sample world, with one call of each of the four
functions. -/
theorem C1_positional_invariant_witness :
    WorldAligned sampleWorld ∧
      ((∀ w1, runMutations sampleWorld
            [.addColumn sampleOperation, .sortColumn sampleOperation,
             .addBlock "B2" sampleOperation sampleTree,
             .removeColumn "colT" "av1"] = some w1 → WorldAligned w1) ∧
        (((∀ m ∈ [Mutation.addColumn sampleOperation, .sortColumn sampleOperation,
             .addBlock "B2" sampleOperation sampleTree,
             .removeColumn "colT" "av1"], m.isAddBlock = false) ∨ WorldAnchored sampleWorld) →
          ∃ w1, runMutations sampleWorld
            [.addColumn sampleOperation, .sortColumn sampleOperation,
             .addBlock "B2" sampleOperation sampleTree,
             .removeColumn "colT" "av1"] = some w1 ∧ WorldAligned w1)) :=
  have h : WorldAligned sampleWorld := by
    intro a ha row hrow
    simp only [sampleWorld, List.mem_singleton] at ha
    subst ha
    simp only [sampleView, List.mem_singleton] at hrow
    subst hrow
    rfl
  ⟨h, C1_positional_invariant sampleWorld _ h⟩

/-! ## Column reorder -/

theorem zip_eraseIdx {α β : Type} :
    ∀ (a : List α) (b : List β) (i : Nat),
      (a.eraseIdx i).zip (b.eraseIdx i) = (a.zip b).eraseIdx i
  | [], _, _ => by simp
  | _ :: _, [], _ => by simp
  | x :: a, y :: b, 0 => by simp
  | x :: a, y :: b, i + 1 => by simp [zip_eraseIdx a b i]

theorem zip_InsertElem {α β : Type} (a : List α) (b : List β) (j : Nat) (x : α) (y : β)
    (h : a.length = b.length) :
    (InsertElem a j x).zip (InsertElem b j y) = InsertElem (a.zip b) j (x, y) := by
  unfold InsertElem
  rw [List.zip_append (by simp [h]), List.zip_cons_cons]
  simp only [List.zip_eq_zipWith, List.take_zipWith, List.drop_zipWith]

theorem perm_InsertElem {α : Type} (s : List α) (index : Nat) (value : α) :
    (InsertElem s index value).Perm (value :: s) := by
  unfold InsertElem
  have h : (s.take index ++ value :: s.drop index).Perm
      (value :: (s.take index ++ s.drop index)) := List.perm_middle
  rwa [List.take_append_drop] at h

theorem perm_eraseIdx {α : Type} :
    ∀ (l : List α) (i : Nat) (x : α), l[i]? = some x → (x :: l.eraseIdx i).Perm l
  | [], _, _, h => by simp at h
  | a :: l, 0, x, h => by
    simp only [List.getElem?_cons_zero, Option.some.injEq] at h
    subst h
    simp
  | a :: l, i + 1, x, h => by
    simp only [List.getElem?_cons_succ] at h
    have ih := perm_eraseIdx l i x h
    simp only [List.eraseIdx_cons_succ]
    exact (List.Perm.swap a x _).trans (List.Perm.cons a ih)

theorem forall₂_getElem? {α : Type} {Q : α → α → Prop} :
    ∀ {l l1 : List α}, List.Forall₂ Q l l1 → ∀ (r : Nat) (x y : α),
      l[r]? = some x → l1[r]? = some y → Q x y
  | _, _, List.Forall₂.nil, r, x, y, hx, _ => by simp at hx
  | _, _, List.Forall₂.cons hq hf, r, x, y, hx, hy => by
    cases r with
    | zero =>
      simp only [List.getElem?_cons_zero, Option.some.injEq] at hx hy
      subst hx; subst hy
      exact hq
    | succ r =>
      simp only [List.getElem?_cons_succ] at hx hy
      exact forall₂_getElem? hf r x y hx hy

theorem forall₂_map_eq {α β : Type} {Q : α → α → Prop} (g : α → β)
    (hg : ∀ x y, Q x y → g y = g x) :
    ∀ {l l1 : List α}, List.Forall₂ Q l l1 → l1.map g = l.map g
  | _, _, List.Forall₂.nil => rfl
  | _, _, List.Forall₂.cons hq hf => by
    simp only [List.map_cons, hg _ _ hq, forall₂_map_eq g hg hf]

/-- Moving position `i` to position `j` in a list of columns and in a list of
cells of the same length keeps every cell under its column. -/
theorem moved_cell_under_column {cols : List Column} {cells : List Cell} {i j : Nat}
    {col : Column} {cel : Cell}
    (hlen : cells.length = cols.length)
    (hnd : (cols.map Column.ID).Nodup)
    (hcol : cols[i]? = some col) (hcel : cells[i]? = some cel)
    {k k1 : Nat} {c c1 : Column}
    (hc : cols[k]? = some c)
    (hc1 : (InsertElem (cols.eraseIdx i) j col)[k1]? = some c1)
    (hid : c1.ID = c.ID) :
    (InsertElem (cells.eraseIdx i) j cel)[k1]? = cells[k]? ∧ ∃ cell, cells[k]? = some cell := by
  have hi : i < cols.length := (List.getElem?_eq_some.1 hcol).1
  have hk1 : k1 < (InsertElem (cols.eraseIdx i) j col).length :=
    (List.getElem?_eq_some.1 hc1).1
  have hlen1 : (InsertElem (cells.eraseIdx i) j cel).length =
      (InsertElem (cols.eraseIdx i) j col).length := by
    simp only [length_InsertElem, List.length_eraseIdx, hlen]
  obtain ⟨cell1, hcell1⟩ : ∃ cell1, (InsertElem (cells.eraseIdx i) j cel)[k1]? = some cell1 :=
    ⟨_, List.getElem?_eq_getElem (by omega)⟩
  have hz : ((InsertElem (cols.eraseIdx i) j col).zip
      (InsertElem (cells.eraseIdx i) j cel))[k1]? = some (c1, cell1) :=
    List.getElem?_zip_eq_some.2 ⟨hc1, hcell1⟩
  rw [zip_InsertElem _ _ _ _ _ (by simp only [List.length_eraseIdx, hlen]), zip_eraseIdx] at hz
  have hmem : (c1, cell1) ∈ cols.zip cells := by
    rcases mem_InsertElem (List.mem_iff_getElem?.2 ⟨_, hz⟩) with h | h
    · rw [h]
      exact List.mem_iff_getElem?.2 ⟨_, List.getElem?_zip_eq_some.2 ⟨hcol, hcel⟩⟩
    · exact List.mem_of_mem_eraseIdx h
  obtain ⟨k2, hk2⟩ := List.mem_iff_getElem?.1 hmem
  obtain ⟨h1, h2⟩ := List.getElem?_zip_eq_some.1 hk2
  have hk2lt : k2 < (cols.map Column.ID).length := by
    simpa using (List.getElem?_eq_some.1 h1).1
  have hkk : k2 = k := by
    apply List.getElem?_inj hk2lt hnd
    simp only [List.getElem?_map, h1, hc, Option.map_some', hid]
  subst hkk
  exact ⟨by rw [hcell1, h2], cell1, h2⟩

/-- C2. Column reorder keeps cells under their column: on an attribute view
with distinct column IDs whose rows each have one cell per column, and with the
store accepting the save, sortAttributeViewColumn succeeds for every column ID
and predecessor ID; the persisted view then has the same columns in a new order
and the same rows by ID, and in every row the cell at the new index of a column
is the cell that was at the old index of that column. -/
theorem C2_reorder_keeps_cells (w : World) (operation : Operation) (attrView : AttributeView)
    (hp : ParseAttributeView w operation.AvID = .ok attrView)
    (hal : Aligned attrView)
    (hnd : (attrView.Columns.map Column.ID).Nodup)
    (hwr : w.avWritable = true) :
    ∃ w1 attrView1,
      sortAttributeViewColumn w operation = .ok w1 ∧
      ParseAttributeView w1 operation.AvID = .ok attrView1 ∧
      attrView1.Columns.Perm attrView.Columns ∧
      attrView1.Rows.map Row.ID = attrView.Rows.map Row.ID ∧
      ∀ (r k k1 : Nat) (row row1 : Row) (c c1 : Column),
        attrView.Rows[r]? = some row → attrView1.Rows[r]? = some row1 →
        attrView.Columns[k]? = some c → attrView1.Columns[k1]? = some c1 → c1.ID = c.ID →
        row1.Cells[k1]? = row.Cells[k]? ∧ ∃ cell, row.Cells[k]? = some cell := by
  unfold sortAttributeViewColumn
  rw [hp]
  dsimp only
  cases hf : findWithIndex (fun column => column.ID == operation.ID) attrView.Columns with
  | none =>
    refine ⟨w, attrView, rfl, hp, List.Perm.refl _, rfl, ?_⟩
    intro r k k1 row row1 c c1 hr hr1 hc hc1 hid
    rw [hr] at hr1
    cases hr1
    have hk1lt : k1 < (attrView.Columns.map Column.ID).length := by
      simpa using (List.getElem?_eq_some.1 hc1).1
    have hkk : k1 = k := by
      apply List.getElem?_inj hk1lt hnd
      simp only [List.getElem?_map, hc1, hc, Option.map_some', hid]
    subst hkk
    have hlt : k1 < row.Cells.length := by
      rw [hal row (List.mem_iff_getElem?.2 ⟨_, hr⟩)]
      exact (List.getElem?_eq_some.1 hc).1
    exact ⟨rfl, _, List.getElem?_eq_getElem hlt⟩
  | some found =>
    obtain ⟨index, col⟩ := found
    dsimp only
    have hcol := (findWithIndex_some hf).1
    have hlt := findWithIndex_lt hf
    generalize hj : previousIndexOf Column.ID (attrView.Columns.eraseIdx index)
      operation.PreviousID = j
    obtain ⟨rows, hrows, hall⟩ := forEach_forall₂
      (f := sortRowCells index j)
      (Q := fun x y => sortRowCells index j x = some y) (l := attrView.Rows)
      (fun row hrow => by
        have h0 : ∃ row1, sortRowCells index j row = some row1 ∧
            (row1.Cells.length = attrView.Columns.length ∧ ∀ cell ∈ row1.Cells, True) :=
          sortRowCells_ok hlt ⟨hal row hrow, fun _ _ => trivial⟩
        obtain ⟨row1, h1, _⟩ := h0
        exact ⟨row1, h1, h1⟩)
    rw [hrows]
    dsimp only
    rcases saveAndReturn_state w
      { attrView with
        Columns := InsertElem (attrView.Columns.eraseIdx index) j col, Rows := rows }
      with ⟨_, hs⟩ | ⟨hs, _⟩
    swap
    · rw [hwr] at hs
      cases hs
    rw [hs]
    refine ⟨_, { attrView with
        Columns := InsertElem (attrView.Columns.eraseIdx index) j col, Rows := rows },
      rfl, parse_after_save _ _ _ (parse_ok hp).2, ?_, ?_, ?_⟩
    · exact (perm_InsertElem _ _ _).trans (perm_eraseIdx _ _ _ hcol)
    · refine forall₂_map_eq Row.ID ?_ hall
      intro x y hxy
      unfold sortRowCells at hxy
      split at hxy
      · cases hxy
      · cases hxy
        rfl
    · intro r k k1 row row1 c c1 hr hr1 hc hc1 hid
      have hq := forall₂_getElem? hall r row row1 hr hr1
      have hlen := hal row (List.mem_iff_getElem?.2 ⟨_, hr⟩)
      unfold sortRowCells at hq
      obtain ⟨cel, hcel⟩ : ∃ cel, row.Cells[index]? = some cel :=
        ⟨_, List.getElem?_eq_getElem (by omega)⟩
      rw [hcel] at hq
      cases hq
      exact moved_cell_under_column hlen hnd hcol hcel hc hc1 hid

/-- Witness of C2: the sample view, moving the column `colS` to the front. -/
theorem C2_reorder_keeps_cells_witness :
    ParseAttributeView sampleWorld sampleOperation.AvID = .ok sampleView ∧
      ∃ w1 attrView1,
        sortAttributeViewColumn sampleWorld sampleOperation = .ok w1 ∧
        ParseAttributeView w1 sampleOperation.AvID = .ok attrView1 ∧
        attrView1.Columns.Perm sampleView.Columns ∧
        attrView1.Rows.map Row.ID = sampleView.Rows.map Row.ID ∧
        ∀ (r k k1 : Nat) (row row1 : Row) (c c1 : Column),
          sampleView.Rows[r]? = some row → attrView1.Rows[r]? = some row1 →
          sampleView.Columns[k]? = some c → attrView1.Columns[k1]? = some c1 → c1.ID = c.ID →
          row1.Cells[k1]? = row.Cells[k]? ∧ ∃ cell, row.Cells[k]? = some cell :=
  ⟨rfl,
   C2_reorder_keeps_cells sampleWorld sampleOperation sampleView rfl
     (by
       intro row hrow
       simp only [sampleView, List.mem_singleton] at hrow
       subst hrow
       rfl)
     (by decide) rfl⟩

/-! ## Select options: the code at concrete inputs -/

/-- C3. Option merge on rename, evaluated on the sample view (column `colS` with
options Red and Blue): after renaming Red to Blue the column still has the
option Red and has no option Blue, where the specification asks for no Red and
exactly one Blue.  The loop of lines 693-699 deletes the entry named newName, and the
rename of the entry named oldName is then skipped. -/
theorem C3_rename_onto_existing_deletes_target :
    ∃ w1, updateAttributeViewColumnOption sampleWorld renameRedToBlue = .ok w1 ∧
      optionNamesOf sampleWorld "av1" = some [[], [], ["Red", "Blue"]] ∧
      optionNamesOf w1 "av1" = some [[], [], ["Red"]] :=
  ⟨_, rfl, rfl, rfl⟩

/-- C4. Remove option, evaluated on the sample view (the cell under `colS`
references Green and Red): after removing the option Red the cell still
references Red, because only the first reference of a cell is examined
(lines 789-793); the loop over all references (lines 794-800) runs only for an
empty list or a nil first element. -/
theorem C4_remove_option_leaves_later_reference :
    ∃ w1, removeAttributeViewColumnOption sampleWorld removeRed = .ok w1 ∧
      optionNamesOf w1 "av1" = some [[], [], ["Blue"]] ∧
      selectRefsOf sampleWorld "av1" = some [[[], [], ["Green", "Red"]]] ∧
      selectRefsOf w1 "av1" = some [[[], [], ["Green", "Red"]]] :=
  ⟨_, rfl, rfl, rfl, rfl⟩

/-- C5. Option rename, evaluated on the sample view (the cell under `colS`
references Green and Red): after renaming Red to Purple the column option is
renamed but the cell still references Red and does not reference Purple, because
only the first reference of a cell is examined (lines 720-725). -/
theorem C5_rename_leaves_later_reference :
    ∃ w1, updateAttributeViewColumnOption sampleWorld renameRedToPurple = .ok w1 ∧
      optionNamesOf w1 "av1" = some [[], [], ["Purple", "Blue"]] ∧
      selectRefsOf sampleWorld "av1" = some [[[], [], ["Green", "Red"]]] ∧
      selectRefsOf w1 "av1" = some [[[], [], ["Green", "Red"]]] :=
  ⟨_, rfl, rfl, rfl, rfl⟩

/-! ## Remove column -/

theorem findWithIndex_of_first {α : Type} {p : α → Bool} :
    ∀ {l : List α} {i : Nat} {x : α}, l[i]? = some x → p x = true →
      (∀ j y, j < i → l[j]? = some y → p y = false) → findWithIndex p l = some (i, x)
  | [], _, _, h, _, _ => by simp at h
  | a :: l, 0, x, h, hp, _ => by
    simp only [List.getElem?_cons_zero, Option.some.injEq] at h
    subst h
    simp [findWithIndex, hp]
  | a :: l, i + 1, x, h, hp, hfirst => by
    simp only [List.getElem?_cons_succ] at h
    have ha : p a = false := hfirst 0 a (by omega) (by simp)
    have ih := findWithIndex_of_first h hp
      (fun j y hj hy => hfirst (j + 1) y (by omega) (by simpa using hy))
    simp [findWithIndex, ha, ih]

/-- C6. Remove column removes exactly one aligned cell: when the column with the
given ID sits at index i (the first one of that ID) and the store accepts the
save, removeAttributeViewColumn succeeds; the persisted Columns are the old list
without index i, the rows are the same rows by position and ID, every row with
more than i cells has its old cell list without index i (the cells before i
followed by the cells after i, in their previous order), and shorter rows are
left as they were. -/
theorem C6_remove_column_exact (w : World) (columnID avID : String)
    (attrView : AttributeView) (i : Nat) (col : Column)
    (hp : ParseAttributeView w avID = .ok attrView)
    (hi : attrView.Columns[i]? = some col) (hid : col.ID = columnID)
    (hfirst : ∀ j c, j < i → attrView.Columns[j]? = some c → c.ID ≠ columnID)
    (hwr : w.avWritable = true) :
    ∃ w1 attrView1,
      removeAttributeViewColumn w columnID avID = .ok w1 ∧
      ParseAttributeView w1 avID = .ok attrView1 ∧
      attrView1.Columns = attrView.Columns.eraseIdx i ∧
      attrView1.Rows.length = attrView.Rows.length ∧
      ∀ (r : Nat) (row : Row), attrView.Rows[r]? = some row →
        ∃ row1, attrView1.Rows[r]? = some row1 ∧ row1.ID = row.ID ∧
          (i < row.Cells.length →
            row1.Cells = row.Cells.eraseIdx i ∧
            row1.Cells = row.Cells.take i ++ row.Cells.drop (i + 1)) ∧
          (row.Cells.length ≤ i → row1.Cells = row.Cells) := by
  have hf : findWithIndex (fun column => column.ID == columnID) attrView.Columns =
      some (i, col) :=
    findWithIndex_of_first hi (by simpa using hid)
      (fun j c hj hc => by simpa using hfirst j c hj hc)
  unfold removeAttributeViewColumn
  rw [hp]
  dsimp only
  rw [hf]
  dsimp only
  rcases saveAndReturn_state w
    { attrView with
      Columns := attrView.Columns.eraseIdx i, Rows := attrView.Rows.map (removeRowCell i) }
    with ⟨_, hs⟩ | ⟨hs, _⟩
  swap
  · rw [hwr] at hs
    cases hs
  rw [hs]
  refine ⟨_, { attrView with
      Columns := attrView.Columns.eraseIdx i, Rows := attrView.Rows.map (removeRowCell i) },
    rfl, parse_after_save _ _ _ (parse_ok hp).2, rfl, by simp, ?_⟩
  intro r row hr
  refine ⟨removeRowCell i row, by simp [hr], ?_, ?_, ?_⟩
  · unfold removeRowCell
    split <;> rfl
  · intro hlt
    have h1 : ¬ row.Cells.length ≤ i := by omega
    unfold removeRowCell
    rw [if_neg h1]
    exact ⟨rfl, List.eraseIdx_eq_take_drop_succ _ _⟩
  · intro hle
    unfold removeRowCell
    rw [if_pos hle]

/-- Witness of C6, the scenario of the specification: columns Block, Text, Number and a
row of the cells Block(B1), Text, Number; removing the Text column leaves the
cells Block(B1), Number. -/
theorem C6_remove_column_exact_witness :
    (ParseAttributeView scoreWorld "av2" = .ok scoreView ∧
      scoreView.Columns[1]? = some
        { ID := "colT", Name := "Text", Typ := ColumnTypeText, Options := [] }) ∧
    (∃ w1 attrView1,
      removeAttributeViewColumn scoreWorld "colT" "av2" = .ok w1 ∧
      ParseAttributeView w1 "av2" = .ok attrView1 ∧
      attrView1.Columns = scoreView.Columns.eraseIdx 1 ∧
      attrView1.Rows.length = scoreView.Rows.length ∧
      ∀ (r : Nat) (row : Row), scoreView.Rows[r]? = some row →
        ∃ row1, attrView1.Rows[r]? = some row1 ∧ row1.ID = row.ID ∧
          (1 < row.Cells.length →
            row1.Cells = row.Cells.eraseIdx 1 ∧
            row1.Cells = row.Cells.take 1 ++ row.Cells.drop (1 + 1)) ∧
          (row.Cells.length ≤ 1 → row1.Cells = row.Cells)) ∧
    (removeAttributeViewColumn scoreWorld "colT" "av2").state?.map
        (fun w1 => w1.avs.map (fun a => a.Rows.map Row.Cells)) =
      some [[[NewCellBlock "cellB" "B1" "first block", NewCell "cellN" ColumnTypeNumber]]] :=
  ⟨⟨rfl, rfl⟩,
   C6_remove_column_exact scoreWorld "colT" "av2" scoreView 1 _ rfl rfl rfl
     (by
       intro j c hj hc
       have hj0 : j = 0 := by omega
       subst hj0
       simp only [scoreView, List.getElem?_cons_zero, Option.some.injEq] at hc
       subst hc
       decide)
     rfl,
   rfl⟩

/-! ## Duplicate add -/

theorem anchoredTo_of_duplicate (blockID : String) :
    ∀ (rows : List Row), (∀ row ∈ rows, row.anchorSet) →
      (∃ row ∈ rows, row.anchoredAt blockID) → anchoredTo blockID rows = some true
  | [], _, h => by
    obtain ⟨row, hrow, _⟩ := h
    simp at hrow
  | row :: rows, hset, hdup => by
    have ih : (∃ r ∈ rows, r.anchoredAt blockID) → anchoredTo blockID rows = some true :=
      anchoredTo_of_duplicate blockID rows (fun r hr => hset r (List.mem_cons_of_mem _ hr))
    obtain ⟨r, hr, cell, value, block, hg, hv, hb, hid⟩ := hdup
    unfold anchoredTo
    cases hg0 : row.GetBlockCell with
    | none =>
      dsimp only
      rcases List.mem_cons.1 hr with rfl | hr
      · rw [hg0] at hg
        cases hg
      · exact ih ⟨r, hr, cell, value, block, hg, hv, hb, hid⟩
    | some blockCell =>
      dsimp only
      obtain ⟨value0, block0, hv0, hb0⟩ := hset row (List.mem_cons_self _ _) blockCell hg0
      rw [hv0]
      dsimp only
      rw [hb0]
      dsimp only
      by_cases heq : (block0.ID == blockID) = true
      · rw [if_pos heq]
      · rw [if_neg heq]
        rcases List.mem_cons.1 hr with rfl | hr
        · rw [hg0] at hg
          cases hg
          rw [hv0] at hv
          cases hv
          rw [hb0] at hb
          cases hb
          simp [hid] at heq
        · exact ih ⟨r, hr, cell, value, block, hg, hv, hb, hid⟩

/-- C7, counterexample to the statement as written: the sample view has a row whose Block cell
references the block `B1`, and addAttributeViewBlock for `B1` with a tree that
does not hold `B1` returns the error ErrBlockNotFound (lines 197-201 run before
the attribute view is read). -/
theorem C7_duplicate_add_error_counterexample :
    ParseAttributeView sampleWorld sampleOperation.AvID = .ok sampleView ∧
      (∃ row ∈ sampleView.Rows, row.anchoredAt "B1") ∧
      (addAttributeViewBlock sampleWorld "B1" sampleOperation otherTree).error? =
        some ErrBlockNotFound :=
  ⟨rfl, ⟨_, List.mem_cons_self _ _, _, _, _, rfl, rfl, rfl, rfl⟩, rfl⟩

/-- C7, amended. Duplicate add is a no-op: on an attribute view whose row anchors
carry their block reference and in which some row is already anchored to the
block B, addAttributeViewBlock for B changes nothing (no row, no block
attribute, no save: world and tree are returned as they were); it returns no
error when B is found in the tree and is an attribute view node or has a block
record, and the error ErrBlockNotFound when B is not found in the tree or has no
block record. -/
theorem C7_duplicate_add_noop (w : World) (blockID : String) (operation : Operation)
    (tree : Tree) (attrView : AttributeView)
    (hp : ParseAttributeView w operation.AvID = .ok attrView)
    (hset : ∀ row ∈ attrView.Rows, row.anchorSet)
    (hdup : ∃ row ∈ attrView.Rows, row.anchoredAt blockID) :
    (∀ node, GetNodeInTree tree blockID = some node →
        node.Typ = NodeAttributeView ∨ node.Buildable = true →
        addAttributeViewBlock w blockID operation tree = .ok (w, tree)) ∧
      (∀ node, GetNodeInTree tree blockID = some node →
        node.Typ ≠ NodeAttributeView → node.Buildable = false →
        addAttributeViewBlock w blockID operation tree = .err ErrBlockNotFound (w, tree)) ∧
      (GetNodeInTree tree blockID = none →
        addAttributeViewBlock w blockID operation tree = .err ErrBlockNotFound (w, tree)) := by
  have ha := anchoredTo_of_duplicate blockID attrView.Rows hset hdup
  refine ⟨fun node hn hnode => ?_, fun node hn hty hb => ?_, fun hn => ?_⟩
  · unfold addAttributeViewBlock
    rw [hn]
    dsimp only
    by_cases ht : (NodeAttributeView == node.Typ) = true
    · rw [if_pos ht]
    · rw [if_neg ht]
      have hb : node.Buildable = true := by
        rcases hnode with h | h
        · exact absurd (by simp [h]) ht
        · exact h
      simp only [hb, Bool.not_true, Bool.false_eq_true, if_false, hp, ha]
  · unfold addAttributeViewBlock
    rw [hn]
    dsimp only
    have ht : ¬ (NodeAttributeView == node.Typ) = true := by
      simpa using fun h => hty h.symm
    rw [if_neg ht]
    simp [hb]
  · unfold addAttributeViewBlock
    rw [hn]

/-- Witness of C7 amended: the sample view and the block `B1`, found in the
sample tree. -/
theorem C7_duplicate_add_noop_witness :
    (ParseAttributeView sampleWorld sampleOperation.AvID = .ok sampleView ∧
      (∀ row ∈ sampleView.Rows, row.anchorSet) ∧
      (∃ row ∈ sampleView.Rows, row.anchoredAt "B1")) ∧
    ((∀ node, GetNodeInTree sampleTree "B1" = some node →
        node.Typ = NodeAttributeView ∨ node.Buildable = true →
        addAttributeViewBlock sampleWorld "B1" sampleOperation sampleTree =
          .ok (sampleWorld, sampleTree)) ∧
      (∀ node, GetNodeInTree sampleTree "B1" = some node →
        node.Typ ≠ NodeAttributeView → node.Buildable = false →
        addAttributeViewBlock sampleWorld "B1" sampleOperation sampleTree =
          .err ErrBlockNotFound (sampleWorld, sampleTree)) ∧
      (GetNodeInTree sampleTree "B1" = none →
        addAttributeViewBlock sampleWorld "B1" sampleOperation sampleTree =
          .err ErrBlockNotFound (sampleWorld, sampleTree))) :=
  have hset : ∀ row ∈ sampleView.Rows, row.anchorSet := by
    intro row hrow cell hcell
    simp only [sampleView, List.mem_singleton] at hrow
    subst hrow
    have hc : some (NewCellBlock "cellB" "B1" "first block") = some cell := hcell
    cases hc
    exact ⟨_, _, rfl, rfl⟩
  have hdup : ∃ row ∈ sampleView.Rows, row.anchoredAt "B1" :=
    ⟨_, List.mem_cons_self _ _, _, _, _, rfl, rfl, rfl, rfl⟩
  ⟨⟨rfl, hset, hdup⟩,
   C7_duplicate_add_noop sampleWorld "B1" sampleOperation sampleTree sampleView rfl hset hdup⟩

/-! ## Rendering and update cell: the code at concrete inputs -/

/-- C8. View selection, evaluated on a view list of one view with a current view
ID that matches no view: RenderAttributeView panics (the loop of lines 51-56
leaves `view` nil and line 61 dereferences it), where the specification asks for
the first view to be rendered; with the current view ID empty the first view is
rendered. -/
theorem C8_stale_current_view_panics :
    staleView.Views.length = 1 ∧ staleView.CurrentViewID = "gone" ∧
      ParseAttributeView staleWorld "av1" = .ok staleView ∧
      RenderAttributeView plainViewable staleWorld "av1" = .panic ∧
      (RenderAttributeView plainViewable sampleWorld "av1").state?.map
          (fun r => r.2.map (fun a => a.Views.map View.ID)) = some (some ["v1"]) :=
  ⟨rfl, rfl, rfl, rfl, rfl⟩

/-- C9. Update cell mirror key, evaluated on the sample view: updating the cell
`cellT`, which sits under the column `colT`, writes the block attribute
`custom-av-col-av1-cellT` (the ID of the cell, line 619), while
addAttributeViewBlock creates the placeholder of that column as
`custom-av-col-av1-colT` (the ID of the column, line 235). -/
theorem C9_update_cell_writes_cell_id_key :
    (∃ w1, doUpdateAttrViewCell sampleCodec sampleWorld updateCellT = .ok w1 ∧
      blockAttrs w1 =
        [[[("id", "B1"), ("custom-av-col-av1-cellT", "hello")], [("id", "B2")]]]) ∧
    (∃ w1 tree1, addAttributeViewBlock sampleWorld "B2" sampleOperation sampleTree =
        .ok (w1, tree1) ∧
      blockAttrs w1 =
        [[[("id", "B1")],
          [("id", "B2"), ("custom-av-col-av1-colT", ""), ("custom-av-col-av1-colS", ""),
           ("custom-avs", "av1")]]]) :=
  ⟨⟨_, rfl, rfl⟩, ⟨_, _, rfl, rfl⟩⟩

/-! ## Rejected add-block batches -/

theorem addAttributeViewBlock_err {w : World} {blockID : String} {operation : Operation}
    {tree : Tree} {e : String} {s : World × Tree}
    (h : addAttributeViewBlock w blockID operation tree = .err e s) :
    s.1.avs = w.avs ∧ ((s.1.trees = w.trees ∧ s.2 = tree) ∨ e = ErrWriteFailed) := by
  unfold addAttributeViewBlock at h
  cases hn : GetNodeInTree tree blockID with
  | none =>
    rw [hn] at h
    cases h
    exact ⟨rfl, Or.inl ⟨rfl, rfl⟩⟩
  | some node =>
    rw [hn] at h
    dsimp only at h
    by_cases ht : (NodeAttributeView == node.Typ) = true
    · rw [if_pos ht] at h
      cases h
    rw [if_neg ht] at h
    by_cases hb : node.Buildable = true
    swap
    · simp only [hb] at h
      cases h
      exact ⟨rfl, Or.inl ⟨rfl, rfl⟩⟩
    simp only [hb, Bool.not_true, Bool.false_eq_true, if_false] at h
    cases hp : ParseAttributeView w operation.AvID with
    | error e0 =>
      rw [hp] at h
      cases h
      exact ⟨rfl, Or.inl ⟨rfl, rfl⟩⟩
    | ok attrView =>
      rw [hp] at h
      dsimp only at h
      cases ha : anchoredTo blockID attrView.Rows with
      | none =>
        rw [ha] at h
        cases h
      | some b =>
        rw [ha] at h
        cases b with
        | true => cases h
        | false =>
          dsimp only at h
          unfold setNodeAttrsWithTx at h
          cases htx : w.txWritable with
          | false =>
            simp only [htx, Bool.false_eq_true, if_false] at h
            cases h
            exact ⟨rfl, Or.inl ⟨rfl, rfl⟩⟩
          | true =>
            simp only [htx, if_true] at h
            unfold SaveAttributeView at h
            cases hsv : w.avWritable with
            | false =>
              simp only [hsv, Bool.false_eq_true, if_false] at h
              cases h
              exact ⟨rfl, Or.inr rfl⟩
            | true =>
              simp only [hsv, if_true] at h
              cases h

theorem insertBlocks_err (operation : Operation) :
    ∀ (srcIDs : List String) (w : World) (tree : Tree) (e : TxErr) (w1 : World),
      insertBlocks operation w tree srcIDs = .err e w1 → e.msg ≠ ErrWriteFailed →
      ∃ pre id post wk treek,
        srcIDs = pre ++ id :: post ∧
        addedAll operation w tree pre = some (wk, treek) ∧
        (addAttributeViewBlock wk id operation treek).error? = some e.msg ∧
        w1.avs = wk.avs ∧ w1.trees = wk.trees
  | [], w, tree, e, w1, h, _ => by
    simp [insertBlocks] at h
  | id :: srcIDs, w, tree, e, w1, h, hreason => by
    unfold insertBlocks at h
    cases hadd : addAttributeViewBlock w id operation tree with
    | ok s =>
      obtain ⟨w2, tree2⟩ := s
      rw [hadd] at h
      dsimp only at h
      obtain ⟨pre, id1, post, wk, treek, h1, h2, h3, h4, h5⟩ :=
        insertBlocks_err operation srcIDs w2 tree2 e w1 h hreason
      refine ⟨id :: pre, id1, post, wk, treek, by simp [h1], ?_, h3, h4, h5⟩
      simp only [addedAll, hadd]
      exact h2
    | err avErr s =>
      obtain ⟨w2, tree2⟩ := s
      rw [hadd] at h
      dsimp only at h
      cases h
      obtain ⟨hav, htr⟩ := addAttributeViewBlock_err hadd
      refine ⟨[], id, srcIDs, w, tree, rfl, rfl, by rw [hadd]; rfl, hav, ?_⟩
      rcases htr with htr | htr
      · exact htr.1
      · exact absurd htr hreason
    | panic =>
      rw [hadd] at h
      cases h

/-- C10, counterexample to the statement as written: the batch of the blocks `B2` and `missing`
is rejected because `missing` is not found in the tree (the store accepts every
save), yet the persisted attribute view and the block attributes are not as
before the call: the row and the attributes of `B2` are in place. -/
theorem C10_rejected_batch_counterexample :
    ∃ e w1, doInsertAttrViewBlock sampleWorld batchOperation = .err e w1 ∧
      e.msg = ErrBlockNotFound ∧ sampleWorld.avWritable = true ∧
      w1.avs ≠ sampleWorld.avs ∧ blockAttrs w1 ≠ blockAttrs sampleWorld :=
  ⟨_, _, rfl, rfl, rfl, by decide, by decide⟩

/-- C10, amended. A rejected add-block batch undoes nothing and the failing call
changes nothing: if doInsertAttrViewBlock returns a failure for a reason other
than a store save failing after a successful attribute write, then either the
tree of the first ID could not be loaded and the world is as before, or the
failure is that of addAttributeViewBlock for one ID of the batch, and the
persisted attribute views and the block attributes are exactly as the successful
calls for the IDs before it left them; they are as before the whole call when
the rejected ID is the first of the batch. -/
theorem C10_rejected_batch_keeps_earlier_adds (w : World) (operation : Operation)
    (e : TxErr) (w1 : World)
    (h : doInsertAttrViewBlock w operation = .err e w1)
    (hreason : e.msg ≠ ErrWriteFailed) :
    (∃ first rest, operation.SrcIDs = first :: rest ∧
        loadTree w first = .error e.msg ∧ w1 = w) ∨
      (∃ first rest tree pre id post wk treek,
        operation.SrcIDs = first :: rest ∧ loadTree w first = .ok tree ∧
        operation.SrcIDs = pre ++ id :: post ∧
        addedAll operation w tree pre = some (wk, treek) ∧
        (addAttributeViewBlock wk id operation treek).error? = some e.msg ∧
        w1.avs = wk.avs ∧ w1.trees = wk.trees ∧
        (pre = [] → w1.avs = w.avs ∧ w1.trees = w.trees)) := by
  unfold doInsertAttrViewBlock at h
  cases hsrc : operation.SrcIDs with
  | nil =>
    rw [hsrc] at h
    cases h
  | cons first rest =>
    rw [hsrc] at h
    dsimp only at h
    cases hl : loadTree w first with
    | error e0 =>
      rw [hl] at h
      cases h
      exact Or.inl ⟨first, rest, rfl, hl, rfl⟩
    | ok tree =>
      rw [hl] at h
      dsimp only at h
      obtain ⟨pre, id, post, wk, treek, h1, h2, h3, h4, h5⟩ :=
        insertBlocks_err operation (first :: rest) w tree e w1 h hreason
      refine Or.inr
        ⟨first, rest, tree, pre, id, post, wk, treek, rfl, hl, h1, h2, h3, h4, h5, ?_⟩
      intro hpre
      subst hpre
      simp only [addedAll, Option.some.injEq, Prod.mk.injEq] at h2
      obtain ⟨rfl, rfl⟩ := h2
      exact ⟨h4, h5⟩

/-- Witness of C10 amended: the batch of `B2` and `missing` on the sample
world, rejected with ErrBlockNotFound. -/
theorem C10_rejected_batch_keeps_earlier_adds_witness :
    ∃ e w1, doInsertAttrViewBlock sampleWorld batchOperation = .err e w1 ∧
      e.msg ≠ ErrWriteFailed ∧
      ((∃ first rest, batchOperation.SrcIDs = first :: rest ∧
          loadTree sampleWorld first = .error e.msg ∧ w1 = sampleWorld) ∨
        (∃ first rest tree pre id post wk treek,
          batchOperation.SrcIDs = first :: rest ∧ loadTree sampleWorld first = .ok tree ∧
          batchOperation.SrcIDs = pre ++ id :: post ∧
          addedAll batchOperation sampleWorld tree pre = some (wk, treek) ∧
          (addAttributeViewBlock wk id batchOperation treek).error? = some e.msg ∧
          w1.avs = wk.avs ∧ w1.trees = wk.trees ∧
          (pre = [] → w1.avs = sampleWorld.avs ∧ w1.trees = sampleWorld.trees))) :=
  ⟨_, _, rfl, by decide,
   C10_rejected_batch_keeps_earlier_adds sampleWorld batchOperation _ _ rfl (by decide)⟩

/-! ## Single anchor column -/

theorem saveAndReturn_keeps {I : AttributeView → Prop} {w : World} {attrView : AttributeView}
    (hw : ∀ a ∈ w.avs, I a) (ha : I attrView) :
    ∃ w1, (saveAndReturn w attrView).state? = some w1 ∧ ∀ a ∈ w1.avs, I a := by
  rcases saveAndReturn_state w attrView with ⟨_, h⟩ | ⟨_, e, h⟩
  · refine ⟨_, by rw [h]; rfl, ?_⟩
    intro x hx
    rcases mem_putAttributeView hx with hx | rfl
    · exact hw x hx
    · exact ha
  · exact ⟨w, by rw [h]; rfl, hw⟩

theorem blockFilter_retypeColumn (id name : String) (colType : ColumnType)
    (ht : (ColumnTypeBlock != colType) = true) :
    ∀ (cols : List Column), (∀ col ∈ cols, col.ID = id → col.Typ ≠ ColumnTypeBlock) →
      ((retypeColumn id name colType cols).filter (fun col => col.Typ == ColumnTypeBlock)).length =
        (cols.filter (fun col => col.Typ == ColumnTypeBlock)).length
  | [], _ => rfl
  | col :: cols, h => by
    unfold retypeColumn
    by_cases hid : (col.ID == id) = true
    · rw [if_pos hid]
      have h1 : col.Typ ≠ ColumnTypeBlock :=
        h col (List.mem_cons_self _ _) (by simpa using hid)
      have h2 : colType ≠ ColumnTypeBlock := by
        simp only [bne_iff_ne, ne_eq] at ht
        exact fun e => ht e.symm
      simp [List.filter_cons, h1, h2]
    · rw [if_neg hid]
      have ih := blockFilter_retypeColumn id name colType ht cols
        (fun c hc => h c (List.mem_cons_of_mem _ hc))
      simp only [List.filter_cons]
      split <;> simp [ih]

theorem blockFilter_eraseIdx {cols : List Column} {i : Nat} {col : Column}
    (hi : cols[i]? = some col) (hty : col.Typ ≠ ColumnTypeBlock) :
    ((cols.eraseIdx i).filter (fun c => c.Typ == ColumnTypeBlock)).length =
      (cols.filter (fun c => c.Typ == ColumnTypeBlock)).length := by
  have hperm := (perm_eraseIdx cols i col hi).filter (fun c => c.Typ == ColumnTypeBlock)
  have hlen := hperm.length_eq
  rw [← hlen]
  simp [List.filter_cons, hty]

theorem blockFilter_move {cols : List Column} {i j : Nat} {col : Column}
    (hi : cols[i]? = some col) :
    ((InsertElem (cols.eraseIdx i) j col).filter (fun c => c.Typ == ColumnTypeBlock)).length =
      (cols.filter (fun c => c.Typ == ColumnTypeBlock)).length :=
  (((perm_InsertElem _ _ _).trans (perm_eraseIdx cols i col hi)).filter _).length_eq

theorem retypeColumn_of_found (id name : String) (colType : ColumnType) :
    ∀ (cols : List Column) (i : Nat) (col : Column),
      findWithIndex (fun column => column.ID == id) cols = some (i, col) →
      retypeColumn id name colType cols = cols.set i { col with Name := name, Typ := colType }
  | [], _, _, h => by simp [findWithIndex] at h
  | c :: cols, i, col, h => by
    unfold findWithIndex at h
    unfold retypeColumn
    by_cases hc : (c.ID == id) = true
    · rw [if_pos hc] at h
      rw [if_pos hc]
      simp only [Option.some.injEq, Prod.mk.injEq] at h
      obtain ⟨h0, h1⟩ := h
      subst h0
      subst h1
      rfl
    · rw [if_neg hc] at h
      rw [if_neg hc]
      cases hf : findWithIndex (fun column => column.ID == id) cols with
      | none => simp [hf] at h
      | some r =>
        obtain ⟨k, y⟩ := r
        simp only [hf, Option.some.injEq, Prod.mk.injEq] at h
        obtain ⟨h0, h1⟩ := h
        subst h0
        subst h1
        rw [retypeColumn_of_found id name colType cols k y hf]
        rfl

theorem blockFilter_set_anchor :
    ∀ (cols : List Column) (i : Nat) (col x : Column), cols[i]? = some col →
      col.Typ = ColumnTypeBlock → x.Typ ≠ ColumnTypeBlock →
      ((cols.set i x).filter (fun c => c.Typ == ColumnTypeBlock)).length + 1 =
        (cols.filter (fun c => c.Typ == ColumnTypeBlock)).length
  | [], _, _, _, h, _, _ => by simp at h
  | a :: l, 0, col, x, h, hty, hx => by
    simp only [List.getElem?_cons_zero, Option.some.injEq] at h
    subst h
    simp [List.filter_cons, hty, hx]
  | a :: l, i + 1, col, x, h, hty, hx => by
    simp only [List.getElem?_cons_succ] at h
    have ih := blockFilter_set_anchor l i col x h hty hx
    simp only [List.set_cons_succ, List.filter_cons]
    split
    · simp only [List.length_cons]
      omega
    · exact ih

theorem blockFilter_eraseIdx_anchor {cols : List Column} {i : Nat} {col : Column}
    (hi : cols[i]? = some col) (hty : col.Typ = ColumnTypeBlock) :
    ((cols.eraseIdx i).filter (fun c => c.Typ == ColumnTypeBlock)).length + 1 =
      (cols.filter (fun c => c.Typ == ColumnTypeBlock)).length := by
  have hperm := (perm_eraseIdx cols i col hi).filter (fun c => c.Typ == ColumnTypeBlock)
  have hlen := hperm.length_eq
  rw [← hlen]
  simp [List.filter_cons, hty]

/-- C11, counterexample to the statement as written: the sample view has exactly
one Block-typed column, `colB`; after removeAttributeViewColumn with the ID
`colB` the persisted view has none, and after updateAttributeViewColumn with the
ID `colB` and the type `number` it has none either. -/
theorem C11_anchor_column_removed_counterexample :
    blockColumns sampleView = 1 ∧
      ParseAttributeView sampleWorld "av1" = .ok sampleView ∧
      (removeAttributeViewColumn sampleWorld "colB" "av1").state?.map
          (fun w1 => w1.avs.map blockColumns) = some [0] ∧
      (updateAttributeViewColumn sampleWorld { sampleOperation with ID := "colB" }).state?.map
          (fun w1 => w1.avs.map blockColumns) = some [0] :=
  ⟨rfl, rfl, rfl, rfl⟩

/-- C11, amended. Single anchor column: when every persisted attribute view has
exactly one Block-typed column, that still holds after addAttributeViewColumn
and sortAttributeViewColumn for every request, and after
updateAttributeViewColumn and removeAttributeViewColumn for every type argument
and every column ID that is not the ID of a Block-typed column.  The functions
return (no panic); for sortAttributeViewColumn that needs rows aligned with the
columns.  Given a column ID whose first column, at index i, is the Block-typed
column, and a store that accepts the save, removeAttributeViewColumn returns no
error and persists the Columns without index i, and updateAttributeViewColumn
with a supported type returns no error and persists the Columns with the column
at index i renamed and retyped; in both cases the persisted attribute view has
no Block-typed column. -/
theorem C11_single_anchor_column (w : World) (hw : WorldSingleAnchor w) :
    (∀ operation, ∃ w1, (addAttributeViewColumn w operation).state? = some w1 ∧
        WorldSingleAnchor w1) ∧
      (∀ operation, NotAnchorColumn w operation.AvID operation.ID →
        ∃ w1, (updateAttributeViewColumn w operation).state? = some w1 ∧
          WorldSingleAnchor w1) ∧
      (∀ columnID avID, NotAnchorColumn w avID columnID →
        ∃ w1, (removeAttributeViewColumn w columnID avID).state? = some w1 ∧
          WorldSingleAnchor w1) ∧
      (∀ operation,
        (∀ w1, (sortAttributeViewColumn w operation).state? = some w1 →
          WorldSingleAnchor w1) ∧
        (WorldAligned w → ∃ w1, (sortAttributeViewColumn w operation).state? = some w1 ∧
          WorldSingleAnchor w1)) ∧
      (∀ (columnID avID : String) (attrView : AttributeView) (i : Nat) (col : Column),
        ParseAttributeView w avID = .ok attrView →
        attrView.Columns[i]? = some col → col.ID = columnID →
        (∀ j c, j < i → attrView.Columns[j]? = some c → c.ID ≠ columnID) →
        col.Typ = ColumnTypeBlock → w.avWritable = true →
        ∃ w1 attrView1, removeAttributeViewColumn w columnID avID = .ok w1 ∧
          ParseAttributeView w1 avID = .ok attrView1 ∧
          attrView1.Columns = attrView.Columns.eraseIdx i ∧
          blockColumns attrView1 = 0) ∧
      (∀ (operation : Operation) (attrView : AttributeView) (i : Nat) (col : Column),
        ParseAttributeView w operation.AvID = .ok attrView →
        attrView.Columns[i]? = some col → col.ID = operation.ID →
        (∀ j c, j < i → attrView.Columns[j]? = some c → c.ID ≠ operation.ID) →
        col.Typ = ColumnTypeBlock → supportedColumnType operation.Typ = true →
        w.avWritable = true →
        ∃ w1 attrView1, updateAttributeViewColumn w operation = .ok w1 ∧
          ParseAttributeView w1 operation.AvID = .ok attrView1 ∧
          attrView1.Columns =
            attrView.Columns.set i { col with Name := operation.Name, Typ := operation.Typ } ∧
          blockColumns attrView1 = 0) := by
  refine ⟨fun operation => ?_, fun operation hna => ?_, fun columnID avID hna => ?_,
    fun operation => ?_, fun columnID avID attrView i col hp hi hid hfirst hty hwr => ?_,
    fun operation attrView i col hp hi hid hfirst hty hs hwr => ?_⟩
  · unfold addAttributeViewColumn
    cases hp : ParseAttributeView w operation.AvID with
    | error e => exact ⟨w, rfl, hw⟩
    | ok attrView =>
      dsimp only
      have hav := hw _ (parse_ok hp).1
      cases hv : attrView.GetView operation.ViewID with
      | error e => exact ⟨w, rfl, hw⟩
      | ok r =>
        obtain ⟨vi, view⟩ := r
        dsimp only
        by_cases hs : supportedColumnType operation.Typ = true
        · simp only [hs, if_true]
          have hw1 : ∀ a ∈ ({ w with nextID := w.nextID + 1 + attrView.Rows.length } : World).avs,
              blockColumns a = 1 := hw
          apply saveAndReturn_keeps hw1
          have hne : operation.Typ ≠ ColumnTypeBlock := by
            have := supported_ne_block hs
            simp only [bne_iff_ne, ne_eq] at this
            exact fun e => this e.symm
          unfold blockColumns at hav ⊢
          simp [List.filter_append, List.filter_cons, hne, hav]
        · simp only [hs]
          exact ⟨w, rfl, hw⟩
  · unfold updateAttributeViewColumn
    cases hp : ParseAttributeView w operation.AvID with
    | error e => exact ⟨w, rfl, hw⟩
    | ok attrView =>
      dsimp only
      have hav := hw _ (parse_ok hp).1
      by_cases hs : supportedColumnType operation.Typ = true
      · simp only [hs, if_true]
        apply saveAndReturn_keeps hw
        unfold blockColumns at hav ⊢
        dsimp only
        rw [blockFilter_retypeColumn _ _ _ (supported_ne_block hs) _ (hna attrView hp)]
        exact hav
      · simp only [hs]
        exact ⟨w, rfl, hw⟩
  · unfold removeAttributeViewColumn
    cases hp : ParseAttributeView w avID with
    | error e => exact ⟨w, rfl, hw⟩
    | ok attrView =>
      dsimp only
      have hav := hw _ (parse_ok hp).1
      cases hf : findWithIndex (fun column => column.ID == columnID) attrView.Columns with
      | none => exact saveAndReturn_keeps hw hav
      | some r =>
        obtain ⟨i, col⟩ := r
        dsimp only
        obtain ⟨hi, hpc, _⟩ := findWithIndex_some hf
        apply saveAndReturn_keeps hw
        unfold blockColumns at hav ⊢
        dsimp only
        rw [blockFilter_eraseIdx hi
          (hna attrView hp col (List.mem_iff_getElem?.2 ⟨_, hi⟩) (by simpa using hpc))]
        exact hav
  · have key : ∀ w1, (sortAttributeViewColumn w operation).state? = some w1 →
        WorldSingleAnchor w1 := by
      intro w1 h
      unfold sortAttributeViewColumn at h
      cases hp : ParseAttributeView w operation.AvID with
      | error e =>
        rw [hp] at h
        cases h
        exact hw
      | ok attrView =>
        rw [hp] at h
        dsimp only at h
        have hav := hw _ (parse_ok hp).1
        cases hf : findWithIndex (fun column => column.ID == operation.ID)
            attrView.Columns with
        | none =>
          rw [hf] at h
          cases h
          exact hw
        | some r =>
          obtain ⟨index, col⟩ := r
          rw [hf] at h
          dsimp only at h
          have hi := (findWithIndex_some hf).1
          generalize previousIndexOf Column.ID (attrView.Columns.eraseIdx index)
            operation.PreviousID = j at h
          cases hrows : forEach (sortRowCells index j) attrView.Rows with
          | none =>
            rw [hrows] at h
            cases h
          | some rows =>
            rw [hrows] at h
            dsimp only at h
            have hsave : ∃ w2, (saveAndReturn w { attrView with
                Columns := InsertElem (attrView.Columns.eraseIdx index) j col,
                Rows := rows }).state? = some w2 ∧ ∀ a ∈ w2.avs, blockColumns a = 1 :=
              saveAndReturn_keeps hw (by
                unfold blockColumns at hav ⊢
                dsimp only
                rw [blockFilter_move hi]
                exact hav)
            obtain ⟨w2, h2, hok⟩ := hsave
            rw [h2] at h
            cases h
            exact hok
    refine ⟨key, fun hal => ?_⟩
    obtain ⟨w1, h1, _⟩ := sortAttributeViewColumn_ok w operation ((worldAligned_iff w).1 hal)
    exact ⟨w1, h1, key w1 h1⟩
  · have hf : findWithIndex (fun column => column.ID == columnID) attrView.Columns =
        some (i, col) :=
      findWithIndex_of_first hi (by simpa using hid)
        (fun j c hj hc => by simpa using hfirst j c hj hc)
    have hav : blockColumns attrView = 1 := hw _ (parse_ok hp).1
    unfold removeAttributeViewColumn
    rw [hp]
    dsimp only
    rw [hf]
    dsimp only
    rcases saveAndReturn_state w
      { attrView with
        Columns := attrView.Columns.eraseIdx i, Rows := attrView.Rows.map (removeRowCell i) }
      with ⟨_, hsv⟩ | ⟨hsv, _⟩
    swap
    · rw [hwr] at hsv
      cases hsv
    rw [hsv]
    refine ⟨_, { attrView with
        Columns := attrView.Columns.eraseIdx i, Rows := attrView.Rows.map (removeRowCell i) },
      rfl, parse_after_save _ _ _ (parse_ok hp).2, rfl, ?_⟩
    have hcount := blockFilter_eraseIdx_anchor hi hty
    unfold blockColumns at hav ⊢
    dsimp only
    omega
  · have hf : findWithIndex (fun column => column.ID == operation.ID) attrView.Columns =
        some (i, col) :=
      findWithIndex_of_first hi (by simpa using hid)
        (fun j c hj hc => by simpa using hfirst j c hj hc)
    have hav : blockColumns attrView = 1 := hw _ (parse_ok hp).1
    have hne : operation.Typ ≠ ColumnTypeBlock := by
      have := supported_ne_block hs
      simp only [bne_iff_ne, ne_eq] at this
      exact fun e => this e.symm
    unfold updateAttributeViewColumn
    rw [hp]
    dsimp only
    simp only [hs, if_true]
    rw [retypeColumn_of_found operation.ID operation.Name operation.Typ attrView.Columns i col hf]
    obtain ⟨saved, hsaved, hcols⟩ : ∃ saved : AttributeView, saved = { attrView with
        Columns := attrView.Columns.set i { col with Name := operation.Name, Typ := operation.Typ },
        Views := attrView.Views.map (fun view => { view with Table := { view.Table with
          Columns := retypeTableColumn operation.ID operation.Name operation.Typ
            view.Table.Columns } }) } ∧
        saved.Columns =
          attrView.Columns.set i { col with Name := operation.Name, Typ := operation.Typ } :=
      ⟨_, rfl, rfl⟩
    rw [← hsaved]
    have hsid : saved.ID = operation.AvID := by
      rw [hsaved]
      exact (parse_ok hp).2
    rcases saveAndReturn_state w saved with ⟨_, hsv⟩ | ⟨hsv, _⟩
    swap
    · rw [hwr] at hsv
      cases hsv
    rw [hsv]
    refine ⟨_, saved, rfl, parse_after_save w saved operation.AvID hsid, hcols, ?_⟩
    have hcount := blockFilter_set_anchor attrView.Columns i col
      { col with Name := operation.Name, Typ := operation.Typ } hi hty hne
    unfold blockColumns at hav ⊢
    rw [hcols]
    omega

/-- Witness of C11 amended on the sample world: the columns `colT` and `colS`
are not Block-typed, and `colB`, at index 0, is the Block-typed column, which
removeAttributeViewColumn deletes and updateAttributeViewColumn retypes to
`number`. -/
theorem C11_single_anchor_column_witness :
    WorldSingleAnchor sampleWorld ∧
      NotAnchorColumn sampleWorld sampleOperation.AvID sampleOperation.ID ∧
      ((∀ operation, ∃ w1, (addAttributeViewColumn sampleWorld operation).state? = some w1 ∧
          WorldSingleAnchor w1) ∧
        (∀ operation, NotAnchorColumn sampleWorld operation.AvID operation.ID →
          ∃ w1, (updateAttributeViewColumn sampleWorld operation).state? = some w1 ∧
            WorldSingleAnchor w1) ∧
        (∀ columnID avID, NotAnchorColumn sampleWorld avID columnID →
          ∃ w1, (removeAttributeViewColumn sampleWorld columnID avID).state? = some w1 ∧
            WorldSingleAnchor w1) ∧
        (∀ operation,
          (∀ w1, (sortAttributeViewColumn sampleWorld operation).state? = some w1 →
            WorldSingleAnchor w1) ∧
          (WorldAligned sampleWorld →
            ∃ w1, (sortAttributeViewColumn sampleWorld operation).state? = some w1 ∧
              WorldSingleAnchor w1)) ∧
        (∃ w1 attrView1, removeAttributeViewColumn sampleWorld "colB" "av1" = .ok w1 ∧
          ParseAttributeView w1 "av1" = .ok attrView1 ∧
          attrView1.Columns = sampleView.Columns.eraseIdx 0 ∧
          blockColumns attrView1 = 0) ∧
        (∃ w1 attrView1,
          updateAttributeViewColumn sampleWorld { sampleOperation with ID := "colB" } = .ok w1 ∧
          ParseAttributeView w1 "av1" = .ok attrView1 ∧
          attrView1.Columns = sampleView.Columns.set 0
            { ID := "colB", Name := "Score", Typ := ColumnTypeNumber, Options := [] } ∧
          blockColumns attrView1 = 0)) :=
  have h : WorldSingleAnchor sampleWorld := by
    intro a ha
    simp only [sampleWorld, List.mem_singleton] at ha
    subst ha
    rfl
  have hna : NotAnchorColumn sampleWorld sampleOperation.AvID sampleOperation.ID := by
    intro a hp col hcol hid
    have ha : sampleView = a := by
      have h0 : ParseAttributeView sampleWorld sampleOperation.AvID = .ok sampleView := rfl
      rw [h0] at hp
      cases hp
      rfl
    subst ha
    simp only [sampleView, List.mem_cons, List.mem_singleton, List.not_mem_nil, or_false] at hcol
    rcases hcol with rfl | rfl | rfl
    · exact absurd hid (by decide)
    · exact absurd hid (by decide)
    · decide
  have t := C11_single_anchor_column sampleWorld h
  ⟨h, hna, t.1, t.2.1, t.2.2.1, t.2.2.2.1,
    t.2.2.2.2.1 "colB" "av1" sampleView 0
      { ID := "colB", Name := "Block", Typ := ColumnTypeBlock, Options := [] }
      rfl rfl rfl (fun j c hj => absurd hj (Nat.not_lt_zero j)) rfl rfl,
    t.2.2.2.2.2 { sampleOperation with ID := "colB" } sampleView 0
      { ID := "colB", Name := "Block", Typ := ColumnTypeBlock, Options := [] }
      rfl rfl rfl (fun j c hj => absurd hj (Nat.not_lt_zero j)) rfl rfl rfl⟩

/-! ## Recolor, remove option, update cell: the code at concrete inputs -/

/-- C12. Recolor in place, evaluated on the sample view (column `colS` with the
options Red and Blue): updateAttributeViewColumnOption with old name and new
name both Red deletes the option Red, where the specification asks for the names
Red, Blue to stay and Red to get the new color.  The loop of lines 693-699 finds
the entry named newName, which is the entry itself, and deletes it. -/
theorem C12_recolor_deletes_option :
    ∃ w1, updateAttributeViewColumnOption sampleWorld recolorRed = .ok w1 ∧
      optionNamesOf sampleWorld "av1" = some [[], [], ["Red", "Blue"]] ∧
      optionNamesOf w1 "av1" = some [[], [], ["Blue"]] :=
  ⟨_, rfl, rfl, rfl⟩

/-- C13. Remove option, evaluated on a cell that references Red and Green:
removing the option Red sets the whole value of the cell to nil (line 791), so
the reference Green is lost as well, where the specification asks for the other
references to stay. -/
theorem C13_remove_option_drops_other_references :
    ∃ w1, removeAttributeViewColumnOption tagsWorld removeRedTag = .ok w1 ∧
      selectRefsOf tagsWorld "av3" = some [[[], ["Red", "Green"]]] ∧
      selectRefsOf w1 "av3" = some [[[], []]] :=
  ⟨_, rfl, rfl, rfl⟩

/-- After the attribute view has been read, doUpdateAttrViewCell never returns a
failure: every later `return` leaves the named result `ret` nil. -/
theorem doUpdateAttrViewCell_no_failure_after_parse (codec : Codec) (w : World)
    (operation : Operation) (view : AttributeView)
    (hp : ParseAttributeView w operation.ParentID = .ok view)
    (e : TxErr) (w1 : World) :
    doUpdateAttrViewCell codec w operation ≠ .err e w1 := by
  unfold doUpdateAttrViewCell
  dsimp only
  rw [hp]
  dsimp only
  intro h
  repeat' (split at h)
  all_goals cases h

/-- C14. Update-cell failures, evaluated on the sample world: when the store
save fails, when the attribute write fails, when the payload cannot be encoded
and when the tree of the block cannot be loaded, doUpdateAttrViewCell returns no
failure (the bare `return` statements of lines 600-626 leave `ret` nil); when
the save fails the block attribute has already been written. -/
theorem C14_update_cell_failures_swallowed :
    (∃ w1, doUpdateAttrViewCell sampleCodec { sampleWorld with avWritable := false }
        updateCellT = .ok w1 ∧ w1.avs = sampleWorld.avs ∧
      blockAttrs w1 =
        [[[("id", "B1"), ("custom-av-col-av1-cellT", "hello")], [("id", "B2")]]]) ∧
    (doUpdateAttrViewCell sampleCodec { sampleWorld with txWritable := false }
        updateCellT).error? = none ∧
    (doUpdateAttrViewCell sampleCodec sampleWorld
        { updateCellT with Data := .bool true }).error? = none ∧
    sampleCodec.MarshalJSON (.bool true) = .error "unsupported payload" ∧
    (doUpdateAttrViewCell sampleCodec { sampleWorld with trees := [] }
        updateCellT).error? = none ∧
    loadTree { sampleWorld with trees := [] } "B1" = .error ErrBlockNotFound :=
  ⟨⟨_, rfl, rfl, rfl⟩, rfl, rfl, rfl, rfl, rfl⟩

/-! ## Add column -/

theorem getElem?_appendNewCells (ids : Nat → String) (colType : ColumnType) :
    ∀ (rows : List Row) (n r : Nat) (row : Row), rows[r]? = some row →
      (appendNewCells ids colType n rows)[r]? =
        some { row with Cells := row.Cells ++ [NewCell (ids (n + r)) colType] }
  | [], _, _, _, h => by simp at h
  | x :: rows, n, 0, row, h => by
    simp only [List.getElem?_cons_zero, Option.some.injEq] at h
    subst h
    simp [appendNewCells]
  | x :: rows, n, r + 1, row, h => by
    simp only [List.getElem?_cons_succ] at h
    have ih := getElem?_appendNewCells ids colType rows (n + 1) r row h
    simp only [appendNewCells, List.getElem?_cons_succ, ih]
    have : n + 1 + r = n + (r + 1) := by omega
    rw [this]

theorem length_appendNewCells (ids : Nat → String) (colType : ColumnType) :
    ∀ (rows : List Row) (n : Nat), (appendNewCells ids colType n rows).length = rows.length
  | [], _ => rfl
  | x :: rows, n => by simp [appendNewCells, length_appendNewCells ids colType rows (n + 1)]

/-- C16. Add column postcondition: for an attribute view that loads, a view ID
that names one of its views, a supported type and a store that accepts the
save, addAttributeViewColumn succeeds; the persisted Columns are the old list
followed by one new column with the requested name and type, the selected view
has its old display columns followed by one display column with the same ID,
name and type (the other views are unchanged), and every row has its old cells
followed by one empty cell of that type. -/
theorem C16_add_column_postcondition (w : World) (operation : Operation)
    (attrView : AttributeView) (vi : Nat) (view : View)
    (hp : ParseAttributeView w operation.AvID = .ok attrView)
    (hv : attrView.GetView operation.ViewID = .ok (vi, view))
    (hs : operation.Typ ∈ ["text", "number", "date", "select", "mSelect"])
    (hwr : w.avWritable = true) :
    ∃ w1 attrView1 newID,
      addAttributeViewColumn w operation = .ok w1 ∧
      ParseAttributeView w1 operation.AvID = .ok attrView1 ∧
      attrView1.Columns = attrView.Columns ++
        [{ ID := newID, Name := operation.Name, Typ := operation.Typ, Options := [] }] ∧
      attrView1.Views = attrView.Views.set vi
        { view with Table := { view.Table with
            Columns := view.Table.Columns ++
              [{ ID := newID, Name := operation.Name, Typ := operation.Typ,
                 Width := "", Wrap := false, Hidden := false }] } } ∧
      attrView.Views[vi]? = some view ∧ view.ID = operation.ViewID ∧
      attrView1.Rows.length = attrView.Rows.length ∧
      ∀ (r : Nat) (row : Row), attrView.Rows[r]? = some row →
        ∃ cellID, attrView1.Rows[r]? =
          some { row with Cells := row.Cells ++ [NewCell cellID operation.Typ] } := by
  have hsup : supportedColumnType operation.Typ = true := by
    simp only [List.mem_cons, List.mem_singleton, List.not_mem_nil, or_false] at hs
    unfold supportedColumnType ColumnTypeText ColumnTypeNumber ColumnTypeDate
      ColumnTypeSelect ColumnTypeMSelect
    simp only [Bool.or_eq_true, beq_iff_eq]
    tauto
  have hview : attrView.Views[vi]? = some view ∧ view.ID = operation.ViewID := by
    unfold AttributeView.GetView at hv
    cases hf : findWithIndex (fun v => v.ID == operation.ViewID) attrView.Views with
    | none => rw [hf] at hv; cases hv
    | some r =>
      rw [hf] at hv
      cases hv
      obtain ⟨h1, h2, _⟩ := findWithIndex_some hf
      exact ⟨h1, by simpa using h2⟩
  unfold addAttributeViewColumn
  rw [hp]
  dsimp only
  rw [hv]
  dsimp only
  rw [if_pos hsup]
  rcases saveAndReturn_state { w with nextID := w.nextID + 1 + attrView.Rows.length }
    { attrView with
      Columns := attrView.Columns ++
        [{ ID := w.ids w.nextID, Name := operation.Name, Typ := operation.Typ, Options := [] }],
      Views := attrView.Views.set vi
        { view with Table := { view.Table with
            Columns := view.Table.Columns ++
              [{ ID := w.ids w.nextID, Name := operation.Name, Typ := operation.Typ,
                 Width := "", Wrap := false, Hidden := false }] } },
      Rows := appendNewCells w.ids operation.Typ (w.nextID + 1) attrView.Rows }
    with ⟨_, hsv⟩ | ⟨hsv, _⟩
  swap
  · rw [show ({ w with nextID := w.nextID + 1 + attrView.Rows.length } : World).avWritable =
      w.avWritable from rfl, hwr] at hsv
    cases hsv
  rw [hsv]
  refine ⟨_, _, w.ids w.nextID, rfl, parse_after_save _ _ _ (parse_ok hp).2, rfl, rfl,
    hview.1, hview.2, length_appendNewCells _ _ _ _, ?_⟩
  intro r row hr
  exact ⟨_, getElem?_appendNewCells _ _ _ _ _ _ hr⟩

/-- Witness of C16, the scenario of the specification: columns Block and Text,
one row anchored to `B1`; adding a Number column named Score gives a row of the
three cells Block(B1), Text(empty), Number(empty) and three display columns. -/
theorem C16_add_column_postcondition_witness :
    (ParseAttributeView pairWorld addScore.AvID = .ok pairView ∧
      pairView.GetView addScore.ViewID = .ok (0, pairTable) ∧
      addScore.Typ ∈ ["text", "number", "date", "select", "mSelect"]) ∧
    (∃ w1 attrView1 newID,
      addAttributeViewColumn pairWorld addScore = .ok w1 ∧
      ParseAttributeView w1 addScore.AvID = .ok attrView1 ∧
      attrView1.Columns = pairView.Columns ++
        [{ ID := newID, Name := addScore.Name, Typ := addScore.Typ, Options := [] }] ∧
      attrView1.Views = pairView.Views.set 0
        { pairTable with Table := { pairTable.Table with
            Columns := pairTable.Table.Columns ++
              [{ ID := newID, Name := addScore.Name, Typ := addScore.Typ,
                 Width := "", Wrap := false, Hidden := false }] } } ∧
      pairView.Views[0]? = some pairTable ∧
      pairTable.ID = addScore.ViewID ∧
      attrView1.Rows.length = pairView.Rows.length ∧
      ∀ (r : Nat) (row : Row), pairView.Rows[r]? = some row →
        ∃ cellID, attrView1.Rows[r]? =
          some { row with Cells := row.Cells ++ [NewCell cellID addScore.Typ] }) ∧
    (addAttributeViewColumn pairWorld addScore).state?.map
        (fun w1 => w1.avs.map (fun a =>
          (a.Rows.map (fun row => row.Cells.map (fun c => (c.ValueType, c.Value.isSome))),
           a.Views.map (fun v => v.Table.Columns.length)))) =
      some [([[("block", true), ("text", false), ("number", false)]], [3])] :=
  ⟨⟨rfl, rfl, by decide⟩,
   C16_add_column_postcondition pairWorld addScore pairView 0 _ rfl rfl (by decide) rfl,
   rfl⟩

/-! ## Unsupported column types -/

theorem supportedColumnType_iff (t : String) :
    supportedColumnType t = true ↔ t ∈ ["text", "number", "date", "select", "mSelect"] := by
  simp only [List.mem_cons, List.mem_singleton, List.not_mem_nil, or_false]
  unfold supportedColumnType ColumnTypeText ColumnTypeNumber ColumnTypeDate
    ColumnTypeSelect ColumnTypeMSelect
  simp only [Bool.or_eq_true, beq_iff_eq]
  tauto

theorem invalidColumnType_ne_viewNotFound (t : String) :
    ErrViewNotFound ≠ invalidColumnType t := by
  intro h
  have h1 := congrArg String.data h
  simp [ErrViewNotFound, invalidColumnType] at h1

theorem invalidColumnType_ne_writeFailed (t : String) :
    ErrWriteFailed ≠ invalidColumnType t := by
  intro h
  have h1 := congrArg String.data h
  simp [ErrWriteFailed, invalidColumnType] at h1

theorem saveAndReturn_error (w : World) (attrView : AttributeView) :
    (saveAndReturn w attrView).error? = none ∨
      (saveAndReturn w attrView).error? = some ErrWriteFailed := by
  unfold saveAndReturn SaveAttributeView
  cases w.avWritable
  · exact Or.inr rfl
  · exact Or.inl rfl

/-- C17, counterexample to the statement as written: with the unsupported type
`formula` and a view ID that names no view of the sample view,
addAttributeViewColumn returns the error of the view lookup (lines 493-496 run
before the type switch), not the message `invalid column type [formula]`. -/
theorem C17_missing_view_error_counterexample :
    "formula" ∉ ["text", "number", "date", "select", "mSelect"] ∧
      ParseAttributeView sampleWorld "av1" = .ok sampleView ∧
      addAttributeViewColumn sampleWorld
          { sampleOperation with Typ := "formula", ViewID := "nope" } =
        .err ErrViewNotFound sampleWorld ∧
      ErrViewNotFound ≠ invalidColumnType "formula" :=
  ⟨by decide, rfl, rfl, invalidColumnType_ne_viewNotFound _⟩

/-- C17, amended. Unsupported column type is rejected before any mutation: for
an attribute view that loads and a type tag that is not one of text, number,
date, select, mSelect, updateAttributeViewColumn returns the error
`invalid column type [T]` and leaves the world as it is (nothing changed,
nothing saved), and so does addAttributeViewColumn when its view ID names a view
of the attribute view; when the view ID names no view, addAttributeViewColumn
returns the error of the view lookup, the world again as it is.  For a supported
type neither function returns the error `invalid column type [T]`. -/
theorem C17_unsupported_type_rejected (w : World) (operation : Operation)
    (attrView : AttributeView)
    (hp : ParseAttributeView w operation.AvID = .ok attrView) :
    (operation.Typ ∉ ["text", "number", "date", "select", "mSelect"] →
      updateAttributeViewColumn w operation = .err (invalidColumnType operation.Typ) w ∧
      (∀ vi view, attrView.GetView operation.ViewID = .ok (vi, view) →
        addAttributeViewColumn w operation = .err (invalidColumnType operation.Typ) w) ∧
      (∀ e, attrView.GetView operation.ViewID = .error e →
        addAttributeViewColumn w operation = .err e w)) ∧
    (operation.Typ ∈ ["text", "number", "date", "select", "mSelect"] →
      (addAttributeViewColumn w operation).error? ≠ some (invalidColumnType operation.Typ) ∧
      (updateAttributeViewColumn w operation).error? ≠
        some (invalidColumnType operation.Typ)) := by
  refine ⟨fun hT => ?_, fun hT => ?_⟩
  · have hs : ¬ supportedColumnType operation.Typ = true :=
      fun h => hT ((supportedColumnType_iff _).1 h)
    refine ⟨?_, fun vi view hv => ?_, fun e hv => ?_⟩
    · unfold updateAttributeViewColumn
      rw [hp]
      dsimp only
      rw [if_neg hs]
      rfl
    · unfold addAttributeViewColumn
      rw [hp]
      dsimp only
      rw [hv]
      dsimp only
      rw [if_neg hs]
      rfl
    · unfold addAttributeViewColumn
      rw [hp]
      dsimp only
      rw [hv]
  · have hs : supportedColumnType operation.Typ = true := (supportedColumnType_iff _).2 hT
    constructor
    · unfold addAttributeViewColumn
      rw [hp]
      dsimp only
      cases hv : attrView.GetView operation.ViewID with
      | error e =>
        dsimp only
        have he : e = ErrViewNotFound := by
          unfold AttributeView.GetView at hv
          split at hv
          · cases hv
          · cases hv
            rfl
        subst he
        intro h
        simp only [Res.error?, Option.some.injEq] at h
        exact invalidColumnType_ne_viewNotFound _ h
      | ok r =>
        obtain ⟨vi, view⟩ := r
        dsimp only
        rw [if_pos hs]
        intro h
        rcases saveAndReturn_error _ _ with h1 | h1
        · rw [h1] at h
          cases h
        · rw [h1] at h
          simp only [Option.some.injEq] at h
          exact invalidColumnType_ne_writeFailed _ h
    · unfold updateAttributeViewColumn
      rw [hp]
      dsimp only
      rw [if_pos hs]
      intro h
      rcases saveAndReturn_error _ _ with h1 | h1
      · rw [h1] at h
        cases h
      · rw [h1] at h
        simp only [Option.some.injEq] at h
        exact invalidColumnType_ne_writeFailed _ h

/-- Witness of C17 amended: the sample view and a request of the unsupported
type `formula`, rejected by both functions with `invalid column type [formula]`,
the world unchanged. -/
theorem C17_unsupported_type_rejected_witness :
    ParseAttributeView sampleWorld formulaOperation.AvID = .ok sampleView ∧
    ((formulaOperation.Typ ∉ ["text", "number", "date", "select", "mSelect"] →
      updateAttributeViewColumn sampleWorld formulaOperation =
        .err (invalidColumnType formulaOperation.Typ) sampleWorld ∧
      (∀ vi view, sampleView.GetView formulaOperation.ViewID = .ok (vi, view) →
        addAttributeViewColumn sampleWorld formulaOperation =
          .err (invalidColumnType formulaOperation.Typ) sampleWorld) ∧
      (∀ e, sampleView.GetView formulaOperation.ViewID = .error e →
        addAttributeViewColumn sampleWorld formulaOperation = .err e sampleWorld)) ∧
    (formulaOperation.Typ ∈ ["text", "number", "date", "select", "mSelect"] →
      (addAttributeViewColumn sampleWorld formulaOperation).error? ≠
        some (invalidColumnType formulaOperation.Typ) ∧
      (updateAttributeViewColumn sampleWorld formulaOperation).error? ≠
        some (invalidColumnType formulaOperation.Typ))) ∧
    formulaOperation.Typ ∉ ["text", "number", "date", "select", "mSelect"] ∧
    updateAttributeViewColumn sampleWorld formulaOperation =
      .err "invalid column type [formula]" sampleWorld ∧
    addAttributeViewColumn sampleWorld formulaOperation =
      .err "invalid column type [formula]" sampleWorld :=
  ⟨rfl, C17_unsupported_type_rejected sampleWorld formulaOperation sampleView rfl,
   by decide,
   ((C17_unsupported_type_rejected sampleWorld formulaOperation sampleView rfl).1
     (by decide)).1,
   ((C17_unsupported_type_rejected sampleWorld formulaOperation sampleView rfl).1
     (by decide)).2.1 0 _ rfl⟩

/-! ## Row reorder -/

theorem findWithIndex_eq_none {α : Type} {p : α → Bool} :
    ∀ {l : List α}, (∀ x ∈ l, p x = false) → findWithIndex p l = none
  | [], _ => rfl
  | a :: l, h => by
    have ha : p a = false := h a (List.mem_cons_self _ _)
    have ih := findWithIndex_eq_none (l := l) (fun x hx => h x (List.mem_cons_of_mem _ hx))
    simp [findWithIndex, ha, ih]

theorem findWithIndex_of_nodup {α : Type} (getID : α → String) {l : List α} {i : Nat}
    {x : α} (hnd : (l.map getID).Nodup) (hx : l[i]? = some x) :
    findWithIndex (fun y => getID y == getID x) l = some (i, x) := by
  apply findWithIndex_of_first hx (by simp)
  intro j y hj hy
  by_contra hne
  have heq : getID y = getID x := by simpa using hne
  have hjlt : j < (l.map getID).length := by
    simpa using (List.getElem?_eq_some.1 hy).1
  have : j = i := by
    apply List.getElem?_inj hjlt hnd
    simp only [List.getElem?_map, hy, hx, Option.map_some', heq]
  omega

theorem nodup_eraseIdx_ids {α : Type} (getID : α → String) {l : List α} {i : Nat} {x : α}
    (hnd : (l.map getID).Nodup) (hx : l[i]? = some x) :
    ((l.eraseIdx i).map getID).Nodup ∧ ∀ y ∈ l.eraseIdx i, getID y ≠ getID x := by
  have hperm := (perm_eraseIdx l i x hx).map getID
  have h := (hperm.nodup_iff).2 hnd
  simp only [List.map_cons, List.nodup_cons] at h
  refine ⟨h.2, fun y hy heq => h.1 ?_⟩
  rw [← heq]
  exact List.mem_map_of_mem _ hy

/-- C18. Row reorder placement: for an attribute view with distinct row IDs, the
ID of one of its rows and a store that accepts the save, sortAttributeViewRow
succeeds and the persisted Rows are the old list with that row removed and
reinserted: immediately after the row whose ID equals PreviousID when one of the
remaining rows has that ID, at index 0 when none has (so when PreviousID is the
ID of the moved row itself, and when PreviousID is empty, no row having an empty
ID).  The new list is a permutation of the old one, and the remaining rows keep
their order. -/
theorem C18_row_reorder_placement (w : World) (operation : Operation)
    (attrView : AttributeView) (index : Nat) (row : Row)
    (hp : ParseAttributeView w operation.AvID = .ok attrView)
    (hnd : (attrView.Rows.map Row.ID).Nodup)
    (hrow : attrView.Rows[index]? = some row) (hid : row.ID = operation.ID)
    (hwr : w.avWritable = true) :
    ∃ w1 attrView1,
      sortAttributeViewRow w operation = .ok w1 ∧
      ParseAttributeView w1 operation.AvID = .ok attrView1 ∧
      attrView1.Columns = attrView.Columns ∧
      attrView1.Rows.Perm attrView.Rows ∧
      (∃ p, p ≤ (attrView.Rows.eraseIdx index).length ∧
        attrView1.Rows = (attrView.Rows.eraseIdx index).take p ++
          row :: (attrView.Rows.eraseIdx index).drop p) ∧
      (∀ p prev, (attrView.Rows.eraseIdx index)[p]? = some prev →
        prev.ID = operation.PreviousID →
        attrView1.Rows = (attrView.Rows.eraseIdx index).take (p + 1) ++
          row :: (attrView.Rows.eraseIdx index).drop (p + 1)) ∧
      ((∀ r ∈ attrView.Rows.eraseIdx index, r.ID ≠ operation.PreviousID) →
        attrView1.Rows = row :: attrView.Rows.eraseIdx index) ∧
      (operation.PreviousID = operation.ID →
        attrView1.Rows = row :: attrView.Rows.eraseIdx index) ∧
      (operation.PreviousID = "" → (∀ r ∈ attrView.Rows, r.ID ≠ "") →
        attrView1.Rows = row :: attrView.Rows.eraseIdx index) := by
  have hf : findWithIndex (fun r => r.ID == operation.ID) attrView.Rows = some (index, row) := by
    have h := findWithIndex_of_nodup Row.ID hnd hrow
    rw [hid] at h
    exact h
  obtain ⟨hnd1, hne1⟩ := nodup_eraseIdx_ids Row.ID hnd hrow
  unfold sortAttributeViewRow
  rw [hp]
  dsimp only
  rw [hf]
  dsimp only
  rcases saveAndReturn_state w
    { attrView with
      Rows := InsertElem (attrView.Rows.eraseIdx index)
        (previousIndexOf Row.ID (attrView.Rows.eraseIdx index) operation.PreviousID) row }
    with ⟨_, hs⟩ | ⟨hs, _⟩
  swap
  · rw [hwr] at hs
    cases hs
  rw [hs]
  have hnone : (∀ r ∈ attrView.Rows.eraseIdx index, r.ID ≠ operation.PreviousID) →
      InsertElem (attrView.Rows.eraseIdx index)
        (previousIndexOf Row.ID (attrView.Rows.eraseIdx index) operation.PreviousID) row =
      row :: attrView.Rows.eraseIdx index := by
    intro h
    have h0 : findWithIndex (fun x => x.ID == operation.PreviousID)
        (attrView.Rows.eraseIdx index) = none :=
      findWithIndex_eq_none (fun x hx => by simpa using h x hx)
    simp [previousIndexOf, h0, InsertElem]
  refine ⟨_, { attrView with
      Rows := InsertElem (attrView.Rows.eraseIdx index)
        (previousIndexOf Row.ID (attrView.Rows.eraseIdx index) operation.PreviousID) row },
    rfl, parse_after_save _ _ _ (parse_ok hp).2, rfl,
    (perm_InsertElem _ _ _).trans (perm_eraseIdx _ _ _ hrow), ?_, ?_, hnone, ?_, ?_⟩
  · refine ⟨min (previousIndexOf Row.ID (attrView.Rows.eraseIdx index) operation.PreviousID)
      (attrView.Rows.eraseIdx index).length, Nat.min_le_right _ _, ?_⟩
    dsimp only
    unfold InsertElem
    rcases Nat.le_total
      (previousIndexOf Row.ID (attrView.Rows.eraseIdx index) operation.PreviousID)
      (attrView.Rows.eraseIdx index).length with h | h
    · rw [Nat.min_eq_left h]
    · rw [Nat.min_eq_right h, List.take_of_length_le h, List.drop_of_length_le h,
        List.take_length, List.drop_length]
  · intro p prev hprev hpid
    have h0 : findWithIndex (fun x => x.ID == operation.PreviousID)
        (attrView.Rows.eraseIdx index) = some (p, prev) := by
      have h := findWithIndex_of_nodup Row.ID hnd1 hprev
      rw [hpid] at h
      exact h
    simp [previousIndexOf, h0, InsertElem]
  · intro hself
    apply hnone
    intro r hr
    rw [hself, ← hid]
    exact hne1 r hr
  · intro hempty hids
    apply hnone
    intro r hr
    rw [hempty]
    exact hids r (List.mem_of_mem_eraseIdx hr)

/-- Witness of C18: the rows r1, r2, r3; moving r1 after r2 gives r2, r1, r3. -/
theorem C18_row_reorder_placement_witness :
    (ParseAttributeView threeRowsWorld moveFirstAfterSecond.AvID = .ok threeRows ∧
      (threeRows.Rows.map Row.ID).Nodup) ∧
    (∃ w1 attrView1,
      sortAttributeViewRow threeRowsWorld moveFirstAfterSecond = .ok w1 ∧
      ParseAttributeView w1 moveFirstAfterSecond.AvID = .ok attrView1 ∧
      attrView1.Columns = threeRows.Columns ∧
      attrView1.Rows.Perm threeRows.Rows ∧
      (∃ p, p ≤ (threeRows.Rows.eraseIdx 0).length ∧
        attrView1.Rows = (threeRows.Rows.eraseIdx 0).take p ++
          { ID := "r1", Cells := [NewCellBlock "c1" "B1" "first block"] } ::
            (threeRows.Rows.eraseIdx 0).drop p) ∧
      (∀ p prev, (threeRows.Rows.eraseIdx 0)[p]? = some prev →
        prev.ID = moveFirstAfterSecond.PreviousID →
        attrView1.Rows = (threeRows.Rows.eraseIdx 0).take (p + 1) ++
          { ID := "r1", Cells := [NewCellBlock "c1" "B1" "first block"] } ::
            (threeRows.Rows.eraseIdx 0).drop (p + 1)) ∧
      ((∀ r ∈ threeRows.Rows.eraseIdx 0, r.ID ≠ moveFirstAfterSecond.PreviousID) →
        attrView1.Rows = { ID := "r1", Cells := [NewCellBlock "c1" "B1" "first block"] } ::
          threeRows.Rows.eraseIdx 0) ∧
      (moveFirstAfterSecond.PreviousID = moveFirstAfterSecond.ID →
        attrView1.Rows = { ID := "r1", Cells := [NewCellBlock "c1" "B1" "first block"] } ::
          threeRows.Rows.eraseIdx 0) ∧
      (moveFirstAfterSecond.PreviousID = "" → (∀ r ∈ threeRows.Rows, r.ID ≠ "") →
        attrView1.Rows = { ID := "r1", Cells := [NewCellBlock "c1" "B1" "first block"] } ::
          threeRows.Rows.eraseIdx 0)) ∧
    (sortAttributeViewRow threeRowsWorld moveFirstAfterSecond).state?.map
        (fun w1 => w1.avs.map (fun a => a.Rows.map Row.ID)) = some [["r2", "r1", "r3"]] :=
  ⟨⟨rfl, by decide⟩,
   C18_row_reorder_placement threeRowsWorld moveFirstAfterSecond threeRows 0 _ rfl
     (by decide) rfl rfl rfl,
   rfl⟩

/-! ## Add block with a predecessor that does not exist -/

/-- C19. Add-block placement, evaluated on the sample view with the accepted
block `B2` and PreviousID `nope`, the ID of no row: addAttributeViewBlock returns
no error, writes the attributes of the block (custom-avs names the view) and
saves the view, but the Rows are the old list: no row was inserted, because the
loop of lines 258-263 has no fallback when no row has the ID. -/
theorem C19_add_block_unmatched_previous_drops_row :
    ∃ w1 tree1, addAttributeViewBlock sampleWorld "B2" addAfterMissing sampleTree =
        .ok (w1, tree1) ∧
      sampleWorld.avs.map (fun a => a.Rows.map Row.ID) = [["r1"]] ∧
      w1.avs.map (fun a => a.Rows.map Row.ID) = [["r1"]] ∧
      blockAttrs w1 =
        [[[("id", "B1")],
          [("id", "B2"), ("custom-av-col-av1-colT", ""), ("custom-av-col-av1-colS", ""),
           ("custom-avs", "av1")]]] :=
  ⟨_, _, rfl, rfl, rfl, rfl⟩

/-! ## The custom-avs attribute -/

theorem intercalate_go_data (s : String) :
    ∀ (l : List String) (acc : String),
      (String.intercalate.go acc s l).data =
        acc.data ++ (l.map (fun a => s.data ++ a.data)).flatten
  | [], acc => by simp [String.intercalate.go]
  | a :: l, acc => by
    simp [String.intercalate.go, intercalate_go_data s l, String.data_append, List.append_assoc]

theorem intercalate_cons_flatten {α : Type} (sep : List α) :
    ∀ (a : List α) (l : List (List α)),
      sep.intercalate (a :: l) = a ++ (l.map (fun b => sep ++ b)).flatten
  | a, [] => by simp [List.intercalate]
  | a, b :: l => by
    have ih := intercalate_cons_flatten sep b l
    simp only [List.intercalate] at ih ⊢
    simp [List.intersperse, ih, List.append_assoc]

theorem intercalate_data (s : String) (l : List String) :
    (s.intercalate l).data = s.data.intercalate (l.map String.data) := by
  cases l with
  | nil => simp [String.intercalate, List.intercalate]
  | cons a l =>
    simp only [String.intercalate, intercalate_go_data, List.map_cons, intercalate_cons_flatten,
      List.map_map]
    rfl

theorem splitIDs_intercalate (l : List String) (hne : l ≠ [])
    (hl : ∀ x ∈ l, ',' ∉ x.data) : splitIDs (",".intercalate l) = l := by
  unfold splitIDs
  rw [String.split_of_valid, intercalate_data]
  have h := List.splitOn_intercalate (l.map String.data) ','
    (by
      intro x hx
      obtain ⟨y, hy, rfl⟩ := List.mem_map.1 hx
      exact hl y hy)
    (by simpa using hne)
  have hsep : ",".data = [','] := rfl
  rw [hsep]
  unfold List.splitOn at h
  rw [h]
  simp [List.map_map, Function.comp_def]

theorem splitIDs_single (s : String) (h : ',' ∉ s.data) : splitIDs s = [s] := by
  unfold splitIDs
  rw [String.split_of_valid, List.splitOnP_eq_single]
  · simp
  · intro x hx hp
    have : x = ',' := by simpa using hp
    exact h (this ▸ hx)

theorem splitOnP_no_sep {α : Type} (p : α → Bool) :
    ∀ (xs : List α), ∀ l ∈ List.splitOnP p xs, ∀ x ∈ l, p x = false
  | [], l, hl, x, hx => by
    simp [List.splitOnP_nil] at hl
    subst hl
    simp at hx
  | a :: xs, l, hl, x, hx => by
    have ih := splitOnP_no_sep p xs
    rw [List.splitOnP_cons] at hl
    by_cases hp : p a = true
    · rw [if_pos hp] at hl
      rcases List.mem_cons.1 hl with rfl | hl
      · simp at hx
      · exact ih l hl x hx
    · rw [if_neg hp] at hl
      cases hs : List.splitOnP p xs with
      | nil => simp [hs, List.modifyHead] at hl
      | cons b bs =>
        rw [hs] at hl ih
        simp only [List.modifyHead] at hl
        rcases List.mem_cons.1 hl with rfl | hl
        · rcases List.mem_cons.1 hx with rfl | hx
          · simpa using hp
          · exact ih b (List.mem_cons_self _ _) x hx
        · exact ih l (List.mem_cons_of_mem _ hl) x hx

theorem splitIDs_no_comma (s : String) : ∀ x ∈ splitIDs s, ',' ∉ x.data := by
  intro x hx hmem
  unfold splitIDs at hx
  rw [String.split_of_valid] at hx
  obtain ⟨l, hl, rfl⟩ := List.mem_map.1 hx
  have := splitOnP_no_sep (fun c => c == ',') s.data l hl ',' hmem
  simp at this

theorem mem_RemoveDuplicatedElem {a : String} :
    ∀ {l : List String}, a ∈ RemoveDuplicatedElem l ↔ a ∈ l
  | [] => by simp [RemoveDuplicatedElem]
  | x :: l => by
    have ih := mem_RemoveDuplicatedElem (a := a) (l := l)
    simp only [RemoveDuplicatedElem, List.mem_cons, List.mem_filter, ih, bne_iff_ne, ne_eq]
    constructor
    · rintro (h | ⟨h, _⟩)
      · exact Or.inl h
      · exact Or.inr h
    · rintro (h | h)
      · exact Or.inl h
      · by_cases hax : a = x
        · exact Or.inl hax
        · exact Or.inr ⟨h, hax⟩

theorem nodup_RemoveDuplicatedElem : ∀ (l : List String), (RemoveDuplicatedElem l).Nodup
  | [] => by simp [RemoveDuplicatedElem]
  | x :: l => by
    simp only [RemoveDuplicatedElem, List.nodup_cons, List.mem_filter, bne_iff_ne, ne_eq,
      not_true_eq_false, and_false, not_false_eq_true, true_and]
    exact (nodup_RemoveDuplicatedElem l).filter _

theorem RemoveDuplicatedElem_append_singleton (a : String) :
    ∀ (l : List String), RemoveDuplicatedElem (l ++ [a]) =
      RemoveDuplicatedElem l ++ (if a ∈ l then [] else [a])
  | [] => by simp [RemoveDuplicatedElem]
  | x :: l => by
    have ih := RemoveDuplicatedElem_append_singleton a l
    simp only [List.cons_append, RemoveDuplicatedElem]
    rw [show l.append [a] = l ++ [a] from rfl, ih]
    simp only [List.filter_append, List.mem_cons]
    by_cases hax : a = x
    · subst hax
      by_cases hal : a ∈ l <;> simp [hal]
    · by_cases hal : a ∈ l <;> simp [hal, hax]

theorem getAttr_setAttr_self (name value : String) :
    ∀ (attrs : List (String × String)), getAttr (setAttr attrs name value) name = value
  | [] => by simp [setAttr, getAttr]
  | kv :: attrs => by
    have ih := getAttr_setAttr_self name value attrs
    unfold setAttr
    by_cases h : (kv.1 == name) = true
    · rw [if_pos h]
      simp [getAttr]
    · rw [if_neg h]
      have h1 : (kv.1 == name) = false := by simpa using h
      unfold getAttr at ih ⊢
      simp only [List.find?_cons, h1]
      exact ih

theorem getAttr_setAttr_ne {name other : String} (value : String) (hne : name ≠ other) :
    ∀ (attrs : List (String × String)),
      getAttr (setAttr attrs name value) other = getAttr attrs other
  | [] => by
    have h : (name == other) = false := by simpa using hne
    simp [setAttr, getAttr, h]
  | kv :: attrs => by
    have ih := getAttr_setAttr_ne value hne attrs
    have h2 : (name == other) = false := by simpa using hne
    unfold setAttr
    by_cases h : (kv.1 == name) = true
    · rw [if_pos h]
      have h1 : kv.1 = name := by simpa using h
      have h3 : (kv.1 == other) = false := by rw [h1]; exact h2
      unfold getAttr
      simp only [List.find?_cons, h2, h3]
    · rw [if_neg h]
      unfold getAttr at ih ⊢
      cases h4 : (kv.1 == other) with
      | true => simp only [List.find?_cons, h4]
      | false =>
        simp only [List.find?_cons, h4]
        exact ih

theorem placeholderKey_ne (avID colID : String) :
    NodeAttrNamePrefixAvCol ++ avID ++ "-" ++ colID ≠ NodeAttrNameAVs := by
  intro h
  have h1 := congrArg String.data h
  simp [NodeAttrNamePrefixAvCol, NodeAttrNameAVs] at h1

theorem getAttr_placeholderAttrs (avID : String) :
    ∀ (cols : List Column) (attrs : List (String × String)),
      getAttr (placeholderAttrs avID attrs cols) NodeAttrNameAVs = getAttr attrs NodeAttrNameAVs
  | [], _ => rfl
  | col :: cols, attrs => by
    unfold placeholderAttrs
    split
    · rw [getAttr_placeholderAttrs avID cols, getAttr_setAttr_ne _ (placeholderKey_ne _ _)]
    · exact getAttr_placeholderAttrs avID cols attrs

theorem find?_replaceFirst {α : Type} (p : α → Bool) (y : α) (hy : p y = true) :
    ∀ (l : List α) (x : α), l.find? p = some x → (replaceFirst p y l).find? p = some y
  | [], _, h => by simp at h
  | a :: l, x, h => by
    unfold replaceFirst
    cases ha : p a with
    | true => simp [List.find?_cons, hy]
    | false =>
      simp only [List.find?_cons, ha] at h
      simp only [Bool.false_eq_true, if_false, List.find?_cons, ha]
      exact find?_replaceFirst p y hy l x h

theorem anchoredTo_of_fresh (blockID : String) :
    ∀ (rows : List Row), (∀ row ∈ rows, row.anchorSet) →
      (∀ row ∈ rows, ¬ row.anchoredAt blockID) → anchoredTo blockID rows = some false
  | [], _, _ => rfl
  | row :: rows, hset, hfresh => by
    have ih := anchoredTo_of_fresh blockID rows
      (fun r hr => hset r (List.mem_cons_of_mem _ hr))
      (fun r hr => hfresh r (List.mem_cons_of_mem _ hr))
    unfold anchoredTo
    cases hg : row.GetBlockCell with
    | none => exact ih
    | some blockCell =>
      dsimp only
      obtain ⟨value, block, hv, hb⟩ := hset row (List.mem_cons_self _ _) blockCell hg
      rw [hv]
      dsimp only
      rw [hb]
      dsimp only
      by_cases heq : (block.ID == blockID) = true
      · exact absurd ⟨blockCell, value, block, hg, hv, hb, by simpa using heq⟩
          (hfresh row (List.mem_cons_self _ _))
      · rw [if_neg heq]
        exact ih

/-- What lines 242-249 make of the `custom-avs` attribute, for an attribute
view ID without comma. -/
theorem mergeAvID_spec (attrs : List (String × String)) (avID : String)
    (hcomma : ',' ∉ avID.data) :
    (getAttr attrs NodeAttrNameAVs = "" →
        getAttr (mergeAvID attrs avID) NodeAttrNameAVs = avID) ∧
      (getAttr attrs NodeAttrNameAVs ≠ "" →
        splitIDs (getAttr (mergeAvID attrs avID) NodeAttrNameAVs) =
          RemoveDuplicatedElem (splitIDs (getAttr attrs NodeAttrNameAVs)) ++
            (if avID ∈ splitIDs (getAttr attrs NodeAttrNameAVs) then [] else [avID])) ∧
      (splitIDs (getAttr (mergeAvID attrs avID) NodeAttrNameAVs)).count avID = 1 ∧
      (splitIDs (getAttr (mergeAvID attrs avID) NodeAttrNameAVs)).Nodup := by
  unfold mergeAvID
  by_cases h : ("" == getAttr attrs NodeAttrNameAVs) = true
  · rw [if_pos h, getAttr_setAttr_self, splitIDs_single avID hcomma]
    have h0 : getAttr attrs NodeAttrNameAVs = "" := by
      have := beq_iff_eq.1 h
      exact this.symm
    exact ⟨fun _ => rfl, fun hne => absurd h0 hne, by simp, by simp⟩
  · rw [if_neg h]
    dsimp only
    rw [getAttr_setAttr_self]
    have hmem : avID ∈ RemoveDuplicatedElem (splitIDs (getAttr attrs NodeAttrNameAVs) ++ [avID]) :=
      mem_RemoveDuplicatedElem.2 (by simp)
    have hsplit : splitIDs (",".intercalate
        (RemoveDuplicatedElem (splitIDs (getAttr attrs NodeAttrNameAVs) ++ [avID]))) =
        RemoveDuplicatedElem (splitIDs (getAttr attrs NodeAttrNameAVs) ++ [avID]) := by
      apply splitIDs_intercalate
      · exact List.ne_nil_of_mem hmem
      · intro x hx
        rcases List.mem_append.1 (mem_RemoveDuplicatedElem.1 hx) with hx | hx
        · exact splitIDs_no_comma _ x hx
        · rw [List.mem_singleton.1 hx]
          exact hcomma
    rw [hsplit]
    refine ⟨fun h0 => ?_, fun _ => RemoveDuplicatedElem_append_singleton _ _,
      List.count_eq_one_of_mem (nodup_RemoveDuplicatedElem _) hmem,
      nodup_RemoveDuplicatedElem _⟩
    rw [h0] at h
    exact absurd rfl h

/-- C20. The attribute custom-avs stays a deduplicated membership list: for a
block that addAttributeViewBlock accepts (found in the tree, not an attribute
view node, with a block record, not yet anchoring a row of the attribute view,
the attribute write succeeding) and an attribute view ID without comma, the
function returns and the block carries the new attribute; when the attribute
was empty before it equals the attribute view ID alone; otherwise, split on
commas, it lists the IDs it listed before, each once at its first position and
in the same order, followed by the attribute view ID unless that was listed
already; in both cases it contains the attribute view ID exactly once and no ID
twice. -/
theorem C20_custom_avs_membership (w : World) (blockID : String) (operation : Operation)
    (tree : Tree) (node : Node) (attrView : AttributeView)
    (hn : GetNodeInTree tree blockID = some node)
    (hty : node.Typ ≠ NodeAttributeView) (hb : node.Buildable = true)
    (hp : ParseAttributeView w operation.AvID = .ok attrView)
    (hset : ∀ row ∈ attrView.Rows, row.anchorSet)
    (hfresh : ∀ row ∈ attrView.Rows, ¬ row.anchoredAt blockID)
    (htx : w.txWritable = true)
    (hcomma : ',' ∉ operation.AvID.data) :
    ∃ w1 tree1 node1,
      (addAttributeViewBlock w blockID operation tree).state? = some (w1, tree1) ∧
      (w.avWritable = true → (addAttributeViewBlock w blockID operation tree).error? = none) ∧
      GetNodeInTree tree1 blockID = some node1 ∧
      (getAttr node.KramdownIAL NodeAttrNameAVs = "" →
        getAttr node1.KramdownIAL NodeAttrNameAVs = operation.AvID) ∧
      (getAttr node.KramdownIAL NodeAttrNameAVs ≠ "" →
        splitIDs (getAttr node1.KramdownIAL NodeAttrNameAVs) =
          RemoveDuplicatedElem (splitIDs (getAttr node.KramdownIAL NodeAttrNameAVs)) ++
            (if operation.AvID ∈ splitIDs (getAttr node.KramdownIAL NodeAttrNameAVs) then []
             else [operation.AvID]) ∧
        ∀ id ∈ splitIDs (getAttr node.KramdownIAL NodeAttrNameAVs),
          id ∈ splitIDs (getAttr node1.KramdownIAL NodeAttrNameAVs)) ∧
      (splitIDs (getAttr node1.KramdownIAL NodeAttrNameAVs)).count operation.AvID = 1 ∧
      (splitIDs (getAttr node1.KramdownIAL NodeAttrNameAVs)).Nodup := by
  have ha := anchoredTo_of_fresh blockID attrView.Rows hset hfresh
  have hid : node.ID = blockID := by
    unfold GetNodeInTree at hn
    have h0 := List.find?_some (p := fun n : Node => n.ID == blockID) hn
    simpa using h0
  obtain ⟨attrs, hattrs⟩ : ∃ attrs, attrs =
      mergeAvID (placeholderAttrs operation.AvID node.KramdownIAL attrView.Columns)
        operation.AvID := ⟨_, rfl⟩
  have hnode1 : ∀ nodes, nodes = replaceFirst (fun n => n.ID == node.ID)
      { node with KramdownIAL := attrs } tree.Nodes →
      GetNodeInTree { tree with Nodes := nodes } blockID =
        some { node with KramdownIAL := attrs } := by
    intro nodes hnodes
    unfold GetNodeInTree at hn ⊢
    dsimp only
    rw [hnodes, hid]
    exact find?_replaceFirst _ _ (by simp [hid]) _ _ hn
  obtain ⟨h1, h2, h3, h4⟩ :=
    mergeAvID_spec (placeholderAttrs operation.AvID node.KramdownIAL attrView.Columns)
      operation.AvID hcomma
  rw [getAttr_placeholderAttrs] at h1 h2
  rw [← hattrs] at h1 h2 h3 h4
  have htn : ¬ (NodeAttributeView == node.Typ) = true := by
    simpa using fun h => hty h.symm
  have hprops :
      (getAttr node.KramdownIAL NodeAttrNameAVs = "" →
        getAttr attrs NodeAttrNameAVs = operation.AvID) ∧
      (getAttr node.KramdownIAL NodeAttrNameAVs ≠ "" →
        splitIDs (getAttr attrs NodeAttrNameAVs) =
          RemoveDuplicatedElem (splitIDs (getAttr node.KramdownIAL NodeAttrNameAVs)) ++
            (if operation.AvID ∈ splitIDs (getAttr node.KramdownIAL NodeAttrNameAVs) then []
             else [operation.AvID]) ∧
        ∀ id ∈ splitIDs (getAttr node.KramdownIAL NodeAttrNameAVs),
          id ∈ splitIDs (getAttr attrs NodeAttrNameAVs)) ∧
      (splitIDs (getAttr attrs NodeAttrNameAVs)).count operation.AvID = 1 ∧
      (splitIDs (getAttr attrs NodeAttrNameAVs)).Nodup := by
    refine ⟨h1, fun hne => ⟨h2 hne, fun id hid => ?_⟩, h3, h4⟩
    rw [h2 hne]
    exact List.mem_append_left _ (mem_RemoveDuplicatedElem.2 hid)
  unfold addAttributeViewBlock
  rw [hn]
  dsimp only
  rw [if_neg htn]
  simp only [hb, Bool.not_true, Bool.false_eq_true, if_false, hp, ha]
  rw [← hattrs]
  unfold setNodeAttrsWithTx
  simp only [htx, if_true]
  unfold SaveAttributeView
  cases hsv : w.avWritable with
  | false =>
    simp only [Bool.false_eq_true, if_false]
    exact ⟨_, _, _, rfl, fun h => (by cases h), hnode1 _ rfl, hprops⟩
  | true =>
    simp only [if_true]
    exact ⟨_, _, _, rfl, fun _ => rfl, hnode1 _ rfl, hprops⟩

/-- Witness of C20: the block `B2`, already listed under `av0,av9`, is added to
the sample view `av1`. -/
theorem C20_custom_avs_membership_witness :
    (GetNodeInTree linkedTree "B2" = some
        { ID := "B2", Typ := "NodeParagraph",
          KramdownIAL := [("id", "B2"), ("custom-avs", "av0,av9")],
          RefText := "second block", Buildable := true } ∧
      ParseAttributeView linkedWorld sampleOperation.AvID = .ok sampleView ∧
      (∀ row ∈ sampleView.Rows, row.anchorSet) ∧
      (∀ row ∈ sampleView.Rows, ¬ row.anchoredAt "B2") ∧
      ',' ∉ sampleOperation.AvID.data ∧
      getAttr [("id", "B2"), ("custom-avs", "av0,av9")] NodeAttrNameAVs = "av0,av9") ∧
    (∃ w1 tree1 node1,
      (addAttributeViewBlock linkedWorld "B2" sampleOperation linkedTree).state? =
        some (w1, tree1) ∧
      (linkedWorld.avWritable = true →
        (addAttributeViewBlock linkedWorld "B2" sampleOperation linkedTree).error? = none) ∧
      GetNodeInTree tree1 "B2" = some node1 ∧
      (getAttr [("id", "B2"), ("custom-avs", "av0,av9")] NodeAttrNameAVs = "" →
        getAttr node1.KramdownIAL NodeAttrNameAVs = sampleOperation.AvID) ∧
      (getAttr [("id", "B2"), ("custom-avs", "av0,av9")] NodeAttrNameAVs ≠ "" →
        splitIDs (getAttr node1.KramdownIAL NodeAttrNameAVs) =
          RemoveDuplicatedElem
              (splitIDs (getAttr [("id", "B2"), ("custom-avs", "av0,av9")] NodeAttrNameAVs)) ++
            (if sampleOperation.AvID ∈
                splitIDs (getAttr [("id", "B2"), ("custom-avs", "av0,av9")] NodeAttrNameAVs)
             then [] else [sampleOperation.AvID]) ∧
        ∀ id ∈ splitIDs (getAttr [("id", "B2"), ("custom-avs", "av0,av9")] NodeAttrNameAVs),
          id ∈ splitIDs (getAttr node1.KramdownIAL NodeAttrNameAVs)) ∧
      (splitIDs (getAttr node1.KramdownIAL NodeAttrNameAVs)).count sampleOperation.AvID = 1 ∧
      (splitIDs (getAttr node1.KramdownIAL NodeAttrNameAVs)).Nodup) :=
  have hset : ∀ row ∈ sampleView.Rows, row.anchorSet := by
    intro row hrow cell hcell
    simp only [sampleView, List.mem_singleton] at hrow
    subst hrow
    have hc : some (NewCellBlock "cellB" "B1" "first block") = some cell := hcell
    cases hc
    exact ⟨_, _, rfl, rfl⟩
  have hfresh : ∀ row ∈ sampleView.Rows, ¬ row.anchoredAt "B2" := by
    intro row hrow h
    simp only [sampleView, List.mem_singleton] at hrow
    subst hrow
    obtain ⟨cell, value, block, hg, hv, hb, hid⟩ := h
    have hc : some (NewCellBlock "cellB" "B1" "first block") = some cell := hg
    cases hc
    simp only [NewCellBlock, Option.some.injEq] at hv
    subst hv
    simp only [Option.some.injEq] at hb
    subst hb
    exact absurd hid (by decide)
  ⟨⟨rfl, rfl, hset, hfresh, by decide, rfl⟩,
   C20_custom_avs_membership linkedWorld "B2" sampleOperation linkedTree _ sampleView
     rfl (by decide) rfl rfl hset hfresh rfl (by decide)⟩

/-! ## Retrying a mutation -/

theorem putAttributeView_idem {a b : AttributeView} (h : a.ID = b.ID) :
    ∀ (avs : List AttributeView),
      putAttributeView (putAttributeView avs a) b = putAttributeView avs b
  | [] => by simp [putAttributeView, h]
  | x :: avs => by
    have ih := putAttributeView_idem h avs
    by_cases hx : (x.ID == a.ID) = true
    · have hx1 : (x.ID == b.ID) = true := by rw [← h]; exact hx
      have hab : (a.ID == b.ID) = true := by simp [h]
      simp only [putAttributeView, hx, hx1, hab, if_true]
    · have hx1 : ¬ (x.ID == b.ID) = true := by rw [← h]; exact hx
      simp [putAttributeView, hx, hx1, ih]

theorem previousIndexOf_le {α : Type} (getID : α → String) (xs : List α) (previousID : String) :
    previousIndexOf getID xs previousID ≤ xs.length := by
  unfold previousIndexOf
  cases hf : findWithIndex (fun x => getID x == previousID) xs with
  | none => exact Nat.zero_le _
  | some r =>
    obtain ⟨i, x⟩ := r
    have := findWithIndex_lt hf
    dsimp only
    omega

theorem getElem?_InsertElem_self {α : Type} (s : List α) (j : Nat) (v : α)
    (hj : j ≤ s.length) : (InsertElem s j v)[j]? = some v := by
  unfold InsertElem
  rw [List.getElem?_append_right (by simp [Nat.min_eq_left hj])]
  simp [Nat.min_eq_left hj]

theorem eraseIdx_InsertElem {α : Type} (s : List α) (j : Nat) (v : α)
    (hj : j ≤ s.length) : (InsertElem s j v).eraseIdx j = s := by
  unfold InsertElem
  rw [List.eraseIdx_append_of_length_le (by simp [Nat.min_eq_left hj])]
  simp [Nat.min_eq_left hj]

theorem findWithIndex_InsertElem {α : Type} {p : α → Bool} (s : List α) (j : Nat) (v : α)
    (hj : j ≤ s.length) (hv : p v = true) (hs : ∀ x ∈ s, p x = false) :
    findWithIndex p (InsertElem s j v) = some (j, v) := by
  apply findWithIndex_of_first (getElem?_InsertElem_self s j v hj) hv
  intro k y hk hy
  unfold InsertElem at hy
  rw [List.getElem?_append_left (by simp [Nat.min_eq_left hj]; exact hk)] at hy
  exact hs y (List.mem_of_mem_take (List.mem_iff_getElem?.2 ⟨k, hy⟩))

/-- Moving the element of ID `id` after the element of ID `prev` a second time
finds it where the first move put it and puts it there again. -/
theorem move_again {α : Type} (getID : α → String) (prev : String) {l : List α}
    {id : String} {i : Nat} {x : α} (hnd : (l.map getID).Nodup)
    (hf : findWithIndex (fun y => getID y == id) l = some (i, x)) :
    findWithIndex (fun y => getID y == id)
        (InsertElem (l.eraseIdx i) (previousIndexOf getID (l.eraseIdx i) prev) x) =
      some (previousIndexOf getID (l.eraseIdx i) prev, x) ∧
    (InsertElem (l.eraseIdx i) (previousIndexOf getID (l.eraseIdx i) prev) x).eraseIdx
        (previousIndexOf getID (l.eraseIdx i) prev) = l.eraseIdx i := by
  obtain ⟨hx, hpx, _⟩ := findWithIndex_some hf
  have hid : getID x = id := by simpa using hpx
  obtain ⟨_, hne⟩ := nodup_eraseIdx_ids getID hnd hx
  have hle := previousIndexOf_le getID (l.eraseIdx i) prev
  refine ⟨findWithIndex_InsertElem _ _ _ hle hpx ?_, eraseIdx_InsertElem _ _ _ hle⟩
  intro y hy
  have := hne y hy
  rw [hid] at this
  simpa using this

theorem forEach_fixed {α : Type} {g : α → Option α} (hg : ∀ x y, g x = some y → g y = some y) :
    ∀ {l l1 : List α}, forEach g l = some l1 → forEach g l1 = some l1
  | [], l1, h => by
    simp only [forEach, Option.some.injEq] at h
    subst h
    rfl
  | x :: l, l1, h => by
    unfold forEach at h
    cases hx : g x with
    | none => rw [hx] at h; cases h
    | some y =>
      rw [hx] at h
      dsimp only at h
      cases hl : forEach g l with
      | none => rw [hl] at h; cases h
      | some ys =>
        rw [hl] at h
        cases h
        simp [forEach, hg x y hx, forEach_fixed hg hl]

/-- When a call leaves the persisted world as it was, calling again gives the
same outcome. -/
theorem retry_same {ε : Type} (f : World → Res ε World) (w w1 : World)
    (h1 : (f w).state? = some w1) (hw : w1 = w) :
    ∃ w2, (f w1).state? = some w2 ∧ w2.avs = w1.avs := by
  subst hw
  exact ⟨w1, h1, rfl⟩

theorem save_again (w : World) (attrView : AttributeView) :
    ∃ w2, (saveAndReturn { w with avs := putAttributeView w.avs attrView } attrView).state? =
        some w2 ∧ w2.avs = putAttributeView w.avs attrView := by
  rcases saveAndReturn_state { w with avs := putAttributeView w.avs attrView } attrView
    with ⟨_, h⟩ | ⟨_, e, h⟩
  · rw [h]
    exact ⟨_, rfl, putAttributeView_idem rfl _⟩
  · rw [h]
    exact ⟨_, rfl, rfl⟩

theorem forEach_id {α : Type} {g : α → Option α} :
    ∀ {l : List α}, (∀ x ∈ l, g x = some x) → forEach g l = some l
  | [], _ => rfl
  | x :: l, h => by
    simp [forEach, h x (List.mem_cons_self _ _),
      forEach_id (l := l) (fun y hy => h y (List.mem_cons_of_mem _ hy))]

theorem sortAttributeViewRow_retry (w : World) (operation : Operation)
    (hnd : ∀ attrView, ParseAttributeView w operation.AvID = .ok attrView →
      (attrView.Rows.map Row.ID).Nodup) :
    ∀ w1, (sortAttributeViewRow w operation).state? = some w1 →
      ∃ w2, (sortAttributeViewRow w1 operation).state? = some w2 ∧ w2.avs = w1.avs := by
  intro w1 h1
  have h0 := h1
  unfold sortAttributeViewRow at h0
  cases hp : ParseAttributeView w operation.AvID with
  | error e =>
    rw [hp] at h0
    cases h0
    exact retry_same (fun v => sortAttributeViewRow v operation) _ _ h1 rfl
  | ok attrView =>
    rw [hp] at h0
    dsimp only at h0
    cases hf : findWithIndex (fun r => r.ID == operation.ID) attrView.Rows with
    | none =>
      rw [hf] at h0
      cases h0
      exact retry_same (fun v => sortAttributeViewRow v operation) _ _ h1 rfl
    | some found =>
      obtain ⟨index, row⟩ := found
      rw [hf] at h0
      dsimp only at h0
      obtain ⟨hm1, hm2⟩ := move_again Row.ID operation.PreviousID
        (hnd attrView hp) hf
      generalize hj : previousIndexOf Row.ID (attrView.Rows.eraseIdx index)
        operation.PreviousID = j at h0 hm1 hm2
      rcases saveAndReturn_state w
        { attrView with Rows := InsertElem (attrView.Rows.eraseIdx index) j row }
        with ⟨_, hs⟩ | ⟨_, e, hs⟩
      · rw [hs] at h0
        cases h0
        unfold sortAttributeViewRow
        rw [parse_after_save w
          { attrView with Rows := InsertElem (attrView.Rows.eraseIdx index) j row }
          operation.AvID (parse_ok hp).2]
        dsimp only
        rw [hm1]
        dsimp only
        rw [hm2, hj]
        exact save_again w _
      · rw [hs] at h0
        cases h0
        exact retry_same (fun v => sortAttributeViewRow v operation) _ _ h1 rfl

theorem sortRowCells_again {index j : Nat} {row row1 : Row}
    (hj : j + 1 ≤ row.Cells.length) (hi : index < row.Cells.length)
    (h : sortRowCells index j row = some row1) : sortRowCells j j row1 = some row1 := by
  unfold sortRowCells at h
  rw [List.getElem?_eq_getElem hi] at h
  cases h
  have hle : j ≤ (row.Cells.eraseIdx index).length := by
    rw [List.length_eraseIdx]
    simp only [hi, if_true]
    omega
  unfold sortRowCells
  dsimp only
  rw [getElem?_InsertElem_self _ _ _ hle]
  dsimp only
  rw [eraseIdx_InsertElem _ _ _ hle]

theorem sortAttributeViewColumn_retry (w : World) (operation : Operation)
    (hwf : ∀ attrView, ParseAttributeView w operation.AvID = .ok attrView →
      (attrView.Columns.map Column.ID).Nodup ∧ Aligned attrView) :
    ∀ w1, (sortAttributeViewColumn w operation).state? = some w1 →
      ∃ w2, (sortAttributeViewColumn w1 operation).state? = some w2 ∧ w2.avs = w1.avs := by
  intro w1 h1
  have h0 := h1
  unfold sortAttributeViewColumn at h0
  cases hp : ParseAttributeView w operation.AvID with
  | error e =>
    rw [hp] at h0
    cases h0
    exact retry_same (fun v => sortAttributeViewColumn v operation) _ _ h1 rfl
  | ok attrView =>
    rw [hp] at h0
    dsimp only at h0
    obtain ⟨hnd, hal⟩ := hwf attrView hp
    cases hf : findWithIndex (fun column => column.ID == operation.ID) attrView.Columns with
    | none =>
      rw [hf] at h0
      cases h0
      exact retry_same (fun v => sortAttributeViewColumn v operation) _ _ h1 rfl
    | some found =>
      obtain ⟨index, col⟩ := found
      rw [hf] at h0
      dsimp only at h0
      have hlt := findWithIndex_lt hf
      obtain ⟨hm1, hm2⟩ := move_again Column.ID operation.PreviousID hnd hf
      have hjle := previousIndexOf_le Column.ID (attrView.Columns.eraseIdx index)
        operation.PreviousID
      generalize hj : previousIndexOf Column.ID (attrView.Columns.eraseIdx index)
        operation.PreviousID = j at h0 hm1 hm2 hjle
      have hjlt : j + 1 ≤ attrView.Columns.length := by
        rw [List.length_eraseIdx] at hjle
        simp only [hlt, if_true] at hjle
        omega
      cases hrows : forEach (sortRowCells index j) attrView.Rows with
      | none =>
        rw [hrows] at h0
        cases h0
      | some rows =>
        rw [hrows] at h0
        dsimp only at h0
        have hall : List.Forall₂ (fun x y => sortRowCells index j x = some y ∧
            x.Cells.length = attrView.Columns.length) attrView.Rows rows := by
          obtain ⟨rows2, h2, hq⟩ := forEach_forall₂
            (f := sortRowCells index j)
            (Q := fun x y => sortRowCells index j x = some y ∧
              x.Cells.length = attrView.Columns.length)
            (l := attrView.Rows)
            (fun row hrow => by
              have h0 : ∃ row1, sortRowCells index j row = some row1 ∧
                  (row1.Cells.length = attrView.Columns.length ∧ ∀ cell ∈ row1.Cells, True) :=
                sortRowCells_ok hlt ⟨hal row hrow, fun _ _ => trivial⟩
              obtain ⟨row1, hr1, _⟩ := h0
              exact ⟨row1, hr1, hr1, hal row hrow⟩)
          rw [hrows] at h2
          cases h2
          exact hq
        have hfix : forEach (sortRowCells j j) rows = some rows := by
          apply forEach_id
          intro row1 hrow1
          obtain ⟨row, _, hq, hlen⟩ := forall₂_mem_right hall row1 hrow1
          exact sortRowCells_again (by omega) (by omega) hq
        rcases saveAndReturn_state w
          { attrView with
            Columns := InsertElem (attrView.Columns.eraseIdx index) j col, Rows := rows }
          with ⟨_, hs⟩ | ⟨_, e, hs⟩
        · rw [hs] at h0
          cases h0
          unfold sortAttributeViewColumn
          rw [parse_after_save w
            { attrView with
              Columns := InsertElem (attrView.Columns.eraseIdx index) j col, Rows := rows }
            operation.AvID (parse_ok hp).2]
          dsimp only
          rw [hm1]
          dsimp only
          rw [hm2, hj, hfix]
          exact save_again w _
        · rw [hs] at h0
          cases h0
          exact retry_same (fun v => sortAttributeViewColumn v operation) _ _ h1 rfl

theorem removeAttributeViewColumn_retry (w : World) (columnID avID : String)
    (hnd : ∀ attrView, ParseAttributeView w avID = .ok attrView →
      (attrView.Columns.map Column.ID).Nodup) :
    ∀ w1, (removeAttributeViewColumn w columnID avID).state? = some w1 →
      ∃ w2, (removeAttributeViewColumn w1 columnID avID).state? = some w2 ∧
        w2.avs = w1.avs := by
  intro w1 h1
  have h0 := h1
  unfold removeAttributeViewColumn at h0
  cases hp : ParseAttributeView w avID with
  | error e =>
    rw [hp] at h0
    cases h0
    exact retry_same (fun v => removeAttributeViewColumn v columnID avID) _ _ h1 rfl
  | ok attrView =>
    rw [hp] at h0
    dsimp only at h0
    cases hf : findWithIndex (fun column => column.ID == columnID) attrView.Columns with
    | none =>
      rw [hf] at h0
      dsimp only at h0
      rcases saveAndReturn_state w attrView with ⟨_, hs⟩ | ⟨_, e, hs⟩
      · rw [hs] at h0
        cases h0
        unfold removeAttributeViewColumn
        rw [parse_after_save w attrView avID (parse_ok hp).2]
        dsimp only
        rw [hf]
        exact save_again w _
      · rw [hs] at h0
        cases h0
        exact retry_same (fun v => removeAttributeViewColumn v columnID avID) _ _ h1 rfl
    | some found =>
      obtain ⟨i, col⟩ := found
      rw [hf] at h0
      dsimp only at h0
      obtain ⟨hi, hpc, _⟩ := findWithIndex_some hf
      have hgone : findWithIndex (fun column => column.ID == columnID)
          (attrView.Columns.eraseIdx i) = none := by
        apply findWithIndex_eq_none
        intro y hy
        have hne := (nodup_eraseIdx_ids Column.ID (hnd attrView hp) hi).2 y hy
        have hid : col.ID = columnID := by simpa using hpc
        rw [hid] at hne
        simpa using hne
      rcases saveAndReturn_state w
        { attrView with
          Columns := attrView.Columns.eraseIdx i,
          Rows := attrView.Rows.map (removeRowCell i) }
        with ⟨_, hs⟩ | ⟨_, e, hs⟩
      · rw [hs] at h0
        cases h0
        unfold removeAttributeViewColumn
        rw [parse_after_save w
          { attrView with
            Columns := attrView.Columns.eraseIdx i,
            Rows := attrView.Rows.map (removeRowCell i) }
          avID (parse_ok hp).2]
        dsimp only
        rw [hgone]
        exact save_again w _
      · rw [hs] at h0
        cases h0
        exact retry_same (fun v => removeAttributeViewColumn v columnID avID) _ _ h1 rfl

theorem removeOption_of_absent (optName : String) :
    ∀ (opts : List ColumnSelectOption), (∀ o ∈ opts, o.Name ≠ optName) →
      removeOption optName opts = opts
  | [], _ => rfl
  | opt :: opts, h => by
    have h1 : (opt.Name != optName) = true := by
      simpa using h opt (List.mem_cons_self _ _)
    simp only [removeOption, h1, if_true]
    rw [removeOption_of_absent optName opts (fun o ho => h o (List.mem_cons_of_mem _ ho))]

theorem removeOption_again (optName : String) :
    ∀ (opts : List ColumnSelectOption), (opts.map ColumnSelectOption.Name).Nodup →
      removeOption optName (removeOption optName opts) = removeOption optName opts
  | [], _ => rfl
  | opt :: opts, hnd => by
    simp only [List.map_cons, List.nodup_cons] at hnd
    by_cases h1 : (opt.Name != optName) = true
    · simp only [removeOption, h1, if_true]
      rw [removeOption_again optName opts hnd.2]
    · have heq : opt.Name = optName := by simpa using h1
      simp only [removeOption, h1]
      apply removeOption_of_absent
      intro o ho hname
      apply hnd.1
      rw [heq, ← hname]
      exact List.mem_map_of_mem _ ho

theorem findWithIndex_set {α : Type} {p : α → Bool} {l : List α} {i : Nat} {x y : α}
    (hf : findWithIndex p l = some (i, x)) (hy : p y = true) :
    findWithIndex p (l.set i y) = some (i, y) := by
  obtain ⟨_, _, hfirst⟩ := findWithIndex_some hf
  have hlt := findWithIndex_lt hf
  apply findWithIndex_of_first (by simp [List.getElem?_set, hlt]) hy
  intro k z hk hz
  rw [List.getElem?_set_ne (by omega)] at hz
  exact hfirst k z hk hz

theorem removeCellOption_again {optName : String} {cell cell1 : Cell}
    (h : removeCellOption optName cell = some cell1) :
    removeCellOption optName cell1 = some cell1 := by
  unfold removeCellOption at h
  cases hv : cell.Value with
  | none =>
    rw [hv] at h
    cases h
    unfold removeCellOption
    rw [hv]
  | some value =>
    rw [hv] at h
    dsimp only at h
    cases hm : value.MSelect with
    | none =>
      rw [hm] at h
      cases h
      unfold removeCellOption
      rw [hv]
      dsimp only
      rw [hm]
    | some mSelect =>
      rw [hm] at h
      cases mSelect with
      | nil =>
        simp only [removeContent, Option.some.injEq] at h
        subst h
        simp [removeCellOption, removeContent]
      | cons o rest =>
        cases o with
        | none => simp [removeContent] at h
        | some first =>
          dsimp only at h
          by_cases hc : (optName == first.Content) = true
          · rw [if_pos hc] at h
            cases h
            simp [removeCellOption]
          · rw [if_neg hc] at h
            cases h
            unfold removeCellOption
            rw [hv]
            dsimp only
            rw [hm]
            dsimp only
            rw [if_neg hc]

theorem onCellAt_again {f : Cell → Option Cell}
    (hf : ∀ x y, f x = some y → f y = some y) (colIndex : Nat) :
    ∀ (row row1 : Row), onCellAt f colIndex row = some row1 →
      onCellAt f colIndex row1 = some row1 := by
  intro row row1 h
  unfold onCellAt at h
  cases hc : row.Cells[colIndex]? with
  | none =>
    rw [hc] at h
    cases h
    unfold onCellAt
    rw [hc]
  | some cell =>
    rw [hc] at h
    dsimp only at h
    cases hfc : f cell with
    | none =>
      rw [hfc] at h
      cases h
    | some cell1 =>
      rw [hfc] at h
      cases h
      have hlt : colIndex < row.Cells.length := (List.getElem?_eq_some.1 hc).1
      unfold onCellAt
      dsimp only
      rw [List.getElem?_set_self hlt]
      dsimp only
      rw [hf cell cell1 hfc]
      dsimp only
      rw [List.set_set]

theorem removeAttributeViewColumnOption_retry (w : World) (operation : Operation)
    (hnd : ∀ attrView, ParseAttributeView w operation.ParentID = .ok attrView →
      ∀ col ∈ attrView.Columns, (col.Options.map ColumnSelectOption.Name).Nodup) :
    ∀ w1, (removeAttributeViewColumnOption w operation).state? = some w1 →
      ∃ w2, (removeAttributeViewColumnOption w1 operation).state? = some w2 ∧
        w2.avs = w1.avs := by
  intro w1 h1
  have h0 := h1
  unfold removeAttributeViewColumnOption at h0
  dsimp only at h0
  cases hp : ParseAttributeView w operation.ParentID with
  | error e =>
    rw [hp] at h0
    cases h0
    exact retry_same (fun v => removeAttributeViewColumnOption v operation) _ _ h1 rfl
  | ok attrView =>
    rw [hp] at h0
    dsimp only at h0
    cases hd : operation.Data with
    | bool b => rw [hd] at h0; cases h0
    | record fields => rw [hd] at h0; cases h0
    | json raw => rw [hd] at h0; cases h0
    | str optName =>
      rw [hd] at h0
      dsimp only at h0
      have hcell := fun (x y : Cell) (h : removeCellOption optName x = some y) =>
        removeCellOption_again h
      cases hf : findWithIndex (fun col => col.ID == operation.ID) attrView.Columns with
      | none =>
        rw [hf] at h0
        dsimp only at h0
        cases hrows : forEach (onCellAt (removeCellOption optName) 0) attrView.Rows with
        | none => rw [hrows] at h0; cases h0
        | some rows =>
          rw [hrows] at h0
          dsimp only at h0
          have hfix := forEach_fixed (onCellAt_again hcell 0) hrows
          rcases saveAndReturn_state w { attrView with Columns := attrView.Columns, Rows := rows }
            with ⟨_, hs⟩ | ⟨_, e, hs⟩
          · rw [hs] at h0
            cases h0
            unfold removeAttributeViewColumnOption
            dsimp only
            rw [parse_after_save w { attrView with Columns := attrView.Columns, Rows := rows }
              operation.ParentID (parse_ok hp).2]
            dsimp only
            rw [hd]
            dsimp only
            rw [hf]
            dsimp only
            rw [hfix]
            exact save_again w _
          · rw [hs] at h0
            cases h0
            exact retry_same (fun v => removeAttributeViewColumnOption v operation) _ _ h1 rfl
      | some found =>
        obtain ⟨i, col⟩ := found
        rw [hf] at h0
        dsimp only at h0
        obtain ⟨hi, hpc, _⟩ := findWithIndex_some hf
        have hopts := removeOption_again optName col.Options
          (hnd attrView hp col (List.mem_iff_getElem?.2 ⟨_, hi⟩))
        cases hrows : forEach (onCellAt (removeCellOption optName) i) attrView.Rows with
        | none => rw [hrows] at h0; cases h0
        | some rows =>
          rw [hrows] at h0
          dsimp only at h0
          have hfix := forEach_fixed (onCellAt_again hcell i) hrows
          have hf1 : findWithIndex (fun col => col.ID == operation.ID)
              (attrView.Columns.set i { col with Options := removeOption optName col.Options }) =
              some (i, { col with Options := removeOption optName col.Options }) :=
            findWithIndex_set hf hpc
          rcases saveAndReturn_state w
            { attrView with
              Columns := attrView.Columns.set i
                { col with Options := removeOption optName col.Options },
              Rows := rows }
            with ⟨_, hs⟩ | ⟨_, e, hs⟩
          · rw [hs] at h0
            cases h0
            unfold removeAttributeViewColumnOption
            dsimp only
            rw [parse_after_save w
              { attrView with
                Columns := attrView.Columns.set i
                  { col with Options := removeOption optName col.Options },
                Rows := rows }
              operation.ParentID (parse_ok hp).2]
            dsimp only
            rw [hd]
            dsimp only
            rw [hf1]
            dsimp only
            rw [hfix, hopts, List.set_set]
            exact save_again w _
          · rw [hs] at h0
            cases h0
            exact retry_same (fun v => removeAttributeViewColumnOption v operation) _ _ h1 rfl

theorem anchoredTo_false (blockID : String) :
    ∀ (rows : List Row), anchoredTo blockID rows = some false →
      (∀ row ∈ rows, row.anchorSet) ∧ (∀ row ∈ rows, ¬ row.anchoredAt blockID)
  | [], _ => ⟨by simp, by simp⟩
  | row :: rows, h => by
    unfold anchoredTo at h
    cases hg : row.GetBlockCell with
    | none =>
      rw [hg] at h
      dsimp only at h
      obtain ⟨ih1, ih2⟩ := anchoredTo_false blockID rows h
      refine ⟨fun r hr => ?_, fun r hr => ?_⟩
      · rcases List.mem_cons.1 hr with rfl | hr
        · intro cell hcell
          rw [hg] at hcell
          cases hcell
        · exact ih1 r hr
      · rcases List.mem_cons.1 hr with rfl | hr
        · rintro ⟨cell, _, _, hcell, _⟩
          rw [hg] at hcell
          cases hcell
        · exact ih2 r hr
    | some blockCell =>
      rw [hg] at h
      dsimp only at h
      cases hv : blockCell.Value with
      | none => rw [hv] at h; cases h
      | some value =>
        rw [hv] at h
        dsimp only at h
        cases hb : value.Block with
        | none => rw [hb] at h; cases h
        | some block =>
          rw [hb] at h
          dsimp only at h
          by_cases heq : (block.ID == blockID) = true
          · rw [if_pos heq] at h
            cases h
          · rw [if_neg heq] at h
            obtain ⟨ih1, ih2⟩ := anchoredTo_false blockID rows h
            refine ⟨fun r hr => ?_, fun r hr => ?_⟩
            · rcases List.mem_cons.1 hr with rfl | hr
              · intro cell hcell
                rw [hg] at hcell
                cases hcell
                exact ⟨value, block, hv, hb⟩
              · exact ih1 r hr
            · rcases List.mem_cons.1 hr with rfl | hr
              · rintro ⟨cell, value1, block1, hcell, hv1, hb1, hid⟩
                rw [hg] at hcell
                cases hcell
                rw [hv] at hv1
                cases hv1
                rw [hb] at hb1
                cases hb1
                exact heq (by simp [hid])
              · exact ih2 r hr

theorem newRowCells_anchor (ids : Nat → String) (blockID refText : String) :
    ∀ (n : Nat) (cols : List Column),
      (∀ cell, (newRowCells ids blockID refText n cols).find?
          (fun cell => cell.ValueType == ColumnTypeBlock) = some cell →
        ∃ id, cell = NewCellBlock id blockID refText) ∧
      ((∃ col ∈ cols, col.Typ = ColumnTypeBlock) →
        ∃ cell, (newRowCells ids blockID refText n cols).find?
          (fun cell => cell.ValueType == ColumnTypeBlock) = some cell)
  | _, [] => ⟨by simp [newRowCells], by simp⟩
  | n, col :: cols => by
    obtain ⟨ih1, ih2⟩ := newRowCells_anchor ids blockID refText (n + 1) cols
    unfold newRowCells
    by_cases hb : (ColumnTypeBlock != col.Typ) = true
    · have hne : (col.Typ == ColumnTypeBlock) = false := by
        simp only [bne_iff_ne, ne_eq] at hb
        simpa using fun e => hb e.symm
      rw [if_pos hb]
      simp only [List.find?_cons, NewCell, hne]
      refine ⟨ih1, fun h => ih2 ?_⟩
      obtain ⟨c, hc, hty⟩ := h
      rcases List.mem_cons.1 hc with rfl | hc
      · rw [hty] at hne
        simp at hne
      · exact ⟨c, hc, hty⟩
    · rw [if_neg hb]
      have ht : ((NewCellBlock (ids n) blockID refText).ValueType == ColumnTypeBlock) = true := by
        simp [NewCellBlock]
      simp only [List.find?_cons, ht]
      exact ⟨fun cell h => ⟨ids n, by cases h; rfl⟩, fun _ => ⟨_, rfl⟩⟩

theorem newRow_anchored (ids : Nat → String) (blockID refText rowID : String) (n : Nat)
    (cols : List Column) :
    Row.anchorSet { ID := rowID, Cells := newRowCells ids blockID refText n cols } ∧
      ((∃ col ∈ cols, col.Typ = ColumnTypeBlock) →
        Row.anchoredAt { ID := rowID, Cells := newRowCells ids blockID refText n cols } blockID) := by
  obtain ⟨h1, h2⟩ := newRowCells_anchor ids blockID refText n cols
  constructor
  · intro cell hcell
    obtain ⟨id, rfl⟩ := h1 cell hcell
    exact ⟨_, _, rfl, rfl⟩
  · intro hcol
    obtain ⟨cell, hcell⟩ := h2 hcol
    obtain ⟨id, rfl⟩ := h1 cell hcell
    exact ⟨_, _, _, hcell, rfl, rfl, rfl⟩

theorem insertRow_cases (rows : List Row) (row : Row) (previousID : String) :
    row ∈ insertRow rows row previousID ∨ ∀ r, insertRow rows r previousID = rows := by
  unfold insertRow
  by_cases h : ("" == previousID) = true
  · left
    rw [if_pos h]
    exact List.mem_cons_self _ _
  · cases hf : findWithIndex (fun r => r.ID == previousID) rows with
    | none =>
      right
      intro r
      rw [if_neg h]
    | some found =>
      obtain ⟨i, x⟩ := found
      left
      rw [if_neg h]
      dsimp only
      exact List.mem_append_right _ (List.mem_cons_self _ _)

theorem parse_of_avs {w w1 : World} (h : w1.avs = w.avs) (avID : String) :
    ParseAttributeView w1 avID = ParseAttributeView w avID := by
  unfold ParseAttributeView
  rw [h]

theorem parse_of_put {w1 : World} {avs : List AttributeView} {attrView : AttributeView}
    (h : w1.avs = putAttributeView avs attrView) :
    ParseAttributeView w1 attrView.ID = .ok attrView := by
  unfold ParseAttributeView
  rw [h, find_putAttributeView]

/-- The three ways a call of addAttributeViewBlock can end: a panic, a return
that leaves world and tree as they were, or the path that builds a new row. -/
theorem addAttributeViewBlock_cases (w : World) (blockID : String) (operation : Operation)
    (tree : Tree) :
    (addAttributeViewBlock w blockID operation tree).state? = none ∨
      (addAttributeViewBlock w blockID operation tree).state? = some (w, tree) ∨
      ∃ node attrView, GetNodeInTree tree blockID = some node ∧
        (NodeAttributeView == node.Typ) = false ∧ node.Buildable = true ∧
        ParseAttributeView w operation.AvID = .ok attrView ∧
        anchoredTo blockID attrView.Rows = some false := by
  unfold addAttributeViewBlock
  cases hn : GetNodeInTree tree blockID with
  | none => exact Or.inr (Or.inl rfl)
  | some node =>
    dsimp only
    cases ht : (NodeAttributeView == node.Typ) with
    | true => exact Or.inr (Or.inl rfl)
    | false =>
      cases hb : node.Buildable with
      | false => exact Or.inr (Or.inl rfl)
      | true =>
        simp only [Bool.false_eq_true, if_false, Bool.not_true]
        cases hp : ParseAttributeView w operation.AvID with
        | error e => exact Or.inr (Or.inl rfl)
        | ok attrView =>
          dsimp only
          cases ha : anchoredTo blockID attrView.Rows with
          | none => exact Or.inl rfl
          | some b =>
            cases b with
            | true => exact Or.inr (Or.inl rfl)
            | false => exact Or.inr (Or.inr ⟨node, attrView, rfl, ht, hb, rfl, ha⟩)

/-- A call for a block that already anchors a row returns world and tree as they
are. -/
theorem addAttributeViewBlock_duplicate {w : World} {blockID : String} {operation : Operation}
    {tree : Tree} {node : Node} {attrView : AttributeView}
    (hn : GetNodeInTree tree blockID = some node)
    (hb : node.Buildable = true)
    (hp : ParseAttributeView w operation.AvID = .ok attrView)
    (ha : anchoredTo blockID attrView.Rows = some true) :
    (addAttributeViewBlock w blockID operation tree).state? = some (w, tree) := by
  unfold addAttributeViewBlock
  rw [hn]
  dsimp only
  cases ht : (NodeAttributeView == node.Typ) with
  | true => rfl
  | false =>
    simp only [Bool.false_eq_true, if_false, hb, Bool.not_true, hp, ha]
    rfl

/-- The outcome of the path of addAttributeViewBlock that builds a new row. -/
theorem addAttributeViewBlock_fresh {w : World} {blockID : String} (operation : Operation)
    {tree : Tree} {node : Node} {attrView : AttributeView}
    (hn : GetNodeInTree tree blockID = some node)
    (ht : (NodeAttributeView == node.Typ) = false) (hb : node.Buildable = true)
    (hp : ParseAttributeView w operation.AvID = .ok attrView)
    (ha : anchoredTo blockID attrView.Rows = some false) :
    ∃ w1 tree1 node1 row,
      (addAttributeViewBlock w blockID operation tree).state? = some (w1, tree1) ∧
      GetNodeInTree tree1 blockID = some node1 ∧
      node1.Typ = node.Typ ∧ node1.Buildable = node.Buildable ∧
      w1.avWritable = w.avWritable ∧ w1.txWritable = w.txWritable ∧
      row.anchorSet ∧
      ((∃ col ∈ attrView.Columns, col.Typ = ColumnTypeBlock) → row.anchoredAt blockID) ∧
      ((w.txWritable = true ∧ w.avWritable = true ∧
          w1.avs = putAttributeView w.avs
            { attrView with Rows := insertRow attrView.Rows row operation.PreviousID }) ∨
        ((w.txWritable = false ∨ w.avWritable = false) ∧ w1.avs = w.avs)) := by
  have hid : node.ID = blockID := by
    unfold GetNodeInTree at hn
    have h0 := List.find?_some (p := fun n : Node => n.ID == blockID) hn
    simpa using h0
  obtain ⟨attrs, hattrs⟩ : ∃ attrs, attrs =
      mergeAvID (placeholderAttrs operation.AvID node.KramdownIAL attrView.Columns)
        operation.AvID := ⟨_, rfl⟩
  have hnode1 : ∀ nodes, nodes = replaceFirst (fun n => n.ID == node.ID)
      { node with KramdownIAL := attrs } tree.Nodes →
      GetNodeInTree { tree with Nodes := nodes } blockID =
        some { node with KramdownIAL := attrs } := by
    intro nodes hnodes
    unfold GetNodeInTree at hn ⊢
    dsimp only
    rw [hnodes, hid]
    exact find?_replaceFirst _ _ (by simp [hid]) _ _ hn
  obtain ⟨hrow1, hrow2⟩ := newRow_anchored w.ids blockID node.RefText (w.ids w.nextID)
    (w.nextID + 1) attrView.Columns
  unfold addAttributeViewBlock
  rw [hn]
  dsimp only
  simp only [ht, Bool.false_eq_true, if_false, hb, Bool.not_true, hp, ha]
  rw [← hattrs]
  unfold setNodeAttrsWithTx
  cases htx : w.txWritable with
  | false =>
    simp only [Bool.false_eq_true, if_false]
    refine ⟨_, _, node, _, rfl, hn, rfl, ?_, ?_, ?_, hrow1, hrow2, ?_⟩
    · first | rfl | exact hb
    · rfl
    · rfl
    · simp
  | true =>
    simp only [if_true]
    unfold SaveAttributeView
    cases hsv : w.avWritable with
    | false =>
      simp only [Bool.false_eq_true, if_false]
      refine ⟨_, _, _, _, rfl, hnode1 _ rfl, rfl, ?_, ?_, ?_, hrow1, hrow2, ?_⟩
      · first | rfl | exact hb
      · rfl
      · rfl
      · simp
    | true =>
      simp only [if_true]
      refine ⟨_, _, _, _, rfl, hnode1 _ rfl, rfl, ?_, ?_, ?_, hrow1, hrow2, ?_⟩
      · first | rfl | exact hb
      · rfl
      · rfl
      · simp

theorem addAttributeViewBlock_retry (w : World) (blockID : String) (operation : Operation)
    (tree : Tree)
    (hblock : ∀ attrView, ParseAttributeView w operation.AvID = .ok attrView →
      ∃ col ∈ attrView.Columns, col.Typ = ColumnTypeBlock) :
    ∀ w1 tree1, (addAttributeViewBlock w blockID operation tree).state? = some (w1, tree1) →
      ∃ w2 tree2, (addAttributeViewBlock w1 blockID operation tree1).state? = some (w2, tree2) ∧
        w2.avs = w1.avs := by
  intro w1 tree1 h1
  rcases addAttributeViewBlock_cases w blockID operation tree with
    hnone | hsame | ⟨node, attrView, hn, ht, hb, hp, ha⟩
  · rw [hnone] at h1
    cases h1
  · rw [hsame] at h1
    cases h1
    exact ⟨w, tree, hsame, rfl⟩
  · obtain ⟨w0, tree0, node1, row, hstate0, hn1, hty1, hb1, haw, htw, hrs, hra, hout⟩ :=
      addAttributeViewBlock_fresh operation hn ht hb hp ha
    rw [hstate0] at h1
    cases h1
    have ht1 : (NodeAttributeView == node1.Typ) = false := by rw [hty1]; exact ht
    have hbb : node1.Buildable = true := by rw [hb1]; exact hb
    rcases hout with ⟨htx, hav, havs⟩ | ⟨hflags, havs⟩
    · have hp1 : ParseAttributeView w1 operation.AvID =
          .ok { attrView with Rows := insertRow attrView.Rows row operation.PreviousID } := by
        have h0 : ParseAttributeView w1 attrView.ID =
            .ok { attrView with Rows := insertRow attrView.Rows row operation.PreviousID } :=
          parse_of_put havs
        have hid : attrView.ID = operation.AvID := (parse_ok hp).2
        exact (congrArg (ParseAttributeView w1) hid).symm.trans h0
      rcases insertRow_cases attrView.Rows row operation.PreviousID with hin | hnot
      · obtain ⟨hset, _⟩ := anchoredTo_false blockID attrView.Rows ha
        have ha1 : anchoredTo blockID (insertRow attrView.Rows row operation.PreviousID) =
            some true := by
          apply anchoredTo_of_duplicate
          · intro r hr
            rcases mem_insertRow hr with h | h
            · exact hset r h
            · rw [h]
              exact hrs
          · exact ⟨row, hin, hra (hblock attrView hp)⟩
        exact ⟨w1, tree1, addAttributeViewBlock_duplicate hn1 hbb hp1 ha1, rfl⟩
      · have hrows : insertRow attrView.Rows row operation.PreviousID = attrView.Rows := hnot row
        rw [hrows] at hp1 havs
        obtain ⟨w2, tree2, node2, row2, hstate2, _, _, _, _, _, _, _, hout2⟩ :=
          addAttributeViewBlock_fresh operation hn1 ht1 hbb hp1 ha
        refine ⟨w2, tree2, hstate2, ?_⟩
        rcases hout2 with ⟨_, _, havs2⟩ | ⟨_, havs2⟩
        · rw [havs2]
          dsimp only
          rw [hnot row2, havs]
          exact putAttributeView_idem rfl _
        · exact havs2
    · have hp1 : ParseAttributeView w1 operation.AvID = .ok attrView := by
        rw [parse_of_avs havs]
        exact hp
      obtain ⟨w2, tree2, node2, row2, hstate2, _, _, _, _, _, _, _, hout2⟩ :=
        addAttributeViewBlock_fresh operation hn1 ht1 hbb hp1 ha
      refine ⟨w2, tree2, hstate2, ?_⟩
      rcases hout2 with ⟨htx2, hav2, _⟩ | ⟨_, havs2⟩
      · exfalso
        rcases hflags with h | h
        · rw [htw, h] at htx2
          cases htx2
        · rw [haw, h] at hav2
          cases hav2
      · exact havs2

/-- C15, counterexample to the statement as written: add-column is not
idempotent.  On the scenario view (two columns) the request adding the column
Score gives three columns when applied once and four when applied twice: every
call draws a fresh column ID and appends. -/
theorem C15_add_column_twice_counterexample :
    ∃ w1 w2, addAttributeViewColumn pairWorld addScore = .ok w1 ∧
      addAttributeViewColumn w1 addScore = .ok w2 ∧
      w1.avs.map (fun a => a.Columns.length) = [3] ∧
      w2.avs.map (fun a => a.Columns.length) = [4] ∧
      w2.avs ≠ w1.avs :=
  ⟨_, _, rfl, rfl, rfl, rfl, by decide⟩

/-- C15, amended. Idempotent on retry: applying the same request a second time
leaves the persisted attribute views as the first application left them, for
reorder-row (row IDs distinct), reorder-column (column IDs distinct, one cell
per column in every row), remove-column (column IDs distinct), remove-option
(option names distinct within each column) and add-block (the view has a
Block-typed column; the second call gets the tree as the first left it).  Each
part says: whenever the first call returns, the second call returns too, with
the same persisted attribute views. -/
theorem C15_idempotent_on_retry (w : World) :
    (∀ operation,
      (∀ attrView, ParseAttributeView w operation.AvID = .ok attrView →
        (attrView.Rows.map Row.ID).Nodup) →
      ∀ w1, (sortAttributeViewRow w operation).state? = some w1 →
        ∃ w2, (sortAttributeViewRow w1 operation).state? = some w2 ∧ w2.avs = w1.avs) ∧
    (∀ operation,
      (∀ attrView, ParseAttributeView w operation.AvID = .ok attrView →
        (attrView.Columns.map Column.ID).Nodup ∧ Aligned attrView) →
      ∀ w1, (sortAttributeViewColumn w operation).state? = some w1 →
        ∃ w2, (sortAttributeViewColumn w1 operation).state? = some w2 ∧ w2.avs = w1.avs) ∧
    (∀ columnID avID,
      (∀ attrView, ParseAttributeView w avID = .ok attrView →
        (attrView.Columns.map Column.ID).Nodup) →
      ∀ w1, (removeAttributeViewColumn w columnID avID).state? = some w1 →
        ∃ w2, (removeAttributeViewColumn w1 columnID avID).state? = some w2 ∧
          w2.avs = w1.avs) ∧
    (∀ operation,
      (∀ attrView, ParseAttributeView w operation.ParentID = .ok attrView →
        ∀ col ∈ attrView.Columns, (col.Options.map ColumnSelectOption.Name).Nodup) →
      ∀ w1, (removeAttributeViewColumnOption w operation).state? = some w1 →
        ∃ w2, (removeAttributeViewColumnOption w1 operation).state? = some w2 ∧
          w2.avs = w1.avs) ∧
    (∀ blockID operation tree,
      (∀ attrView, ParseAttributeView w operation.AvID = .ok attrView →
        ∃ col ∈ attrView.Columns, col.Typ = ColumnTypeBlock) →
      ∀ w1 tree1, (addAttributeViewBlock w blockID operation tree).state? = some (w1, tree1) →
        ∃ w2 tree2, (addAttributeViewBlock w1 blockID operation tree1).state? =
          some (w2, tree2) ∧ w2.avs = w1.avs) :=
  ⟨fun operation h => sortAttributeViewRow_retry w operation h,
   fun operation h => sortAttributeViewColumn_retry w operation h,
   fun columnID avID h => removeAttributeViewColumn_retry w columnID avID h,
   fun operation h => removeAttributeViewColumnOption_retry w operation h,
   fun blockID operation tree h => addAttributeViewBlock_retry w blockID operation tree h⟩

/-- Witness of C15 amended: each of the five requests applied twice, on the
sample worlds. -/
theorem C15_idempotent_on_retry_witness :
    (∃ w1, (sortAttributeViewRow threeRowsWorld moveFirstAfterSecond).state? = some w1 ∧
      (threeRows.Rows.map Row.ID).Nodup ∧
      ∃ w2, (sortAttributeViewRow w1 moveFirstAfterSecond).state? = some w2 ∧
        w2.avs = w1.avs) ∧
    (∃ w1, (sortAttributeViewColumn sampleWorld sampleOperation).state? = some w1 ∧
      (sampleView.Columns.map Column.ID).Nodup ∧
      ∃ w2, (sortAttributeViewColumn w1 sampleOperation).state? = some w2 ∧
        w2.avs = w1.avs) ∧
    (∃ w1, (removeAttributeViewColumn sampleWorld "colT" "av1").state? = some w1 ∧
      ∃ w2, (removeAttributeViewColumn w1 "colT" "av1").state? = some w2 ∧
        w2.avs = w1.avs) ∧
    (∃ w1, (removeAttributeViewColumnOption sampleWorld removeRed).state? = some w1 ∧
      ∃ w2, (removeAttributeViewColumnOption w1 removeRed).state? = some w2 ∧
        w2.avs = w1.avs) ∧
    (∃ w1 tree1,
      (addAttributeViewBlock sampleWorld "B2" sampleOperation sampleTree).state? =
        some (w1, tree1) ∧
      ∃ w2 tree2, (addAttributeViewBlock w1 "B2" sampleOperation tree1).state? =
        some (w2, tree2) ∧ w2.avs = w1.avs) :=
  have hthree : ∀ a, ParseAttributeView threeRowsWorld moveFirstAfterSecond.AvID = .ok a →
      a = threeRows := by
    intro a h
    have h0 : ParseAttributeView threeRowsWorld moveFirstAfterSecond.AvID = .ok threeRows := rfl
    rw [h0] at h
    cases h
    rfl
  have hsample : ∀ a, ParseAttributeView sampleWorld "av1" = .ok a → a = sampleView := by
    intro a h
    have h0 : ParseAttributeView sampleWorld "av1" = .ok sampleView := rfl
    rw [h0] at h
    cases h
    rfl
  have hal : Aligned sampleView := by
    intro row hrow
    simp only [sampleView, List.mem_singleton] at hrow
    subst hrow
    rfl
  ⟨⟨_, rfl, by decide,
     (C15_idempotent_on_retry threeRowsWorld).1 moveFirstAfterSecond
       (fun a h => by rw [hthree a h]; decide) _ rfl⟩,
   ⟨_, rfl, by decide,
     (C15_idempotent_on_retry sampleWorld).2.1 sampleOperation
       (fun a h => by rw [hsample a h]; exact ⟨by decide, hal⟩) _ rfl⟩,
   ⟨_, rfl,
     (C15_idempotent_on_retry sampleWorld).2.2.1 "colT" "av1"
       (fun a h => by rw [hsample a h]; decide) _ rfl⟩,
   ⟨_, rfl,
     (C15_idempotent_on_retry sampleWorld).2.2.2.1 removeRed
       (fun a h => by rw [hsample a h]; decide) _ rfl⟩,
   ⟨_, _, rfl,
     (C15_idempotent_on_retry sampleWorld).2.2.2.2 "B2" sampleOperation sampleTree
       (fun a h => by rw [hsample a h]; exact ⟨_, List.mem_cons_self _ _, rfl⟩) _ _ rfl⟩⟩

/-! ## Option edits on an unknown column: what stays -/

theorem forEach_rel {α : Type} {f : α → Option α} {Q : α → α → Prop}
    (hf : ∀ x y, f x = some y → Q x y) :
    ∀ {l l1 : List α}, forEach f l = some l1 → List.Forall₂ Q l l1
  | [], l1, h => by
    simp only [forEach, Option.some.injEq] at h
    subst h
    exact List.Forall₂.nil
  | a :: l, l1, h => by
    simp only [forEach] at h
    cases hy : f a with
    | none => simp [hy] at h
    | some y =>
      cases hl : forEach f l with
      | none => simp [hy, hl] at h
      | some ys =>
        simp only [hy, hl, Option.some.injEq] at h
        subst h
        exact List.Forall₂.cons (hf a y hy) (forEach_rel hf hl)

/-- The cell loop at column index 0 keeps the ID of the row, the number of its
cells and every cell after the first. -/
theorem onCellAt_zero_frame (f : Cell → Option Cell) (row row1 : Row)
    (h : onCellAt f 0 row = some row1) :
    row1.ID = row.ID ∧ row1.Cells.length = row.Cells.length ∧
      row1.Cells.drop 1 = row.Cells.drop 1 := by
  unfold onCellAt at h
  cases hc : row.Cells[0]? with
  | none =>
    simp only [hc, Option.some.injEq] at h
    subst h
    exact ⟨rfl, rfl, rfl⟩
  | some cell =>
    simp only [hc] at h
    cases hfc : f cell with
    | none => simp [hfc] at h
    | some cell1 =>
      simp only [hfc, Option.some.injEq] at h
      subst h
      refine ⟨rfl, by simp, ?_⟩
      cases hcs : row.Cells with
      | nil => rfl
      | cons c cs => simp [List.set]

/-- What the option functions do once no column has the given ID: the column
index is 0, the columns are kept, and the cell loop runs at index 0. -/
theorem unknownColumn_frame (f : Cell → Option Cell) (w w1 : World)
    (attrView : AttributeView)
    (h : (match forEach (onCellAt f 0) attrView.Rows with
          | none => Res.panic
          | some rows =>
            saveAndReturn w { attrView with Columns := attrView.Columns, Rows := rows }) =
        .ok w1) :
    ∃ attrView1, ParseAttributeView w1 attrView.ID = .ok attrView1 ∧
      attrView1.Columns = attrView.Columns ∧
      List.Forall₂ (fun row row1 => row1.ID = row.ID ∧
        row1.Cells.length = row.Cells.length ∧ row1.Cells.drop 1 = row.Cells.drop 1)
        attrView.Rows attrView1.Rows := by
  cases hr : forEach (onCellAt f 0) attrView.Rows with
  | none => simp [hr] at h
  | some rows =>
    simp only [hr] at h
    rcases saveAndReturn_state w { attrView with Columns := attrView.Columns, Rows := rows }
      with ⟨_, hs⟩ | ⟨_, e, hs⟩
    · rw [hs] at h
      injection h with h
      subst h
      exact ⟨_, parse_after_save w { attrView with Columns := attrView.Columns, Rows := rows }
        attrView.ID rfl, rfl, forEach_rel (onCellAt_zero_frame f) hr⟩
    · rw [hs] at h
      cases h

/-- With a column ID that matches no column, removeAttributeViewColumnOption
keeps the columns with their Options and every cell after the first of every
row. -/
theorem removeAttributeViewColumnOption_unknown (w w1 : World) (operation : Operation)
    (attrView : AttributeView)
    (hp : ParseAttributeView w operation.ParentID = .ok attrView)
    (hu : ∀ col ∈ attrView.Columns, col.ID ≠ operation.ID)
    (h : removeAttributeViewColumnOption w operation = .ok w1) :
    ∃ attrView1, ParseAttributeView w1 operation.ParentID = .ok attrView1 ∧
      attrView1.Columns = attrView.Columns ∧
      List.Forall₂ (fun row row1 => row1.ID = row.ID ∧
        row1.Cells.length = row.Cells.length ∧ row1.Cells.drop 1 = row.Cells.drop 1)
        attrView.Rows attrView1.Rows := by
  have hn : findWithIndex (fun col => col.ID == operation.ID) attrView.Columns = none :=
    findWithIndex_eq_none (fun col hc => by simpa using hu col hc)
  have hid : attrView.ID = operation.ParentID := (parse_ok hp).2
  unfold removeAttributeViewColumnOption at h
  simp only [hp, hn] at h
  cases hd : operation.Data with
  | str optName =>
    simp only [hd] at h
    rw [← hid]
    exact unknownColumn_frame (removeCellOption optName) w w1 attrView h
  | bool b => simp [hd] at h
  | record data => simp [hd] at h
  | json j => simp [hd] at h

/-- With a column ID that matches no column, updateAttributeViewColumnOption
keeps the columns with their Options and every cell after the first of every
row. -/
theorem updateAttributeViewColumnOption_unknown (w w1 : World) (operation : Operation)
    (attrView : AttributeView)
    (hp : ParseAttributeView w operation.ParentID = .ok attrView)
    (hu : ∀ col ∈ attrView.Columns, col.ID ≠ operation.ID)
    (h : updateAttributeViewColumnOption w operation = .ok w1) :
    ∃ attrView1, ParseAttributeView w1 operation.ParentID = .ok attrView1 ∧
      attrView1.Columns = attrView.Columns ∧
      List.Forall₂ (fun row row1 => row1.ID = row.ID ∧
        row1.Cells.length = row.Cells.length ∧ row1.Cells.drop 1 = row.Cells.drop 1)
        attrView.Rows attrView1.Rows := by
  have hn : findWithIndex (fun col => col.ID == operation.ID) attrView.Columns = none :=
    findWithIndex_eq_none (fun col hc => by simpa using hu col hc)
  have hid : attrView.ID = operation.ParentID := (parse_ok hp).2
  unfold updateAttributeViewColumnOption at h
  simp only [hp, hn] at h
  cases hd : operation.Data with
  | record data =>
    simp only [hd] at h
    cases ho : recordField data "oldName" with
    | none => simp [ho] at h
    | some oldName =>
      cases hnn : recordField data "newName" with
      | none => simp [ho, hnn] at h
      | some newName =>
        cases hc : recordField data "newColor" with
        | none => simp [ho, hnn, hc] at h
        | some newColor =>
          simp only [ho, hnn, hc] at h
          rw [← hid]
          exact unknownColumn_frame (updateCellOption oldName newName newColor) w w1 attrView h
  | str s => simp [hd] at h
  | bool b => simp [hd] at h
  | json j => simp [hd] at h

/-! ## Add block after a row that does not exist -/

theorem insertRow_unmatched (rows : List Row) (row : Row) (previousID : String)
    (hprev : previousID ≠ "") (hno : ∀ r ∈ rows, r.ID ≠ previousID) :
    insertRow rows row previousID = rows := by
  have hn : findWithIndex (fun r => r.ID == previousID) rows = none :=
    findWithIndex_eq_none (fun r hr => by simpa using hno r hr)
  have he : ¬ ("" == previousID) = true := by
    simpa using fun h => hprev h.symm
  unfold insertRow
  rw [if_neg he, hn]

/-- What addAttributeViewBlock does for an accepted block when PreviousID is not
empty and is the ID of no row, all writes succeeding: it returns no error, the
block lists the attribute view in custom-avs, and the attribute view is saved as
it was read, with no row anchored to the block. -/
theorem addAttributeViewBlock_unmatched (w : World) (blockID : String) (operation : Operation)
    (tree : Tree) (node : Node) (attrView : AttributeView)
    (hn : GetNodeInTree tree blockID = some node)
    (hty : node.Typ ≠ NodeAttributeView) (hb : node.Buildable = true)
    (hp : ParseAttributeView w operation.AvID = .ok attrView)
    (ha : anchoredTo blockID attrView.Rows = some false)
    (htx : w.txWritable = true) (hav : w.avWritable = true)
    (hcomma : ',' ∉ operation.AvID.data)
    (hprev : operation.PreviousID ≠ "")
    (hno : ∀ r ∈ attrView.Rows, r.ID ≠ operation.PreviousID) :
    ∃ w1 tree1 node1,
      addAttributeViewBlock w blockID operation tree = .ok (w1, tree1) ∧
      GetNodeInTree tree1 blockID = some node1 ∧
      operation.AvID ∈ splitIDs (getAttr node1.KramdownIAL NodeAttrNameAVs) ∧
      ParseAttributeView w1 operation.AvID = .ok attrView ∧
      ∀ row ∈ attrView.Rows, ¬ row.anchoredAt blockID := by
  have hid : node.ID = blockID := by
    unfold GetNodeInTree at hn
    have h0 := List.find?_some (p := fun n : Node => n.ID == blockID) hn
    simpa using h0
  have haid : attrView.ID = operation.AvID := (parse_ok hp).2
  obtain ⟨attrs, hattrs⟩ : ∃ attrs, attrs =
      mergeAvID (placeholderAttrs operation.AvID node.KramdownIAL attrView.Columns)
        operation.AvID := ⟨_, rfl⟩
  have hnode1 : ∀ nodes, nodes = replaceFirst (fun n => n.ID == node.ID)
      { node with KramdownIAL := attrs } tree.Nodes →
      GetNodeInTree { tree with Nodes := nodes } blockID =
        some { node with KramdownIAL := attrs } := by
    intro nodes hnodes
    unfold GetNodeInTree at hn ⊢
    dsimp only
    rw [hnodes, hid]
    exact find?_replaceFirst _ _ (by simp [hid]) _ _ hn
  obtain ⟨_, _, h3, _⟩ :=
    mergeAvID_spec (placeholderAttrs operation.AvID node.KramdownIAL attrView.Columns)
      operation.AvID hcomma
  rw [← hattrs] at h3
  have hmem : operation.AvID ∈ splitIDs (getAttr attrs NodeAttrNameAVs) :=
    List.count_pos_iff.1 (by rw [h3]; exact Nat.one_pos)
  have htn : ¬ (NodeAttributeView == node.Typ) = true := by
    simpa using fun h => hty h.symm
  unfold addAttributeViewBlock
  rw [hn]
  dsimp only
  rw [if_neg htn]
  simp only [hb, Bool.not_true, Bool.false_eq_true, if_false, hp, ha]
  rw [← hattrs, insertRow_unmatched _ _ _ hprev hno]
  unfold setNodeAttrsWithTx
  simp only [htx, if_true]
  unfold SaveAttributeView
  simp only [hav, if_true]
  refine ⟨_, _, _, rfl, hnode1 _ rfl, hmem, ?_, (anchoredTo_false blockID _ ha).2⟩
  rw [← haid]
  exact parse_of_put rfl

/-! ## Mirror and store on add -/

/-- C21. Mirror and store on add, evaluated on the view `tagsView` with the
accepted block `B2` and PreviousID `r9`, the ID of no row: addAttributeViewBlock
returns no error and has written the ID of the view into the custom-avs attribute
of the block, but the saved view has the single row anchored to `B1` and no row
whose Block cell references `B2`.  With an empty PreviousID the same call saves a
row referencing `B2`. -/
theorem C21_unmatched_previous_mirror_without_row :
    (∃ w1 tree1, addAttributeViewBlock tagsWorld "B2" addTagsAfterMissing sampleTree =
        .ok (w1, tree1) ∧
      customAvsOf sampleTree "B2" = some "" ∧
      customAvsOf tree1 "B2" = some "av3" ∧
      w1.trees = [tree1] ∧
      blockRefsOf w1 "av3" = some [some "B1"]) ∧
    (∃ w2 tree2, addAttributeViewBlock tagsWorld "B2" addTagsAtHead sampleTree =
        .ok (w2, tree2) ∧
      customAvsOf tree2 "B2" = some "av3" ∧
      blockRefsOf w2 "av3" = some [some "B2", some "B1"]) :=
  ⟨⟨_, _, rfl, rfl, rfl, rfl, rfl⟩, ⟨_, _, rfl, rfl, rfl⟩⟩

/-! ## Option edits on a column that does not exist -/

/-- C22. Option edits with the column ID `colX`, which matches no column of
`tagsFirstView` (the view `tagsView` after sortAttributeViewColumn has moved the
column `colS` to the front): both functions return no error and leave the Options of every
column as they were, but edit the cell at index 0 of the row, because the
column index keeps its zero value when no column matches.
updateAttributeViewColumnOption relabels the reference Red of that cell to
Crimson, removeAttributeViewColumnOption sets the value of that cell to nil. -/
theorem C22_unknown_column_edits_first_cell :
    sortAttributeViewColumn tagsWorld moveTagsFirst = .ok tagsFirstWorld ∧
    optionNamesOf tagsFirstWorld "av3" = some [["Red", "Green"], []] ∧
    selectRefsOf tagsFirstWorld "av3" = some [[["Red", "Green"], []]] ∧
    (tagsFirstView.Columns.map Column.ID = ["colS", "colB"] ∧
      renameRedUnknownColumn.ID = "colX" ∧ removeRedUnknownColumn.ID = "colX") ∧
    (∃ w1, updateAttributeViewColumnOption tagsFirstWorld renameRedUnknownColumn = .ok w1 ∧
      optionNamesOf w1 "av3" = some [["Red", "Green"], []] ∧
      selectRefsOf w1 "av3" = some [[["Crimson", "Green"], []]] ∧
      cellsOf w1 "av3" ≠ cellsOf tagsFirstWorld "av3") ∧
    (∃ w2, removeAttributeViewColumnOption tagsFirstWorld removeRedUnknownColumn = .ok w2 ∧
      optionNamesOf w2 "av3" = some [["Red", "Green"], []] ∧
      selectRefsOf w2 "av3" = some [[[], []]] ∧
      cellsOf w2 "av3" =
        some [[{ ID := "cellS", Value := none, ValueType := ColumnTypeMSelect },
               NewCellBlock "cellB" "B1" "first block"]]) :=
  ⟨rfl, rfl, rfl, ⟨rfl, rfl, rfl⟩, ⟨_, rfl, rfl, rfl, by decide⟩, ⟨_, rfl, rfl, rfl, rfl⟩⟩

end AttrView
